import Mathlib

/-!
OSIRIS (Iris_Osiris): pipeline orchestrator and circle model

Shallow embedding of `src/OsiManager.cpp` (`processOneEye`, `run`) and of the
moment formula of `src/OsiCircle.cpp` (`computeCircleFitting`).

* The member variables of the class `OsiManager` are the fields of the
  structure `OsiManager`; `initConfiguration` gives their initial values.
* `OsiEye`, `OsiStringUtils` and the file system are collaborators whose code
  is outside these two files.  They are taken as a parameter, the structure
  `World`: an operation of `OsiEye` either returns the updated eye or throws.
* Everything the program does that can be observed (lines on `std::cout`,
  calls on an `OsiEye`, calls of `processOneEye`, calls of `match`, opening and
  closing of the score file) is recorded, in order, in a list of `Event`s.
* Exceptions are values: a function that can throw returns the `what()` text
  on the error side.
-/

namespace Osiris

/-! ## Data model -/

/-- Pixel coordinates, the `CvPoint` of OpenCV. -/
structure CvPoint where
  x : Int
  y : Int
deriving DecidableEq, Repr

/-- Matrix of bytes (`CV_8UC1`), the type behind `mpApplicationPoints`;
`data` is row-major. -/
structure CvMat where
  rows : Nat
  cols : Nat
  data : List Nat
deriving DecidableEq, Repr

/-- Matrix of reals (`CV_32FC1`), the type of one Gabor filter; `data` is
row-major and holds the `float` values of the cells, as numbers. -/
structure CvMatF where
  rows : Nat
  cols : Nat
  data : List ℚ
deriving DecidableEq, Repr

/-- Member variables of the class `OsiManager` (the three maps of the
constructor apart, which are a fixed table). -/
structure OsiManager where
  mProcessSegmentation : Bool
  mProcessNormalization : Bool
  mProcessEncoding : Bool
  mProcessMatching : Bool
  mUseMask : Bool
  mListOfImages : List String
  mFilenameListOfImages : String
  mInputDirOriginalImages : String
  mInputDirMasks : String
  mInputDirParameters : String
  mInputDirNormalizedImages : String
  mInputDirNormalizedMasks : String
  mInputDirIrisCodes : String
  mOutputDirSegmentedImages : String
  mOutputDirParameters : String
  mOutputDirMasks : String
  mOutputDirNormalizedImages : String
  mOutputDirNormalizedMasks : String
  mOutputDirIrisCodes : String
  mOutputFileMatchingScores : String
  mMinPupilDiameter : Int
  mMaxPupilDiameter : Int
  mMinIrisDiameter : Int
  mMaxIrisDiameter : Int
  mWidthOfNormalizedIris : Int
  mHeightOfNormalizedIris : Int
  mFilenameGaborFilters : String
  mFilenameApplicationPoints : String
  mGaborFilters : List CvMatF
  mpApplicationPoints : Option CvMat
  mSuffixSegmentedImages : String
  mSuffixParameters : String
  mSuffixMasks : String
  mSuffixNormalizedImages : String
  mSuffixNormalizedMasks : String
  mSuffixIrisCodes : String
deriving DecidableEq, Repr

/-- `OsiManager::initConfiguration`: the value of every member after
construction. -/
def initConfiguration : OsiManager where
  mProcessSegmentation := false
  mProcessNormalization := false
  mProcessEncoding := false
  mProcessMatching := false
  mUseMask := true
  mListOfImages := []
  mFilenameListOfImages := ""
  mInputDirOriginalImages := ""
  mInputDirMasks := ""
  mInputDirParameters := ""
  mInputDirNormalizedImages := ""
  mInputDirNormalizedMasks := ""
  mInputDirIrisCodes := ""
  mOutputDirSegmentedImages := ""
  mOutputDirParameters := ""
  mOutputDirMasks := ""
  mOutputDirNormalizedImages := ""
  mOutputDirNormalizedMasks := ""
  mOutputDirIrisCodes := ""
  mOutputFileMatchingScores := ""
  mMinPupilDiameter := 21
  mMaxPupilDiameter := 91
  mMinIrisDiameter := 99
  mMaxIrisDiameter := 399
  mWidthOfNormalizedIris := 512
  mHeightOfNormalizedIris := 64
  mFilenameGaborFilters := "./filters.txt"
  mFilenameApplicationPoints := "./points.txt"
  mGaborFilters := []
  mpApplicationPoints := none
  mSuffixSegmentedImages := "_segm.bmp"
  mSuffixParameters := "_para.txt"
  mSuffixMasks := "_mask.bmp"
  mSuffixNormalizedImages := "_imno.bmp"
  mSuffixNormalizedMasks := "_mano.bmp"
  mSuffixIrisCodes := "_code.bmp"

/-- One call of a member function of `OsiEye` made by `processOneEye`, with
its arguments. -/
inductive EyeOp where
  | loadOriginalImage (path : String)
  | segment (minIris minPupil maxIris maxPupil : Int)
  | saveSegmentedImage (path : String)
  | initMask
  | loadParameters (path : String)
  | loadMask (path : String)
  | normalize (width height : Int)
  | loadNormalizedImage (path : String)
  | loadNormalizedMask (path : String)
  | encode (filters : List CvMatF)
  | loadIrisCode (path : String)
  | saveParameters (path : String)
  | saveMask (path : String)
  | saveNormalizedImage (path : String)
  | saveNormalizedMask (path : String)
  | saveIrisCode (path : String)
deriving DecidableEq, Repr

/-- What the program does that can be observed, in the order it happens. -/
inductive Event where
  | cout (line : String)
  | processOneEye (rFileName : String)
  | eyeOp (op : EyeOp)
  | matchCall (first second : Nat)
  | openReport (path : String)
  | closeReport
deriving DecidableEq, Repr

/-- The collaborators of `OsiManager`: `E` is the state of an `OsiEye`, `S` the
type of a matching score.
* `newEye`: the default-constructed `OsiEye`;
* `invoke op eye`: the member function `op` called on `eye`, giving the eye
  after the call or the `what()` of the exception it throws;
* `matchEyes eye eye2 mask`: `eye.match(eye2, mask)`;
* `canCreate path`: whether the file `path` can be opened for writing;
* `extractFileName`: `OsiStringUtils::extractFileName`. -/
structure World (E S : Type) where
  newEye : E
  invoke : EyeOp → E → Except String E
  matchEyes : E → E → Option CvMat → Except String S
  canCreate : String → Bool
  extractFileName : String → String

/-! ## processOneEye -/

/-- A statement of the body of `processOneEye`: a line on `std::cout`, a call
on `rEye`, or a `throw std::runtime_error`. -/
inductive Stmt where
  | cout (line : String)
  | call (op : EyeOp)
  | throw (what : String)
deriving DecidableEq, Repr

/-- The statements `processOneEye` runs for a configuration, in source order:
the concatenation of the blocks of the function, one list per block.  Every
guard of the function reads the configuration only, so the body is a straight
line of statements once the configuration is fixed; `short_name` is
`osu.extractFileName(rFileName)`. -/
def processOneEyeBody (m : OsiManager) (rFileName short_name : String) : List Stmt :=
  List.flatten [
    [Stmt.cout ("Process " ++ rFileName)],
    -- Load original image only if segmentation or normalization is requested
    (if m.mProcessSegmentation || m.mProcessNormalization then
      (if m.mInputDirOriginalImages != "" then
        [Stmt.call (.loadOriginalImage (m.mInputDirOriginalImages ++ rFileName))]
      else
        [Stmt.throw "Cannot segmente/normalize without loading original image"])
    else []),
    -- Segmentation step
    (if m.mProcessSegmentation then
      List.flatten [
        [Stmt.call (.segment m.mMinIrisDiameter m.mMinPupilDiameter
          m.mMaxIrisDiameter m.mMaxPupilDiameter)],
        -- Save segmented image
        (if m.mOutputDirSegmentedImages != "" then
          [Stmt.call (.saveSegmentedImage
            (m.mOutputDirSegmentedImages ++ short_name ++ m.mSuffixSegmentedImages))]
        else []),
        -- If user don't want to use the mask provided by Osiris
        (if !m.mUseMask then [Stmt.call .initMask] else [])]
    else []),
    -- Load parameters
    (if m.mInputDirParameters != "" then
      [Stmt.call (.loadParameters (m.mInputDirParameters ++ short_name ++ m.mSuffixParameters))]
    else []),
    -- Load mask
    (if m.mInputDirMasks != "" then
      [Stmt.call (.loadMask (m.mInputDirMasks ++ short_name ++ m.mSuffixMasks))]
    else []),
    -- Normalization step
    (if m.mProcessNormalization then
      [Stmt.call (.normalize m.mWidthOfNormalizedIris m.mHeightOfNormalizedIris)]
    else []),
    -- Load normalized image
    (if m.mInputDirNormalizedImages != "" then
      [Stmt.call (.loadNormalizedImage
        (m.mInputDirNormalizedImages ++ short_name ++ m.mSuffixNormalizedImages))]
    else []),
    -- Load normalized mask
    (if m.mInputDirNormalizedMasks != "" then
      [Stmt.call (.loadNormalizedMask
        (m.mInputDirNormalizedMasks ++ short_name ++ m.mSuffixNormalizedMasks))]
    else []),
    -- Encoding step
    (if m.mProcessEncoding then [Stmt.call (.encode m.mGaborFilters)] else []),
    -- Load iris code
    (if m.mInputDirIrisCodes != "" then
      [Stmt.call (.loadIrisCode (m.mInputDirIrisCodes ++ short_name ++ m.mSuffixIrisCodes))]
    else []),
    -- Save parameters
    (if m.mOutputDirParameters != "" then
      (if !m.mProcessSegmentation && (m.mInputDirParameters == "") then
        [Stmt.cout "Cannot save parameters because they are neither computed nor loaded"]
      else
        [Stmt.call (.saveParameters
          (m.mOutputDirParameters ++ short_name ++ m.mSuffixParameters))])
    else []),
    -- Save mask
    (if m.mOutputDirMasks != "" then
      (if !m.mProcessSegmentation && (m.mInputDirMasks == "") then
        [Stmt.cout "Cannot save masks because they are neither computed nor loaded"]
      else
        [Stmt.call (.saveMask (m.mOutputDirMasks ++ short_name ++ m.mSuffixMasks))])
    else []),
    -- Save normalized image
    (if m.mOutputDirNormalizedImages != "" then
      (if !m.mProcessNormalization && (m.mInputDirNormalizedImages == "") then
        [Stmt.cout "Cannot save normalized images because they are neither computed nor loaded"]
      else
        [Stmt.call (.saveNormalizedImage
          (m.mOutputDirNormalizedImages ++ short_name ++ m.mSuffixNormalizedImages))])
    else []),
    -- Save normalized mask
    (if m.mOutputDirNormalizedMasks != "" then
      (if !m.mProcessNormalization && (m.mInputDirNormalizedMasks == "") then
        [Stmt.cout "Cannot save normalized masks because they are neither computed nor loaded"]
      else
        [Stmt.call (.saveNormalizedMask
          (m.mOutputDirNormalizedMasks ++ short_name ++ m.mSuffixNormalizedMasks))])
    else []),
    -- Save iris code
    (if m.mOutputDirIrisCodes != "" then
      (if !m.mProcessEncoding && (m.mInputDirIrisCodes == "") then
        [Stmt.cout "Cannot save iris codes because they are neither computed nor loaded"]
      else
        [Stmt.call (.saveIrisCode (m.mOutputDirIrisCodes ++ short_name ++ m.mSuffixIrisCodes))])
    else [])]

/-- What one call of `processOneEye` did: the events, in order, and either the
eye it leaves or the `what()` of the exception that left the function. -/
structure ProcResult (E : Type) where
  events : List Event
  result : Except String E

/-- Runs statements in order on an eye, stopping at the first exception: a
call that throws is recorded (it was made) and nothing after it runs. -/
def execStmts {E S : Type} (w : World E S) : List Stmt → E → ProcResult E
  | [], eye => ⟨[], .ok eye⟩
  | Stmt.cout line :: rest, eye =>
      let r := execStmts w rest eye
      ⟨Event.cout line :: r.events, r.result⟩
  | Stmt.call op :: rest, eye =>
      match w.invoke op eye with
      | .ok eye1 =>
          let r := execStmts w rest eye1
          ⟨Event.eyeOp op :: r.events, r.result⟩
      | .error what => ⟨[Event.eyeOp op], .error what⟩
  | Stmt.throw what :: _, _ => ⟨[], .error what⟩

/-- `OsiManager::processOneEye(rFileName, rEye)`. -/
def processOneEye {E S : Type} (m : OsiManager) (w : World E S) (rFileName : String)
    (rEye : E) : ProcResult E :=
  let r := execStmts w (processOneEyeBody m rFileName (w.extractFileName rFileName)) rEye
  ⟨Event.processOneEye rFileName :: r.events, r.result⟩

/-! ## The score report, a `std::ofstream` -/

/-- One line of the score report: the text
`first`, a blank, `second`, a blank, `score`, end of line. -/
structure ScoreLine (S : Type) where
  first : String
  second : String
  score : S
deriving DecidableEq, Repr

/-- State of the `std::ofstream result_matching`: whether a file is attached,
whether `failbit` or `badbit` is set, and the lines that reached the file. -/
structure OFStream (S : Type) where
  is_open : Bool
  failed : Bool
  lines : List (ScoreLine S)
deriving DecidableEq, Repr

/-- The declaration `std::ofstream result_matching;`: no file, no error bit. -/
def ofstream_init {S : Type} : OFStream S := ⟨false, false, []⟩

/-- The test `if (result_matching)`, which is `!fail()`. -/
def ofstream_good {S : Type} (s : OFStream S) : Bool := !s.failed

/-- The call `result_matching.open(path, std::ios::out)`.  The exception mask of
the stream is never set in `run`, so a file that cannot be created sets
`failbit` and nothing is thrown: the result is never on the error side. -/
def ofstream_open {E S : Type} (w : World E S) (s : OFStream S) (path : String) :
    Except String (OFStream S) :=
  .ok (if !s.is_open && w.canCreate path then { s with is_open := true }
       else { s with failed := true })

/-- The three insertions that write one score line.  With an error bit set an
insertion does nothing; without a file it sets `badbit`; nothing is thrown
(the exception mask is never set). -/
def ofstream_write {S : Type} (s : OFStream S) (l : ScoreLine S) :
    Except String (OFStream S) :=
  .ok (if s.failed then s
       else if s.is_open then { s with lines := s.lines ++ [l] }
       else { s with failed := true })

/-- The call `result_matching.close()`: without a file it sets `failbit`. -/
def ofstream_close {S : Type} (s : OFStream S) : OFStream S :=
  if s.is_open then { s with is_open := false } else { s with failed := true }

/-! ## run -/

/-- What `run` has done so far: the events and the state of `result_matching`. -/
structure RunState (S : Type) where
  events : List Event
  result_matching : OFStream S

/-- Appends events to the state. -/
def RunState.emit {S : Type} (st : RunState S) (es : List Event) : RunState S :=
  { st with events := st.events ++ es }

/-- The progress line `i + 1`, ` / `, `mListOfImages.size()`. -/
def progressLine (i n : Nat) : String := toString (i + 1) ++ " / " ++ toString n

/-- One pass through the body of the `for` loop of `run`, entered with the
loop variable `i`.  Gives the value of the loop variable at the end of the
body (the body increments it when it processes a second eye; the `i++` of
the `for` statement comes after) and the state.  Every exception thrown
inside the `try` block is caught by `catch (std::exception &e)`, which prints
its `what()` (the exceptions of the collaborators derive from
`std::exception`).  Inside the loop `0 <= i < size()`, so the unsigned test
`i < mListOfImages.size() - 1` is the comparison of natural numbers. -/
def loopBody {E S : Type} (m : OsiManager) (w : World E S) (i : Nat)
    (hi : i < m.mListOfImages.length) (st : RunState S) : Nat × RunState S :=
  let st := st.emit [Event.cout (progressLine i m.mListOfImages.length)]
  -- Process the eye
  let r := processOneEye m w m.mListOfImages[i] w.newEye
  let st := st.emit r.events
  match r.result with
  | .error what => (i, st.emit [Event.cout what])
  | .ok eye =>
    -- Process a second eye if matching is requested
    if h : m.mProcessMatching = true ∧ i < m.mListOfImages.length - 1 then
      have hi2 : i + 1 < m.mListOfImages.length := by omega
      let st := st.emit [Event.cout (progressLine (i + 1) m.mListOfImages.length)]
      let r2 := processOneEye m w m.mListOfImages[i + 1] w.newEye
      let st := st.emit r2.events
      match r2.result with
      | .error what => (i + 1, st.emit [Event.cout what])
      | .ok eye2 =>
        -- Match the two iris codes
        let st := st.emit [Event.matchCall i (i + 1)]
        match w.matchEyes eye eye2 m.mpApplicationPoints with
        | .error what => (i + 1, st.emit [Event.cout what])
        | .ok score =>
          -- Save in file
          if ofstream_good st.result_matching then
            match ofstream_write st.result_matching
                ⟨m.mListOfImages[i], m.mListOfImages[i + 1], score⟩ with
            | .error what =>
                (i + 1, st.emit [Event.cout what,
                  Event.cout ("Error while saving result of matching in " ++
                    m.mOutputFileMatchingScores)])
            | .ok strm => (i + 1, { st with result_matching := strm })
          else (i + 1, st)
    else (i, st)

/-- The `for` loop of `run` from the value `i` of the loop variable. -/
def runLoop {E S : Type} (m : OsiManager) (w : World E S) (i : Nat) (st : RunState S) :
    RunState S :=
  if hi : i < m.mListOfImages.length then
    runLoop m w ((loopBody m w i hi st).1 + 1) (loopBody m w i hi st).2
  else st
termination_by m.mListOfImages.length - i
decreasing_by
  have hge : i ≤ (loopBody m w i hi st).1 := by
    unfold loopBody
    dsimp only
    split
    · exact Nat.le_refl i
    · split
      · split
        · exact Nat.le_succ i
        · split
          · exact Nat.le_succ i
          · split
            · split
              · exact Nat.le_succ i
              · exact Nat.le_succ i
            · exact Nat.le_succ i
      · exact Nat.le_refl i
  omega

/-- What `run` did: the events, the final state of `result_matching` (its
`lines` are the content of the score file) and the `what()` of the exception
that left `run`, if any. -/
structure RunResult (S : Type) where
  events : List Event
  result_matching : OFStream S
  thrown : Option String

/-- The part of `run` after the score file is opened: the loop, the closing
of the file and the closing banner. -/
def runImages {E S : Type} (m : OsiManager) (w : World E S) (st : RunState S) : RunResult S :=
  let st := runLoop m w 0 st
  -- If matching is requested, close the file
  let st : RunState S :=
    if ofstream_good st.result_matching then
      ⟨st.events ++ [Event.closeReport], ofstream_close st.result_matching⟩
    else st
  ⟨st.events ++ [Event.cout "", Event.cout "==============", Event.cout "End processing",
      Event.cout "==============", Event.cout ""],
    st.result_matching, none⟩

/-- `OsiManager::run()`. -/
def run {E S : Type} (m : OsiManager) (w : World E S) : RunResult S :=
  let st : RunState S :=
    ⟨[Event.cout "", Event.cout "================", Event.cout "Start processing",
      Event.cout "================", Event.cout ""], ofstream_init⟩
  -- If matching is requested, create a file
  if m.mProcessMatching && m.mOutputFileMatchingScores != "" then
    match ofstream_open w st.result_matching m.mOutputFileMatchingScores with
    | .error what =>
        ⟨st.events ++ [Event.openReport m.mOutputFileMatchingScores, Event.cout what],
          st.result_matching,
          some ("Cannot create the file for matching scores : " ++ m.mOutputFileMatchingScores)⟩
    | .ok strm =>
        runImages m w ⟨st.events ++ [Event.openReport m.mOutputFileMatchingScores], strm⟩
  else runImages m w st

/-! ## Views of the events -/

/-- The file names `processOneEye` was called with, in call order. -/
def processedNames (es : List Event) : List String :=
  es.filterMap fun e => match e with
    | Event.processOneEye name => some name
    | _ => none

/-- The calls of `match`, as pairs of positions in the image list, in call order. -/
def matchCalls (es : List Event) : List (Nat × Nat) :=
  es.filterMap fun e => match e with
    | Event.matchCall a b => some (a, b)
    | _ => none

/-- The calls made on an `OsiEye`, in call order. -/
def eyeCalls (es : List Event) : List EyeOp :=
  es.filterMap fun e => match e with
    | Event.eyeOp op => some op
    | _ => none

/-- The paths the score file was opened with. -/
def openedReports (es : List Event) : List String :=
  es.filterMap fun e => match e with
    | Event.openReport p => some p
    | _ => none

/-! ## Vocabulary of the claims about processOneEye -/

/-- The event a statement leaves when it runs to its end: a `throw` leaves none. -/
def stmtEvent : Stmt → Option Event
  | Stmt.cout line => some (Event.cout line)
  | Stmt.call op => some (Event.eyeOp op)
  | Stmt.throw _ => none

/-- The five artifact types that `processOneEye` loads and saves. -/
inductive Artifact where
  | parameters
  | mask
  | normalizedImage
  | normalizedMask
  | irisCode
deriving DecidableEq, Repr

/-- Whether the stage that computes the artifact is enabled: the flag tested
in the `if (!mProcess... && ...)` of the artifact's save block. -/
def Artifact.stage (m : OsiManager) : Artifact → Bool
  | .parameters => m.mProcessSegmentation
  | .mask => m.mProcessSegmentation
  | .normalizedImage => m.mProcessNormalization
  | .normalizedMask => m.mProcessNormalization
  | .irisCode => m.mProcessEncoding

/-- The call that computes the artifact, with the arguments `processOneEye`
passes. -/
def Artifact.computeOp (m : OsiManager) : Artifact → EyeOp
  | .parameters =>
      .segment m.mMinIrisDiameter m.mMinPupilDiameter m.mMaxIrisDiameter m.mMaxPupilDiameter
  | .mask =>
      .segment m.mMinIrisDiameter m.mMinPupilDiameter m.mMaxIrisDiameter m.mMaxPupilDiameter
  | .normalizedImage => .normalize m.mWidthOfNormalizedIris m.mHeightOfNormalizedIris
  | .normalizedMask => .normalize m.mWidthOfNormalizedIris m.mHeightOfNormalizedIris
  | .irisCode => .encode m.mGaborFilters

/-- The input directory of the artifact. -/
def Artifact.inputDir (m : OsiManager) : Artifact → String
  | .parameters => m.mInputDirParameters
  | .mask => m.mInputDirMasks
  | .normalizedImage => m.mInputDirNormalizedImages
  | .normalizedMask => m.mInputDirNormalizedMasks
  | .irisCode => m.mInputDirIrisCodes

/-- The file name suffix of the artifact. -/
def Artifact.suffix (m : OsiManager) : Artifact → String
  | .parameters => m.mSuffixParameters
  | .mask => m.mSuffixMasks
  | .normalizedImage => m.mSuffixNormalizedImages
  | .normalizedMask => m.mSuffixNormalizedMasks
  | .irisCode => m.mSuffixIrisCodes

/-- The call that loads the artifact from a path. -/
def Artifact.loadOp : Artifact → String → EyeOp
  | .parameters => .loadParameters
  | .mask => .loadMask
  | .normalizedImage => .loadNormalizedImage
  | .normalizedMask => .loadNormalizedMask
  | .irisCode => .loadIrisCode

/-- The result `processOneEye` gives for an image on a fresh eye, as `run`
calls it. -/
def procEye {E S : Type} (m : OsiManager) (w : World E S) (rFileName : String) :
    Except String E :=
  (processOneEye m w rFileName w.newEye).result

/-! ## Concrete inputs -/

/-- A concrete world: an eye is the list of the calls made on it, a call
throws exactly when it is listed in `bad`, the score of a match is the pair of
the two records, a file can be created unless its path is listed in `locked`,
and the short name of a file is the file name itself. -/
def traceWorld (bad : List EyeOp) (locked : List String) :
    World (List EyeOp) (List EyeOp × List EyeOp) where
  newEye := []
  invoke op eye := if op ∈ bad then .error "failed" else .ok (eye ++ [op])
  matchEyes eye eye2 _ := .ok (eye, eye2)
  canCreate path := decide (path ∉ locked)
  extractFileName rFileName := rFileName

/-- Segmentation enabled with input directories for the original images and
for the parameters, and an output directory for the masks. -/
def cfgSegLoad : OsiManager :=
  { initConfiguration with
    mProcessSegmentation := true
    mInputDirOriginalImages := "img/"
    mInputDirParameters := "par/"
    mOutputDirMasks := "out/" }

/-- Normalization enabled without an input directory for the original
images; an output directory for iris codes that are neither computed nor
loaded. -/
def cfgNoInput : OsiManager :=
  { initConfiguration with
    mProcessNormalization := true
    mOutputDirIrisCodes := "out/" }

/-- Matching enabled on four images whose iris codes are loaded from `codes/`,
scores written to `scores.txt`. -/
def cfgMatch4 : OsiManager :=
  { initConfiguration with
    mProcessMatching := true
    mInputDirIrisCodes := "codes/"
    mOutputFileMatchingScores := "scores.txt"
    mListOfImages := ["a", "b", "c", "d"] }

/-- The configuration `cfgMatch4` with three images. -/
def cfgMatch3 : OsiManager :=
  { cfgMatch4 with mListOfImages := ["a", "b", "c"] }

/-- The configuration `cfgMatch3` with matching disabled, the score path
still configured. -/
def cfgNoMatch3 : OsiManager :=
  { cfgMatch3 with mProcessMatching := false }

/-! ## OsiCircle: the moment formula of computeCircleFitting -/

/-- The seven sums accumulated by the second loop of `computeCircleFitting`. -/
structure MomentSums (K : Type) where
  suu : K
  svv : K
  suv : K
  suuu : K
  svvv : K
  suuv : K
  suvv : K

/-- One pass of the first loop: `mx += rPoints[p].x; my += rPoints[p].y`. -/
def addPoint {K : Type} [Field K] (acc : K × K) (p : CvPoint) : K × K :=
  (acc.1 + (p.x : K), acc.2 + (p.y : K))

/-- One pass of the second loop, in the `(u, v)` space. -/
def addMoments {K : Type} [Field K] (mx my : K) (s : MomentSums K) (p : CvPoint) :
    MomentSums K :=
  let u := (p.x : K) - mx
  let v := (p.y : K) - my
  { suu := s.suu + u * u
    svv := s.svv + v * v
    suv := s.suv + u * v
    suuu := s.suuu + u * u * u
    svvv := s.svvv + v * v * v
    suuv := s.suuv + u * u * v
    suvv := s.suvv + u * v * v }

/-- The values `computeCircleFitting` computes before it converts to integers. -/
structure CircleFit (K : Type) where
  mx : K
  my : K
  sums : MomentSums K
  denominator : K
  uc : K
  vc : K
  centerX : K
  centerY : K
  radicand : K

/-- `OsiCircle::computeCircleFitting` in exact arithmetic over a field `K`. -/
def computeCircleFitting (K : Type) [Field K] (rPoints : List CvPoint) : CircleFit K :=
  -- Compute the averages mx and my
  let acc := rPoints.foldl addPoint ((0 : K), (0 : K))
  let mx := acc.1 / (rPoints.length : K)
  let my := acc.2 / (rPoints.length : K)
  -- Build some sums
  let s := rPoints.foldl (addMoments mx my) ⟨0, 0, 0, 0, 0, 0, 0⟩
  let uc := (1 / 2) * (s.suv * (s.svvv + s.suuv) - s.svv * (s.suuu + s.suvv)) /
    (s.suv * s.suv - s.suu * s.svv)
  let vc := (1 / 2) * (s.suv * (s.suuu + s.suvv) - s.suu * (s.svvv + s.suuv)) /
    (s.suv * s.suv - s.suu * s.svv)
  { mx := mx
    my := my
    sums := s
    denominator := s.suv * s.suv - s.suu * s.svv
    uc := uc
    vc := vc
    centerX := uc + mx
    centerY := vc + my
    radicand := uc * uc + vc * vc + (s.suu + s.svv) / (rPoints.length : K) }

/-- All the points lie on one line: every three of them span no area. -/
def collinear (pts : List CvPoint) : Prop :=
  ∀ p ∈ pts, ∀ q ∈ pts, ∀ r ∈ pts,
    (q.x - p.x) * (r.y - p.y) - (q.y - p.y) * (r.x - p.x) = 0

instance (pts : List CvPoint) : Decidable (collinear pts) := by
  unfold collinear
  infer_instance

/-- The sums of the second loop as sums over the list. -/
def listSums {K : Type} [Field K] (mx my : K) (l : List CvPoint) : MomentSums K :=
  { suu := (l.map fun p => ((p.x : K) - mx) * ((p.x : K) - mx)).sum
    svv := (l.map fun p => ((p.y : K) - my) * ((p.y : K) - my)).sum
    suv := (l.map fun p => ((p.x : K) - mx) * ((p.y : K) - my)).sum
    suuu := (l.map fun p => ((p.x : K) - mx) * ((p.x : K) - mx) * ((p.x : K) - mx)).sum
    svvv := (l.map fun p => ((p.y : K) - my) * ((p.y : K) - my) * ((p.y : K) - my)).sum
    suuv := (l.map fun p => ((p.x : K) - mx) * ((p.x : K) - mx) * ((p.y : K) - my)).sum
    suvv := (l.map fun p => ((p.x : K) - mx) * ((p.y : K) - my) * ((p.y : K) - my)).sum }

/-! ## OsiCircle: the class -/

/-- Members of the class `OsiCircle`. -/
structure OsiCircle where
  mCenter : CvPoint
  mRadius : Int
deriving DecidableEq, Repr

/-- The object after a call of a member function that can throw, and the
`what()` of the exception that left the call, if any. -/
structure CircleResult where
  circle : OsiCircle
  thrown : Option String
deriving DecidableEq, Repr

/-- `OsiCircle::setCenter`. -/
def OsiCircle.setCenter (c : OsiCircle) (rCenter : CvPoint) : OsiCircle :=
  { c with mCenter := rCenter }

/-- `OsiCircle::setRadius`. -/
def OsiCircle.setRadius (c : OsiCircle) (rRadius : Int) : CircleResult :=
  if rRadius < 0 then
    ⟨c, some ("Circle with negative radius : " ++ toString rRadius)⟩
  else
    ⟨{ c with mRadius := rRadius }, none⟩

/-- `OsiCircle::setCircle(const CvPoint &, int)`: the two setters in turn; the
exception of `setRadius` leaves the function after `setCenter` has run. -/
def OsiCircle.setCircle (c : OsiCircle) (rCenter : CvPoint) (rRadius : Int) : CircleResult :=
  (c.setCenter rCenter).setRadius rRadius

/-- `OsiCircle::setCircle(int, int, int)`. -/
def OsiCircle.setCircleXY (c : OsiCircle) (rCenterX rCenterY rRadius : Int) : CircleResult :=
  c.setCircle ⟨rCenterX, rCenterY⟩ rRadius

/-- The constructor `OsiCircle(const CvPoint &, int)`.  The members hold
indeterminate values `raw` when the body starts; an exception leaves no
object. -/
def OsiCircle.construct (raw : OsiCircle) (rCenter : CvPoint) (rRadius : Int) :
    Except String OsiCircle :=
  match ((raw.setCenter rCenter).setRadius rRadius).thrown with
  | some what => .error what
  | none => .ok ((raw.setCenter rCenter).setRadius rRadius).circle

/-- A call of one of the setters of `OsiCircle`. -/
inductive CircleCall where
  | setCenter (rCenter : CvPoint)
  | setRadius (rRadius : Int)
  | setCircle (rCenter : CvPoint) (rRadius : Int)
  | setCircleXY (rCenterX rCenterY rRadius : Int)
deriving DecidableEq, Repr

/-- The effect of one call on the object; an exception is dropped by the
caller, the object stays as the call left it. -/
def OsiCircle.call (c : OsiCircle) : CircleCall → CircleResult
  | .setCenter p => ⟨c.setCenter p, none⟩
  | .setRadius r => c.setRadius r
  | .setCircle p r => c.setCircle p r
  | .setCircleXY x y r => c.setCircleXY x y r

/-- A sequence of calls on the same object, failing or not. -/
def OsiCircle.calls (c : OsiCircle) (cs : List CircleCall) : OsiCircle :=
  cs.foldl (fun acc k => (acc.call k).circle) c

/-- The floating point operations `computeCircleFitting` relies on, where exact
arithmetic says nothing: `toInt` is the conversion of a `float` to `int` (the
argument `none` stands for a value that is not finite, an infinity or a NaN),
`sqrt` is `std::sqrt`, whose result may be not finite. -/
structure FloatOps (K : Type) where
  toInt : Option K → Int
  sqrt : K → Option K

/-- The truncation of a number towards zero. -/
def truncate (q : ℚ) : Int := if 0 ≤ q then q.floor else q.ceil

/-- Float operations as on the usual machines: the conversion to `int` truncates
towards zero when the result fits 32 bits; for a value that is not finite or
whose truncation is out of the range of `int` (undefined behaviour in C++) it
gives `INT_MIN`, as the conversion instruction of x86 does; the root is the
integer root, enough for the inputs used here. -/
def machineOps : FloatOps ℚ where
  toInt v :=
    match v with
    | none => -2147483648
    | some q =>
      if -2147483648 ≤ truncate q ∧ truncate q ≤ 2147483647 then truncate q
      else -2147483648
  sqrt q := if 0 ≤ q then some (Nat.sqrt q.floor.toNat : ℚ) else none

/-! ## Floating point arithmetic -/

/-- A value of a binary floating point type: a zero with its sign, a finite
value that is not zero, an infinity with its sign, or a NaN. -/
inductive FloatVal where
  | zero (negative : Bool)
  | num (q : ℚ)
  | inf (negative : Bool)
  | nan
deriving DecidableEq, Repr

/-- A binary floating point format: the number of bits of the significand and
the least and greatest exponents of the normal numbers. -/
structure FloatFormat where
  prec : Nat
  emin : Int
  emax : Int

/-- The format of `float`. -/
def binary32 : FloatFormat := ⟨24, -126, 127⟩

/-- The format of `double`. -/
def binary64 : FloatFormat := ⟨53, -1022, 1023⟩

/-- The power `2 ^ e` for an integer `e`. -/
def pow2 (e : Int) : ℚ :=
  if 0 ≤ e then ((2 ^ e.toNat : Nat) : ℚ) else 1 / ((2 ^ (-e).toNat : Nat) : ℚ)

/-- The number of halvings that bring `n` below 2, at most `fuel` of them. -/
def log2Fuel : Nat → Nat → Nat
  | 0, _ => 0
  | fuel + 1, n => if n < 2 then 0 else log2Fuel fuel (n / 2) + 1

/-- The position of the leading bit of `n`: the `k` with `2 ^ k ≤ n < 2 ^ (k + 1)`. -/
def natLog2 (n : Nat) : Nat := log2Fuel n n

/-- The exponent of a positive number: the `e` with `2 ^ e ≤ q < 2 ^ (e + 1)`. -/
def ilog2 (q : ℚ) : Int :=
  if pow2 ((natLog2 q.num.toNat : Int) - (natLog2 q.den : Int)) ≤ q then
    (natLog2 q.num.toNat : Int) - (natLog2 q.den : Int)
  else (natLog2 q.num.toNat : Int) - (natLog2 q.den : Int) - 1

/-- The integer nearest to `x`, the even one of the two when `x` lies half way. -/
def roundHalfEven (x : ℚ) : Int :=
  if x - x.floor < 1 / 2 then x.floor
  else if 1 / 2 < x - x.floor then x.floor + 1
  else if x.floor % 2 = 0 then x.floor
  else x.floor + 1

/-- The rounding of a number that is not negative to the nearest value of the
format (ties to even): a multiple of the spacing at the exponent of `q` (of the subnormal
spacing below the normal numbers); a result beyond the greatest finite value is
the infinity, a result that is zero is the zero. -/
def roundPos (fmt : FloatFormat) (q : ℚ) : FloatVal :=
  if roundHalfEven (q / pow2 (max (ilog2 q) fmt.emin - fmt.prec + 1)) = 0 then .zero false
  else if pow2 (fmt.emax + 1) ≤
      roundHalfEven (q / pow2 (max (ilog2 q) fmt.emin - fmt.prec + 1)) *
        pow2 (max (ilog2 q) fmt.emin - fmt.prec + 1) then .inf false
  else .num (roundHalfEven (q / pow2 (max (ilog2 q) fmt.emin - fmt.prec + 1)) *
    pow2 (max (ilog2 q) fmt.emin - fmt.prec + 1))

/-- The value with the opposite sign. -/
def FloatVal.neg : FloatVal → FloatVal
  | .zero s => .zero (!s)
  | .num q => .num (-q)
  | .inf s => .inf (!s)
  | .nan => .nan

/-- Rounding of a number to the nearest value of the format. -/
def roundTo (fmt : FloatFormat) (q : ℚ) : FloatVal :=
  if 0 ≤ q then roundPos fmt q else (roundPos fmt (-q)).neg

/-- The sign bit of a value. -/
def FloatVal.negative : FloatVal → Bool
  | .zero s => s
  | .num q => decide (q < 0)
  | .inf s => s
  | .nan => false

/-- A zero or a finite number: neither an infinity nor a NaN. -/
def FloatVal.isFinite : FloatVal → Bool
  | .zero _ => true
  | .num _ => true
  | _ => false

/-- A NaN or a value whose sign bit is clear: no negative number, no negative
zero, no negative infinity. -/
def FloatVal.notNegative (v : FloatVal) : Prop := v = .nan ∨ v.negative = false

/-- Addition in a format. -/
def FloatVal.add (fmt : FloatFormat) : FloatVal → FloatVal → FloatVal
  | .nan, _ => .nan
  | _, .nan => .nan
  | .inf s, .inf t => if s = t then .inf s else .nan
  | .inf s, _ => .inf s
  | _, .inf t => .inf t
  | .zero s, .zero t => .zero (s && t)
  | .zero _, .num q => roundTo fmt q
  | .num p, .zero _ => roundTo fmt p
  | .num p, .num q => if p + q = 0 then .zero false else roundTo fmt (p + q)

/-- Subtraction in a format. -/
def FloatVal.sub (fmt : FloatFormat) (a b : FloatVal) : FloatVal := a.add fmt b.neg

/-- Multiplication in a format. -/
def FloatVal.mul (fmt : FloatFormat) : FloatVal → FloatVal → FloatVal
  | .nan, _ => .nan
  | _, .nan => .nan
  | .inf _, .zero _ => .nan
  | .zero _, .inf _ => .nan
  | .inf s, b => .inf (xor s b.negative)
  | a, .inf t => .inf (xor a.negative t)
  | .zero s, b => .zero (xor s b.negative)
  | a, .zero t => .zero (xor a.negative t)
  | .num p, .num q => roundTo fmt (p * q)

/-- Division in a format. -/
def FloatVal.div (fmt : FloatFormat) : FloatVal → FloatVal → FloatVal
  | .nan, _ => .nan
  | _, .nan => .nan
  | .inf _, .inf _ => .nan
  | .zero _, .zero _ => .nan
  | .inf s, b => .inf (xor s b.negative)
  | a, .inf t => .zero (xor a.negative t)
  | .zero s, b => .zero (xor s b.negative)
  | a, .zero t => .inf (xor a.negative t)
  | .num p, .num q => roundTo fmt (p / q)

/-- The integer square root, bit by bit from the bit `b - 1` down. -/
def isqrtBits : Nat → Nat → Nat → Nat
  | 0, _, acc => acc
  | b + 1, n, acc =>
    if (acc + 2 ^ b) * (acc + 2 ^ b) ≤ n then isqrtBits b n (acc + 2 ^ b) else isqrtBits b n acc

/-- The integer square root of `n`. -/
def isqrt (n : Nat) : Nat := isqrtBits (natLog2 n / 2 + 1) n 0

/-- The square root of a positive number rounded to the nearest value of the
format; the root of a value of the format is neither subnormal nor beyond
the finite values. -/
def sqrtPos (fmt : FloatFormat) (q : ℚ) : FloatVal :=
  let quantum := pow2 (ilog2 q / 2 - fmt.prec + 1)
  let t := q / (quantum * quantum)
  let f : ℚ := (isqrt t.floor.toNat : ℚ)
  let m : ℚ :=
    if t < (f + 1 / 2) * (f + 1 / 2) then f
    else if (f + 1 / 2) * (f + 1 / 2) < t then f + 1
    else if isqrt t.floor.toNat % 2 = 0 then f
    else f + 1
  .num (m * quantum)

/-- The square root in a format. -/
def FloatVal.sqrt (fmt : FloatFormat) : FloatVal → FloatVal
  | .nan => .nan
  | .zero s => .zero s
  | .inf s => if s then .nan else .inf false
  | .num q => if q < 0 then .nan else sqrtPos fmt q

/-- The conversion of an integer to a format. -/
def FloatVal.ofInt (fmt : FloatFormat) (z : Int) : FloatVal :=
  if z = 0 then .zero false else roundTo fmt (z : ℚ)

/-- The conversion of a value to a format with fewer bits. -/
def FloatVal.toFormat (fmt : FloatFormat) : FloatVal → FloatVal
  | .num q => roundTo fmt q
  | v => v

/-- The conversion of a `float` to `int`: the truncation when it fits 32 bits;
for a NaN, an infinity or a truncation out of the range of `int` the
behaviour is undefined in C++ and the conversion instruction of x86 gives
`INT_MIN`. -/
def FloatVal.toInt : FloatVal → Int
  | .zero _ => 0
  | .num q =>
    if -2147483648 ≤ truncate q ∧ truncate q ≤ 2147483647 then truncate q
    else -2147483648
  | _ => -2147483648

/-- The sums of `computeCircleFitting`, held in `float` variables. -/
structure FloatSums where
  suu : FloatVal
  svv : FloatVal
  suv : FloatVal
  suuu : FloatVal
  svvv : FloatVal
  suuv : FloatVal
  suvv : FloatVal
deriving DecidableEq, Repr

/-- One pass of the first loop in `float`: `mx += rPoints[p].x; my += rPoints[p].y`. -/
def addPointF (acc : FloatVal × FloatVal) (p : CvPoint) : FloatVal × FloatVal :=
  (acc.1.add binary32 (.ofInt binary32 p.x), acc.2.add binary32 (.ofInt binary32 p.y))

/-- One pass of the second loop in `float`. -/
def addMomentsF (mx my : FloatVal) (s : FloatSums) (p : CvPoint) : FloatSums :=
  let u := (FloatVal.ofInt binary32 p.x).sub binary32 mx
  let v := (FloatVal.ofInt binary32 p.y).sub binary32 my
  { suu := s.suu.add binary32 (u.mul binary32 u)
    svv := s.svv.add binary32 (v.mul binary32 v)
    suv := s.suv.add binary32 (u.mul binary32 v)
    suuu := s.suuu.add binary32 ((u.mul binary32 u).mul binary32 u)
    svvv := s.svvv.add binary32 ((v.mul binary32 v).mul binary32 v)
    suuv := s.suuv.add binary32 ((u.mul binary32 u).mul binary32 v)
    suvv := s.suvv.add binary32 ((u.mul binary32 v).mul binary32 v) }

/-- The quotient `0.5 * a / b` stored in a `float`: the constant `0.5` is a
`double`, so the product and the quotient are computed in `double` from the
two `float` operands, and the result is rounded to `float`. -/
def halfQuotient (a b : FloatVal) : FloatVal :=
  (((FloatVal.num (1 / 2)).mul binary64 a).div binary64 b).toFormat binary32

/-- The values `computeCircleFitting` computes in its `float` variables. -/
structure FloatFit where
  mx : FloatVal
  my : FloatVal
  sums : FloatSums
  denominator : FloatVal
  uc : FloatVal
  vc : FloatVal
  centerX : FloatVal
  centerY : FloatVal
  radius : FloatVal
deriving DecidableEq, Repr

/-- The arithmetic of `OsiCircle::computeCircleFitting`, in `float` as in the
source: every operation on two `float` values is rounded to `float` (IEEE
binary32, round to nearest even, as on x86-64), an `int` coordinate is
converted to `float` where it meets one, and so is `rPoints.size()` where it
divides one. -/
def floatFit (rPoints : List CvPoint) : FloatFit :=
  -- Compute the averages mx and my
  let acc := rPoints.foldl addPointF (.zero false, .zero false)
  let size := FloatVal.ofInt binary32 rPoints.length
  let mx := acc.1.div binary32 size
  let my := acc.2.div binary32 size
  -- Build some sums
  let s := rPoints.foldl (addMomentsF mx my)
    ⟨.zero false, .zero false, .zero false, .zero false, .zero false, .zero false, .zero false⟩
  let den := (s.suv.mul binary32 s.suv).sub binary32 (s.suu.mul binary32 s.svv)
  let uc := halfQuotient
    ((s.suv.mul binary32 (s.svvv.add binary32 s.suuv)).sub binary32
      (s.svv.mul binary32 (s.suuu.add binary32 s.suvv))) den
  let vc := halfQuotient
    ((s.suv.mul binary32 (s.suuu.add binary32 s.suvv)).sub binary32
      (s.suu.mul binary32 (s.svvv.add binary32 s.suuv))) den
  { mx := mx
    my := my
    sums := s
    denominator := den
    uc := uc
    vc := vc
    centerX := uc.add binary32 mx
    centerY := vc.add binary32 my
    radius := (((uc.mul binary32 uc).add binary32 (vc.mul binary32 vc)).add binary32
      ((s.suu.add binary32 s.svv).div binary32 size)).sqrt binary32 }

/-- A value `computeCircleFitting` sends to `std::cout`. -/
inductive FitOutput where
  | uc (v : FloatVal)
  | vc (v : FloatVal)
  | size (n : Nat)
  | x0 (x : Int)
  | y0 (y : Int)
deriving DecidableEq, Repr

/-- What a call of `computeCircleFitting` did: the values printed and, when the
call reached its two last statements, the object and the exception they
left.  With no point at all the read of `rPoints[0]` for the fourth line is
out of the vector, which is undefined behaviour: the model stops there, before
any store, and `outcome` is `none`. -/
structure FitRun where
  printed : List FitOutput
  outcome : Option CircleResult
deriving DecidableEq, Repr

/-- `OsiCircle::computeCircleFitting` as a member function: the values are
computed in `float`, printed, converted to `int` and passed to `setCenter`,
then to `setRadius`.  `std::sqrt` on a `float` is the `float` overload. -/
def OsiCircle.computeCircleFitting (c : OsiCircle) (rPoints : List CvPoint) : FitRun :=
  match rPoints with
  | [] =>
    ⟨[.uc (floatFit rPoints).uc, .vc (floatFit rPoints).vc, .size rPoints.length], none⟩
  | p0 :: _ =>
    ⟨[.uc (floatFit rPoints).uc, .vc (floatFit rPoints).vc, .size rPoints.length,
        .x0 p0.x, .y0 p0.y],
      -- Circle parameters
      some ((c.setCenter ⟨(floatFit rPoints).centerX.toInt,
        (floatFit rPoints).centerY.toInt⟩).setRadius (floatFit rPoints).radius.toInt)⟩

/-! ## Stage order of processOneEye -/

/-- The place of a call in the stage order of `processOneEye`. -/
def EyeOp.rank : EyeOp → Nat
  | .loadOriginalImage _ => 0
  | .segment _ _ _ _ => 1
  | .saveSegmentedImage _ => 2
  | .initMask => 3
  | .loadParameters _ => 4
  | .loadMask _ => 5
  | .normalize _ _ => 6
  | .loadNormalizedImage _ => 7
  | .loadNormalizedMask _ => 8
  | .encode _ => 9
  | .loadIrisCode _ => 10
  | .saveParameters _ => 11
  | .saveMask _ => 12
  | .saveNormalizedImage _ => 13
  | .saveNormalizedMask _ => 14
  | .saveIrisCode _ => 15

/-- The ranks of the calls among statements, in order. -/
def stmtRanks (ss : List Stmt) : List Nat :=
  ss.filterMap fun s => match s with
    | Stmt.call op => some op.rank
    | _ => none

/-! ## loadConfiguration -/

/-- The functions of `OsiStringUtils` that `loadConfiguration` calls; the class
is outside these two files.  The two conversions can throw. -/
structure OsiStringUtils where
  trim : String → String
  convertSlashes : String → String
  fromStringBool : String → Except String Bool
  fromStringInt : String → Except String Int

/-- The files `loadConfiguration` and the three loaders read, each as the
sequence of items that the extraction used on it yields; `none` is a file that
cannot be opened.
* `lines`: the strings `std::getline` gives until the reading loop stops;
* `words`: the tokens `operator>>` gives for `std::string`;
* `numbers`: the tokens `operator>>` gives for `int` and `float`. -/
structure FileSystem where
  lines : String → Option (List String)
  words : String → Option (List String)
  numbers : String → Option (List ℚ)

/-- What the loading functions do that can be observed, in order. -/
inductive LoadEvent where
  | cout (line : String)
  | openFile (path : String)
  | loadListOfImages
  | loadGaborFilters
  | loadApplicationPoints
deriving DecidableEq, Repr

/-- The events of a loading function and either the manager it leaves or the
`what()` of the exception that left it. -/
structure LoadResult where
  events : List LoadEvent
  result : Except String OsiManager

/-- The options of type `bool`: the targets of `mMapBool`. -/
inductive BoolSlot where
  | mProcessSegmentation
  | mProcessNormalization
  | mProcessEncoding
  | mProcessMatching
  | mUseMask
deriving DecidableEq, Repr

/-- The options of type `int`: the targets of `mMapInt`. -/
inductive IntSlot where
  | mMinPupilDiameter
  | mMaxPupilDiameter
  | mMinIrisDiameter
  | mMaxIrisDiameter
  | mWidthOfNormalizedIris
  | mHeightOfNormalizedIris
deriving DecidableEq, Repr

/-- The options of type `std::string`: the targets of `mMapString`. -/
inductive StringSlot where
  | mFilenameListOfImages
  | mInputDirOriginalImages
  | mInputDirParameters
  | mInputDirMasks
  | mInputDirNormalizedImages
  | mInputDirNormalizedMasks
  | mInputDirIrisCodes
  | mOutputDirSegmentedImages
  | mOutputDirParameters
  | mOutputDirMasks
  | mOutputDirNormalizedImages
  | mOutputDirNormalizedMasks
  | mOutputDirIrisCodes
  | mOutputFileMatchingScores
  | mFilenameGaborFilters
  | mFilenameApplicationPoints
  | mSuffixSegmentedImages
  | mSuffixParameters
  | mSuffixMasks
  | mSuffixNormalizedImages
  | mSuffixNormalizedMasks
  | mSuffixIrisCodes
deriving DecidableEq, Repr

/-- The map `mMapBool` as the constructor of `OsiManager` fills it. -/
def mMapBool : List (String × BoolSlot) :=
  [("Process segmentation", .mProcessSegmentation),
   ("Process normalization", .mProcessNormalization),
   ("Process encoding", .mProcessEncoding),
   ("Process matching", .mProcessMatching),
   ("Use the mask provided by osiris", .mUseMask)]

/-- The map `mMapInt` as the constructor of `OsiManager` fills it. -/
def mMapInt : List (String × IntSlot) :=
  [("Minimum diameter for pupil", .mMinPupilDiameter),
   ("Maximum diameter for pupil", .mMaxPupilDiameter),
   ("Minimum diameter for iris", .mMinIrisDiameter),
   ("Maximum diameter for iris", .mMaxIrisDiameter),
   ("Width of normalized image", .mWidthOfNormalizedIris),
   ("Height of normalized image", .mHeightOfNormalizedIris)]

/-- The map `mMapString` as the constructor of `OsiManager` fills it. -/
def mMapString : List (String × StringSlot) :=
  [("Load List of images", .mFilenameListOfImages),
   ("Load original images", .mInputDirOriginalImages),
   ("Load parameters", .mInputDirParameters),
   ("Load masks", .mInputDirMasks),
   ("Load normalized images", .mInputDirNormalizedImages),
   ("Load normalized masks", .mInputDirNormalizedMasks),
   ("Load iris codes", .mInputDirIrisCodes),
   ("Save segmented images", .mOutputDirSegmentedImages),
   ("Save contours parameters", .mOutputDirParameters),
   ("Save masks of iris", .mOutputDirMasks),
   ("Save normalized images", .mOutputDirNormalizedImages),
   ("Save normalized masks", .mOutputDirNormalizedMasks),
   ("Save iris codes", .mOutputDirIrisCodes),
   ("Save matching scores", .mOutputFileMatchingScores),
   ("Load Gabor filters", .mFilenameGaborFilters),
   ("Load Application points", .mFilenameApplicationPoints),
   ("Suffix for segmented images", .mSuffixSegmentedImages),
   ("Suffix for parameters", .mSuffixParameters),
   ("Suffix for masks of iris", .mSuffixMasks),
   ("Suffix for normalized images", .mSuffixNormalizedImages),
   ("Suffix for normalized masks", .mSuffixNormalizedMasks),
   ("Suffix for iris codes", .mSuffixIrisCodes)]

/-- The assignment through a pointer of `mMapBool`. -/
def BoolSlot.set (v : Bool) (m : OsiManager) : BoolSlot → OsiManager
  | .mProcessSegmentation => { m with mProcessSegmentation := v }
  | .mProcessNormalization => { m with mProcessNormalization := v }
  | .mProcessEncoding => { m with mProcessEncoding := v }
  | .mProcessMatching => { m with mProcessMatching := v }
  | .mUseMask => { m with mUseMask := v }

/-- The assignment through a pointer of `mMapInt`. -/
def IntSlot.set (v : Int) (m : OsiManager) : IntSlot → OsiManager
  | .mMinPupilDiameter => { m with mMinPupilDiameter := v }
  | .mMaxPupilDiameter => { m with mMaxPupilDiameter := v }
  | .mMinIrisDiameter => { m with mMinIrisDiameter := v }
  | .mMaxIrisDiameter => { m with mMaxIrisDiameter := v }
  | .mWidthOfNormalizedIris => { m with mWidthOfNormalizedIris := v }
  | .mHeightOfNormalizedIris => { m with mHeightOfNormalizedIris := v }

/-- The assignment through a pointer of `mMapString`. -/
def StringSlot.set (v : String) (m : OsiManager) : StringSlot → OsiManager
  | .mFilenameListOfImages => { m with mFilenameListOfImages := v }
  | .mInputDirOriginalImages => { m with mInputDirOriginalImages := v }
  | .mInputDirParameters => { m with mInputDirParameters := v }
  | .mInputDirMasks => { m with mInputDirMasks := v }
  | .mInputDirNormalizedImages => { m with mInputDirNormalizedImages := v }
  | .mInputDirNormalizedMasks => { m with mInputDirNormalizedMasks := v }
  | .mInputDirIrisCodes => { m with mInputDirIrisCodes := v }
  | .mOutputDirSegmentedImages => { m with mOutputDirSegmentedImages := v }
  | .mOutputDirParameters => { m with mOutputDirParameters := v }
  | .mOutputDirMasks => { m with mOutputDirMasks := v }
  | .mOutputDirNormalizedImages => { m with mOutputDirNormalizedImages := v }
  | .mOutputDirNormalizedMasks => { m with mOutputDirNormalizedMasks := v }
  | .mOutputDirIrisCodes => { m with mOutputDirIrisCodes := v }
  | .mOutputFileMatchingScores => { m with mOutputFileMatchingScores := v }
  | .mFilenameGaborFilters => { m with mFilenameGaborFilters := v }
  | .mFilenameApplicationPoints => { m with mFilenameApplicationPoints := v }
  | .mSuffixSegmentedImages => { m with mSuffixSegmentedImages := v }
  | .mSuffixParameters => { m with mSuffixParameters := v }
  | .mSuffixMasks => { m with mSuffixMasks := v }
  | .mSuffixNormalizedImages => { m with mSuffixNormalizedImages := v }
  | .mSuffixNormalizedMasks => { m with mSuffixNormalizedMasks := v }
  | .mSuffixIrisCodes => { m with mSuffixIrisCodes := v }

/-- `std::string::find` for a character: the position of its first occurrence,
`none` for `npos`. -/
def findChar (c : Char) : List Char → Option Nat
  | [] => none
  | x :: xs => if x = c then some 0 else (findChar c xs).map (fun i => i + 1)

/-- `s.substr(0, pos)`. -/
def substrTo (s : String) (pos : Nat) : String := ⟨s.data.take pos⟩

/-- `s.substr(pos)`. -/
def substrFrom (s : String) (pos : Nat) : String := ⟨s.data.drop pos⟩

/-- The block `// Filter out comments` of `loadConfiguration`. -/
def filterOutComment (line : String) : String :=
  if line != "" then
    match findChar '#' line.data with
    | some pos => substrTo line pos
    | none => line
  else line

/-- The test `key.substr(0, 4).compare("Load") == 0 | key.substr(0, 4).compare("Save") == 0`. -/
def startsLoadOrSave (key : String) : Bool :=
  (substrTo key 4 == "Load") || (substrTo key 4 == "Save")

/-- The chain `if ... else if ... else` of `loadConfiguration` that stores one
option: `line` is the line without its comment, printed when the key is not in
any map. -/
def storeOption (osu : OsiStringUtils) (sPath : String) (m : OsiManager)
    (line key value : String) : LoadResult :=
  -- Option is type bool
  match mMapBool.lookup key with
  | some slot =>
    match osu.fromStringBool value with
    | .ok v => ⟨[], .ok (slot.set v m)⟩
    | .error what => ⟨[], .error what⟩
  | none =>
    -- Option is type int
    match mMapInt.lookup key with
    | some slot =>
      match osu.fromStringInt value with
      | .ok v => ⟨[], .ok (slot.set v m)⟩
      | .error what => ⟨[], .error what⟩
    | none =>
      -- Option is type string
      match mMapString.lookup key with
      | some slot =>
        if startsLoadOrSave key then
          ⟨[], .ok (slot.set (sPath ++ osu.convertSlashes value) m)⟩
        else
          ⟨[], .ok (slot.set (osu.convertSlashes value) m)⟩
      -- Option is not stored in any mMap
      | none =>
        ⟨[LoadEvent.cout ("Unknown option in configuration file : " ++ line)], .ok m⟩

/-- The body of the loop on lines of `loadConfiguration`, for one line read by
`std::getline`. -/
def applyLine (osu : OsiStringUtils) (sPath : String) (m : OsiManager) (line0 : String) :
    LoadResult :=
  -- Filter out comments
  let line := filterOutComment line0
  -- Split line into key and value
  if line != "" then
    match findChar '=' line.data with
    | some pos =>
      -- Trim key and value
      let key := osu.trim (substrTo line pos)
      let value := osu.trim (substrFrom line (pos + 1))
      if key != "" && value != "" then storeOption osu sPath m line key value
      else ⟨[], .ok m⟩
    | none => ⟨[], .ok m⟩
  else ⟨[], .ok m⟩

/-- The loop on lines of `loadConfiguration`; an exception stops it. -/
def parseLines (osu : OsiStringUtils) (sPath : String) : OsiManager → List String → LoadResult
  | m, [] => ⟨[], .ok m⟩
  | m, line :: rest =>
    match (applyLine osu sPath m line).result with
    | .ok m1 =>
      ⟨(applyLine osu sPath m line).events ++ (parseLines osu sPath m1 rest).events,
        (parseLines osu sPath m1 rest).result⟩
    | .error what => ⟨(applyLine osu sPath m line).events, .error what⟩

/-- `OsiManager::loadListOfImages`: the tokens of the file are appended to
`mListOfImages`. -/
def loadListOfImages (fs : FileSystem) (m : OsiManager) : LoadResult :=
  match fs.words m.mFilenameListOfImages with
  | none =>
    ⟨[LoadEvent.loadListOfImages, LoadEvent.openFile m.mFilenameListOfImages],
      .error ("Cannot load the list of images in " ++ m.mFilenameListOfImages)⟩
  | some ws =>
    ⟨[LoadEvent.loadListOfImages, LoadEvent.openFile m.mFilenameListOfImages],
      .ok { m with mListOfImages := m.mListOfImages ++ ws }⟩


/-- The value of a finite floating point value as a number. -/
def FloatVal.toRat : FloatVal → ℚ
  | .num q => q
  | _ => 0

/-- The conversion of a number to a format. -/
def FloatVal.ofRat (fmt : FloatFormat) (q : ℚ) : FloatVal :=
  if q = 0 then .zero false else roundTo fmt q

/-- The greatest finite `float`, `FLT_MAX`. -/
def maxFloat : ℚ := 340282346638528859811704183484516925440

/-- An input stream read with `operator>>` for numbers.  The words still to be
read are given by their values; a word is a decimal numeral written in its
shortest form (a word that holds an integer has no fraction part).  `failed`
is `failbit`; `fraction` says that the first word is what is left, from its
point on, of a word whose integer part an extraction to `int` has read. -/
structure NumStream where
  tokens : List ℚ
  failed : Bool
  fraction : Bool
deriving DecidableEq, Repr

/-- The extraction `file >> x` for an `int` variable holding `cur` (C++11).
With `failbit` set nothing is read and `x` keeps its value; so it does, and
`failbit` is set, when no word is left.  A value out of the range of `int` is
read completely, `x` receives the nearest bound and `failbit` is set.  Of a
word with a fraction part the integer part is read and the rest stays in the
stream, where the next extraction to `int` finds a point instead of a digit,
stores 0 and sets `failbit`. -/
def readInt (s : NumStream) (cur : Int) : Int × NumStream :=
  if s.failed then (cur, s)
  else if s.fraction then (0, { s with failed := true })
  else
    match s.tokens with
    | [] => (cur, ⟨[], true, false⟩)
    | t :: ts =>
      if truncate t < -2147483648 then (-2147483648, ⟨ts, true, false⟩)
      else if 2147483647 < truncate t then (2147483647, ⟨ts, true, false⟩)
      else if t.den = 1 then (truncate t, ⟨ts, false, false⟩)
      else (truncate t, ⟨|t - truncate t| :: ts, false, true⟩)

/-- The extraction `file >> x` for a `float` variable holding `cur`: the word is
rounded to the nearest `float`; a word beyond the finite values stores the
finite value of greatest magnitude with its sign and sets `failbit`. -/
def readFloat (s : NumStream) (cur : ℚ) : ℚ × NumStream :=
  if s.failed then (cur, s)
  else
    match s.tokens with
    | [] => (cur, ⟨[], true, false⟩)
    | t :: ts =>
      match FloatVal.ofRat binary32 t with
      | .inf negative => (if negative then -maxFloat else maxFloat, ⟨ts, true, false⟩)
      | v => (v.toRat, ⟨ts, false, false⟩)

/-- The call `cvCreateMat(rows, cols, CV_8UC1)` followed by `cvSet` to 0.  The
library refuses a size that is not positive. -/
def cvCreateMat (rows cols : Int) : Except String CvMat :=
  if rows ≤ 0 ∨ cols ≤ 0 then .error "Non-positive width or height"
  else .ok ⟨rows.toNat, cols.toNat, List.replicate (rows.toNat * cols.toNat) 0⟩

/-- The call `cvCreateMat(rows, cols, CV_32FC1)`; the cells, not initialised by
the library, are taken to hold 0. -/
def cvCreateMatF (rows cols : Int) : Except String CvMatF :=
  if rows ≤ 0 ∨ cols ≤ 0 then .error "Non-positive width or height"
  else .ok ⟨rows.toNat, cols.toNat, List.replicate (rows.toNat * cols.toNat) 0⟩

/-- The variables of the loop of `loadApplicationPoints`. -/
structure PointsState where
  file : NumStream
  i : Int
  j : Int
  data : List Nat
  events : List LoadEvent

/-- The line printed for a point outside the matrix. -/
def exceedsLine (i j : Int) (rows cols : Nat) : String :=
  "Point (" ++ toString i ++ "," ++ toString j ++ ") " ++
    "exceeds size of normalized image : " ++ toString rows ++ "x" ++ toString cols ++
    " while loading application points"

/-- One pass of the loop on points of `loadApplicationPoints`. -/
def pointsStep (rows cols : Nat) (st : PointsState) : PointsState :=
  -- Get the coordinates
  let ri := readInt st.file st.i
  let rj := readInt ri.2 st.j
  -- Set pixel to "on"
  if ri.1 < 0 ∨ ri.1 > (rows : Int) - 1 ∨ rj.1 < 0 ∨ rj.1 > (cols : Int) - 1 then
    { file := rj.2, i := ri.1, j := rj.1, data := st.data,
      events := st.events ++ [LoadEvent.cout (exceedsLine ri.1 rj.1 rows cols)] }
  else
    { file := rj.2, i := ri.1, j := rj.1,
      data := st.data.set (ri.1 * (cols : Int) + rj.1).toNat 255,
      events := st.events }

/-- The loop `for (int p = 0; p < n_points; p++)`, by the number of passes left. -/
def pointsLoop (rows cols : Nat) : Nat → PointsState → PointsState
  | 0, st => st
  | n + 1, st => pointsLoop rows cols n (pointsStep rows cols st)

/-- `OsiManager::loadApplicationPoints`.  The variables `i` and `j`, not
initialised in the source, are taken to start at 0: they are read before they
are written only when the file ends too early. -/
def loadApplicationPoints (fs : FileSystem) (m : OsiManager) : LoadResult :=
  match fs.numbers m.mFilenameApplicationPoints with
  | none =>
    ⟨[LoadEvent.loadApplicationPoints, LoadEvent.openFile m.mFilenameApplicationPoints],
      .error ("Cannot load the application points in " ++ m.mFilenameApplicationPoints)⟩
  | some toks =>
    -- Get the number of points
    let rn := readInt ⟨toks, false, false⟩ 0
    -- Allocate memory for the matrix containing the points
    match cvCreateMat m.mHeightOfNormalizedIris m.mWidthOfNormalizedIris with
    | .error what =>
      ⟨[LoadEvent.loadApplicationPoints, LoadEvent.openFile m.mFilenameApplicationPoints],
        .error what⟩
    | .ok mat =>
      -- Loop on each point
      let st := pointsLoop mat.rows mat.cols rn.1.toNat ⟨rn.2, 0, 0, mat.data, []⟩
      ⟨[LoadEvent.loadApplicationPoints, LoadEvent.openFile m.mFilenameApplicationPoints] ++
          st.events,
        .ok { m with mpApplicationPoints := some ⟨mat.rows, mat.cols, st.data⟩ }⟩

/-- The statement `file >> mGaborFilters[f]->data.fl[r * cols + c]`. -/
def readCell (r cols : Nat) (acc : NumStream × List ℚ) (c : Nat) : NumStream × List ℚ :=
  ((readFloat acc.1 (acc.2.getD (r * cols + c) 0)).2,
    acc.2.set (r * cols + c) (readFloat acc.1 (acc.2.getD (r * cols + c) 0)).1)

/-- The loop `for (int c = 0; c < cols; c++)` for the row `r`. -/
def readFilterRow (cols : Nat) (acc : NumStream × List ℚ) (r : Nat) : NumStream × List ℚ :=
  (List.range cols).foldl (readCell r cols) acc

/-- The variables of the loop on filters of `loadGaborFilters`. -/
structure FilterState where
  file : NumStream
  rows : Int
  cols : Int
  filters : List CvMatF

/-- The loop `for (int f = 0; f < n_filters; f++)`, by the number of passes
left.  The vector was resized to `n_filters` and pass `f` assigns its slot `f`:
the matrices are collected in that order. -/
def filtersLoop : Nat → FilterState → Except String FilterState
  | 0, st => .ok st
  | n + 1, st =>
    -- Get the size of the filter
    match cvCreateMatF (readInt st.file st.rows).1
        (readInt (readInt st.file st.rows).2 st.cols).1 with
    | .error what => .error what
    | .ok mat =>
      -- Set the value at coordinates r,c
      filtersLoop n
        { file := ((List.range mat.rows).foldl (readFilterRow mat.cols)
            ((readInt (readInt st.file st.rows).2 st.cols).2, mat.data)).1
          rows := (readInt st.file st.rows).1
          cols := (readInt (readInt st.file st.rows).2 st.cols).1
          filters := st.filters ++ [⟨mat.rows, mat.cols,
            ((List.range mat.rows).foldl (readFilterRow mat.cols)
              ((readInt (readInt st.file st.rows).2 st.cols).2, mat.data)).2⟩] }

/-- `OsiManager::loadGaborFilters`.  `resize` with a negative count throws.
The variables `n_filters`, `rows` and `cols`, not initialised in the source,
are taken to start at 0: they are read before they are written only when the
file ends too early. -/
def loadGaborFilters (fs : FileSystem) (m : OsiManager) : LoadResult :=
  match fs.numbers m.mFilenameGaborFilters with
  | none =>
    ⟨[LoadEvent.loadGaborFilters, LoadEvent.openFile m.mFilenameGaborFilters],
      .error ("Cannot load Gabor filters in file " ++ m.mFilenameGaborFilters)⟩
  | some toks =>
    -- Get the number of filters
    if (readInt ⟨toks, false, false⟩ 0).1 < 0 then
      ⟨[LoadEvent.loadGaborFilters, LoadEvent.openFile m.mFilenameGaborFilters],
        .error "vector::_M_default_append"⟩
    else
      match filtersLoop (readInt ⟨toks, false, false⟩ 0).1.toNat
          ⟨(readInt ⟨toks, false, false⟩ 0).2, 0, 0, []⟩ with
      | .error what =>
        ⟨[LoadEvent.loadGaborFilters, LoadEvent.openFile m.mFilenameGaborFilters],
          .error what⟩
      | .ok st =>
        ⟨[LoadEvent.loadGaborFilters, LoadEvent.openFile m.mFilenameGaborFilters],
          .ok { m with mGaborFilters := st.filters }⟩

/-- The end of `loadConfiguration`, after the loop on lines: the three loaders. -/
def loadResources (fs : FileSystem) (m : OsiManager) : LoadResult :=
  -- Load the list containing all images
  match (loadListOfImages fs m).result with
  | .error what => ⟨(loadListOfImages fs m).events, .error what⟩
  | .ok m1 =>
    -- Load the datas for Gabor filters
    let r2 : LoadResult :=
      if m1.mProcessEncoding && m1.mFilenameGaborFilters != "" then loadGaborFilters fs m1
      else ⟨[], .ok m1⟩
    match r2.result with
    | .error what => ⟨(loadListOfImages fs m).events ++ r2.events, .error what⟩
    | .ok m2 =>
      -- Load the application points
      let r3 : LoadResult :=
        if m2.mProcessMatching && m2.mFilenameApplicationPoints != "" then
          loadApplicationPoints fs m2
        else ⟨[], .ok m2⟩
      ⟨(loadListOfImages fs m).events ++ r2.events ++ r3.events, r3.result⟩

/-- The base directory `loadConfiguration` builds from its argument: the test
on the last character, as written in the source (code 92 is the backslash). -/
def basePath (sConfigPath : String) : String :=
  if sConfigPath.back != '/' || sConfigPath.back != Char.ofNat 92 then sConfigPath ++ "/"
  else sConfigPath

/-- `OsiManager::loadConfiguration`. -/
def loadConfiguration (osu : OsiStringUtils) (fs : FileSystem) (m : OsiManager)
    (sConfigPath : String) : LoadResult :=
  if sConfigPath.length ≤ 0 then ⟨[], .error ("sConfigPath Error: " ++ sConfigPath)⟩
  else
    -- Open the file
    match fs.lines (basePath sConfigPath ++ "process.ini") with
    | none =>
      ⟨[LoadEvent.openFile (basePath sConfigPath ++ "process.ini")],
        .error ("Cannot read configuration file " ++ basePath sConfigPath ++ "process.ini")⟩
    | some ls =>
      -- Loop on lines
      match (parseLines osu (basePath sConfigPath) m ls).result with
      | .error what =>
        ⟨LoadEvent.openFile (basePath sConfigPath ++ "process.ini") ::
            (parseLines osu (basePath sConfigPath) m ls).events, .error what⟩
      | .ok m1 =>
        ⟨LoadEvent.openFile (basePath sConfigPath ++ "process.ini") ::
            ((parseLines osu (basePath sConfigPath) m ls).events ++ (loadResources fs m1).events),
          (loadResources fs m1).result⟩

/-- Concrete string functions: `trim` removes blanks at both ends,
`convertSlashes` turns each backslash (code 92) into a slash, the conversions
read `true`/`false` and decimal digits. -/
def plainUtils : OsiStringUtils where
  trim s := ⟨((s.data.dropWhile fun c => c == ' ').reverse.dropWhile fun c => c == ' ').reverse⟩
  convertSlashes s := ⟨s.data.map fun c => if c = Char.ofNat 92 then '/' else c⟩
  fromStringBool s :=
    if s = "true" then .ok true
    else if s = "false" then .ok false
    else .error ("Cannot convert " ++ s)
  fromStringInt s := .ok (s.data.foldl (fun acc c => acc * 10 + ((c.toNat : Int) - 48)) 0)

/-- A concrete set of files: a configuration, an image list, two filters of
sizes 3x3 and 5x1, and four application points, one of them outside a 2x3
strip. -/
def sampleFiles : FileSystem where
  lines path :=
    if path = "cfg/process.ini" then
      some ["# sample", "Process encoding = true", "Process matching = true # both",
        "Load List of images = list.txt", "Load Gabor filters = filters.txt",
        "Load Application points = points.txt", "Height of normalized image = 2",
        "Width of normalized image = 3", "Suffix for iris codes = _c.bmp", "Colour = red", ""]
    else none
  words path := if path = "cfg/list.txt" then some ["a.bmp", "b.bmp"] else none
  numbers path :=
    if path = "cfg/filters.txt" then
      some [2, 3, 3, 1, 2, 3, 4, 5, 6, 7, 8, 9, 5, 1, 10, 11, 12, 13, 14]
    else if path = "cfg/points.txt" then some [4, 0, 1, 1, 2, 5, 0, 0, 1]
    else none
/-- The configuration that the lines of the sample configuration file give,
before the resources are loaded. -/
def sampleParsed : OsiManager :=
  { initConfiguration with
    mProcessEncoding := true
    mProcessMatching := true
    mFilenameListOfImages := "cfg/list.txt"
    mFilenameGaborFilters := "cfg/filters.txt"
    mFilenameApplicationPoints := "cfg/points.txt"
    mHeightOfNormalizedIris := 2
    mWidthOfNormalizedIris := 3
    mSuffixIrisCodes := "_c.bmp" }


/-! ## Vocabulary of the claims about loadConfiguration -/

/-- The words of the specification for the comment: the text before the
first `#`. -/
def specUncomment (line : String) : String :=
  ⟨line.data.takeWhile fun c => c != '#'⟩

/-- A slot of the configuration that a key of one of the three maps points to. -/
inductive Slot where
  | bool (s : BoolSlot)
  | int (s : IntSlot)
  | string (s : StringSlot)
deriving DecidableEq, Repr

/-- The value held by a slot. -/
inductive SlotValue where
  | bool (v : Bool)
  | int (v : Int)
  | string (v : String)
deriving DecidableEq, Repr

/-- The value of an option of type `bool`. -/
def BoolSlot.get (m : OsiManager) : BoolSlot → Bool
  | .mProcessSegmentation => m.mProcessSegmentation
  | .mProcessNormalization => m.mProcessNormalization
  | .mProcessEncoding => m.mProcessEncoding
  | .mProcessMatching => m.mProcessMatching
  | .mUseMask => m.mUseMask

/-- The value of an option of type `int`. -/
def IntSlot.get (m : OsiManager) : IntSlot → Int
  | .mMinPupilDiameter => m.mMinPupilDiameter
  | .mMaxPupilDiameter => m.mMaxPupilDiameter
  | .mMinIrisDiameter => m.mMinIrisDiameter
  | .mMaxIrisDiameter => m.mMaxIrisDiameter
  | .mWidthOfNormalizedIris => m.mWidthOfNormalizedIris
  | .mHeightOfNormalizedIris => m.mHeightOfNormalizedIris

/-- The value of an option of type `std::string`. -/
def StringSlot.get (m : OsiManager) : StringSlot → String
  | .mFilenameListOfImages => m.mFilenameListOfImages
  | .mInputDirOriginalImages => m.mInputDirOriginalImages
  | .mInputDirParameters => m.mInputDirParameters
  | .mInputDirMasks => m.mInputDirMasks
  | .mInputDirNormalizedImages => m.mInputDirNormalizedImages
  | .mInputDirNormalizedMasks => m.mInputDirNormalizedMasks
  | .mInputDirIrisCodes => m.mInputDirIrisCodes
  | .mOutputDirSegmentedImages => m.mOutputDirSegmentedImages
  | .mOutputDirParameters => m.mOutputDirParameters
  | .mOutputDirMasks => m.mOutputDirMasks
  | .mOutputDirNormalizedImages => m.mOutputDirNormalizedImages
  | .mOutputDirNormalizedMasks => m.mOutputDirNormalizedMasks
  | .mOutputDirIrisCodes => m.mOutputDirIrisCodes
  | .mOutputFileMatchingScores => m.mOutputFileMatchingScores
  | .mFilenameGaborFilters => m.mFilenameGaborFilters
  | .mFilenameApplicationPoints => m.mFilenameApplicationPoints
  | .mSuffixSegmentedImages => m.mSuffixSegmentedImages
  | .mSuffixParameters => m.mSuffixParameters
  | .mSuffixMasks => m.mSuffixMasks
  | .mSuffixNormalizedImages => m.mSuffixNormalizedImages
  | .mSuffixNormalizedMasks => m.mSuffixNormalizedMasks
  | .mSuffixIrisCodes => m.mSuffixIrisCodes

/-- The value a slot holds in a configuration. -/
def Slot.read (m : OsiManager) : Slot → SlotValue
  | .bool s => .bool (s.get m)
  | .int s => .int (s.get m)
  | .string s => .string (s.get m)

/-- The slot a key is bound to: the three maps are searched in the order of the
`if ... else if` chain. -/
def keySlot (key : String) : Option Slot :=
  match mMapBool.lookup key with
  | some s => some (.bool s)
  | none =>
    match mMapInt.lookup key with
    | some s => some (.int s)
    | none =>
      match mMapString.lookup key with
      | some s => some (.string s)
      | none => none

/-- The value `loadConfiguration` stores for a key and a value, by the kind of
the slot. -/
def storedValue (osu : OsiStringUtils) (sPath key value : String) : Slot → Except String SlotValue
  | .bool _ => (osu.fromStringBool value).map SlotValue.bool
  | .int _ => (osu.fromStringInt value).map SlotValue.int
  | .string _ =>
    .ok (.string (if startsLoadOrSave key then sPath ++ osu.convertSlashes value
      else osu.convertSlashes value))

/-- The calls of the three loaders recorded in a list of events, in order. -/
def loaderCalls (evs : List LoadEvent) : List LoadEvent :=
  evs.filter fun e =>
    match e with
    | .loadListOfImages => true
    | .loadGaborFilters => true
    | .loadApplicationPoints => true
    | _ => false

/-- The call of `loadApplicationPoints` when its guard holds. -/
def pointsCalls (m : OsiManager) : List LoadEvent :=
  if m.mProcessMatching && m.mFilenameApplicationPoints != "" then
    [LoadEvent.loadApplicationPoints]
  else []

/-- The tokens of a list of points, as written in a points file. -/
def pointTokens (pts : List (Int × Int)) : List ℚ :=
  pts.flatMap fun p => [(p.1 : ℚ), (p.2 : ℚ)]

/-- The test of `loadApplicationPoints` on a point that lies outside the matrix. -/
def outOfBounds (rows cols : Nat) (p : Int × Int) : Bool :=
  decide (p.1 < 0 ∨ p.1 > (rows : Int) - 1 ∨ p.2 < 0 ∨ p.2 > (cols : Int) - 1)

/-- The tokens of a list of filters, as written in a filter file: for each
filter its number of rows, its number of columns and its values. -/
def filterTokens (blocks : List (Nat × Nat × List ℚ)) : List ℚ :=
  blocks.flatMap fun b => (b.1 : ℚ) :: (b.2.1 : ℚ) :: b.2.2

/-- The words of the specification for one line: without its comment, the
line is split at its first `=`; key and value are the trimmed left and right
parts; a line with no `=`, or with an empty key or value, gives nothing. -/
def specKeyValue (osu : OsiStringUtils) (line : String) : Option (String × String) :=
  if '=' ∈ (specUncomment line).data then
    if osu.trim ⟨(specUncomment line).data.takeWhile fun c => c != '='⟩ = "" ∨
        osu.trim ⟨((specUncomment line).data.dropWhile fun c => c != '=').drop 1⟩ = "" then
      none
    else
      some (osu.trim ⟨(specUncomment line).data.takeWhile fun c => c != '='⟩,
        osu.trim ⟨((specUncomment line).data.dropWhile fun c => c != '=').drop 1⟩)
  else none

/-- The six suffix options. -/
def StringSlot.isSuffix : StringSlot → Bool
  | .mSuffixSegmentedImages => true
  | .mSuffixParameters => true
  | .mSuffixMasks => true
  | .mSuffixNormalizedImages => true
  | .mSuffixNormalizedMasks => true
  | .mSuffixIrisCodes => true
  | _ => false

/-- The cells after the points of a list were marked one after the other. -/
def markAll (rows cols : Nat) (pts : List (Int × Int)) (data : List Nat) : List Nat :=
  pts.foldl (fun d p => if outOfBounds rows cols p then d
    else d.set (p.1 * (cols : Int) + p.2).toNat 255) data

/-- The point translated by `(a, b)`. -/
def translate (a b : Int) (p : CvPoint) : CvPoint := ⟨p.x + a, p.y + b⟩

/-- Three points far apart and almost on a line: the circle through them has
the radius 2450000000.5, beyond the largest `int`. -/
def farPoints : List CvPoint := [⟨-70000, 0⟩, ⟨70000, 0⟩, ⟨0, 1⟩]

/-! ## Vocabulary of the claims about the float fit, the loaders and the pairs -/

/-- Three collinear points for which the `float` denominator is not zero. -/
def slopePoints : List CvPoint := [⟨0, 0⟩, ⟨1, 3⟩, ⟨3, 9⟩]

/-- Three points on the diagonal: the `float` denominator is zero. -/
def diagonalPoints : List CvPoint := [⟨0, 0⟩, ⟨1, 1⟩, ⟨2, 2⟩]

/-- Three points that are not collinear and for which the `float` denominator
is zero. -/
def nearLinePoints : List CvPoint := [⟨0, 0⟩, ⟨944, 944⟩, ⟨1888, 1889⟩]

/-- An integer in the range of `int`. -/
def fitsInt (z : Int) : Prop := -2147483648 ≤ z ∧ z ≤ 2147483647

instance fitsIntDecidable (z : Int) : Decidable (fitsInt z) := by
  unfold fitsInt
  infer_instance

/-- The `float` nearest to a number, as a number. -/
def toFloat32 (t : ℚ) : ℚ := (FloatVal.ofRat binary32 t).toRat

/-- A number whose nearest `float` is finite. -/
def fitsFloat (t : ℚ) : Prop := (FloatVal.ofRat binary32 t).isFinite = true

instance fitsFloatDecidable (t : ℚ) : Decidable (fitsFloat t) := by
  unfold fitsFloat
  infer_instance

/-- The exception that left a loading, if any. -/
def loadError (r : LoadResult) : Option String :=
  match r.result with
  | .ok _ => none
  | .error what => some what

/-- A block of a filter file that `loadGaborFilters` reads in full: sizes
positive and in the range of `int`, as many values as cells, each value with a
finite nearest `float`. -/
def wellFormedBlock (b : Nat × Nat × List ℚ) : Prop :=
  0 < b.1 ∧ 0 < b.2.1 ∧ b.1 * b.2.1 ≤ 2147483647 ∧ b.2.2.length = b.1 * b.2.1 ∧
    ∀ v ∈ b.2.2, fitsFloat v

instance wellFormedBlockDecidable (b : Nat × Nat × List ℚ) : Decidable (wellFormedBlock b) := by
  unfold wellFormedBlock
  infer_instance

/-- The matrix stored for a block: its values rounded to `float`. -/
def blockMatrix (b : Nat × Nat × List ℚ) : CvMatF := ⟨b.1, b.2.1, b.2.2.map toFloat32⟩

/-- A set of files whose configuration enables encoding and matching and names
the three files, of which the file of the filters does not exist. -/
def lostFilters : FileSystem where
  lines := sampleFiles.lines
  words := sampleFiles.words
  numbers path := if path = "cfg/points.txt" then some [4, 0, 1, 1, 2, 5, 0, 0, 1] else none

theorem execStmts_ok_events {E S : Type} (w : World E S) (ss : List Stmt) (eye eye1 : E)
    (h : (execStmts w ss eye).result = .ok eye1) :
    (execStmts w ss eye).events = ss.filterMap stmtEvent := by
  induction ss generalizing eye with
  | nil => simp [execStmts]
  | cons s rest ih =>
    cases s with
    | cout line =>
      simp only [execStmts] at h ⊢
      simp [stmtEvent, ih eye h]
    | call op =>
      simp only [execStmts] at h ⊢
      cases hop : w.invoke op eye with
      | error what => simp [hop] at h
      | ok eye2 =>
        simp only [hop] at h ⊢
        simp [stmtEvent, ih eye2 h]
    | throw what => simp [execStmts] at h

theorem execStmts_eyeOp_mem {E S : Type} (w : World E S) (ss : List Stmt) (eye : E) (op : EyeOp)
    (h : Event.eyeOp op ∈ (execStmts w ss eye).events) : Stmt.call op ∈ ss := by
  induction ss generalizing eye with
  | nil => simp [execStmts] at h
  | cons s rest ih =>
    cases s with
    | cout line =>
      simp only [execStmts, List.mem_cons] at h
      rcases h with h | h
      · cases h
      · exact List.mem_cons_of_mem _ (ih eye h)
    | call op1 =>
      simp only [execStmts] at h
      cases hop : w.invoke op1 eye with
      | error what =>
        simp [hop] at h
        simp [h]
      | ok eye2 =>
        simp only [hop, List.mem_cons] at h
        rcases h with h | h
        · cases h; simp
        · exact List.mem_cons_of_mem _ (ih eye2 h)
    | throw what => simp [execStmts] at h

theorem execStmts_views {E S : Type} (w : World E S) (ss : List Stmt) (eye : E) :
    processedNames (execStmts w ss eye).events = [] ∧
    matchCalls (execStmts w ss eye).events = [] ∧
    openedReports (execStmts w ss eye).events = [] := by
  induction ss generalizing eye with
  | nil => simp [execStmts, processedNames, matchCalls, openedReports]
  | cons s rest ih =>
    cases s with
    | cout line =>
      have := ih eye
      simpa [execStmts, processedNames, matchCalls, openedReports] using this
    | call op1 =>
      simp only [execStmts]
      cases hop : w.invoke op1 eye with
      | error what1 => simp [processedNames, matchCalls, openedReports]
      | ok eye2 =>
        have := ih eye2
        simpa [processedNames, matchCalls, openedReports] using this
    | throw what1 => simp [execStmts, processedNames, matchCalls, openedReports]

theorem mem_ite_list {α : Type} (c : Prop) [Decidable c] (x : α) (l1 l2 : List α) :
    x ∈ (if c then l1 else l2) ↔ (c ∧ x ∈ l1) ∨ (¬ c ∧ x ∈ l2) := by
  by_cases h : c <;> simp [h]

theorem body_load_iff (m : OsiManager) (name short : String) (a : Artifact) (p : String) :
    Stmt.call (a.loadOp p) ∈ processOneEyeBody m name short ↔
      (a.inputDir m ≠ "" ∧ p = a.inputDir m ++ short ++ a.suffix m) := by
  cases a <;>
    simp [processOneEyeBody, Artifact.loadOp, Artifact.inputDir, Artifact.suffix, mem_ite_list]

theorem body_compute_iff (m : OsiManager) (name short : String) (a : Artifact) :
    Stmt.call (a.computeOp m) ∈ processOneEyeBody m name short ↔ a.stage m = true := by
  cases a <;>
    simp [processOneEyeBody, Artifact.computeOp, Artifact.stage, mem_ite_list]

theorem body_loadOriginal_iff (m : OsiManager) (name short p : String) :
    Stmt.call (.loadOriginalImage p) ∈ processOneEyeBody m name short ↔
      ((m.mProcessSegmentation = true ∨ m.mProcessNormalization = true) ∧
        m.mInputDirOriginalImages ≠ "" ∧ p = m.mInputDirOriginalImages ++ name) := by
  simp [processOneEyeBody, mem_ite_list]

theorem mem_filterMap_stmtEvent_eyeOp (ss : List Stmt) (op : EyeOp) :
    Event.eyeOp op ∈ ss.filterMap stmtEvent ↔ Stmt.call op ∈ ss := by
  simp only [List.mem_filterMap]
  constructor
  · rintro ⟨s, hs, he⟩
    cases s <;> simp [stmtEvent] at he
    subst he
    exact hs
  · intro h
    exact ⟨_, h, rfl⟩

theorem processOneEye_eyeOp_mem {E S : Type} (m : OsiManager) (w : World E S) (name : String)
    (eye : E) (op : EyeOp) (h : Event.eyeOp op ∈ (processOneEye m w name eye).events) :
    Stmt.call op ∈ processOneEyeBody m name (w.extractFileName name) := by
  simp only [processOneEye, List.mem_cons] at h
  rcases h with h | h
  · cases h
  · exact execStmts_eyeOp_mem w _ eye op h

theorem processOneEye_ok_eyeOp {E S : Type} (m : OsiManager) (w : World E S) (name : String)
    (eye eye1 : E) (h : (processOneEye m w name eye).result = .ok eye1) (op : EyeOp) :
    Event.eyeOp op ∈ (processOneEye m w name eye).events ↔
      Stmt.call op ∈ processOneEyeBody m name (w.extractFileName name) := by
  simp only [processOneEye] at h ⊢
  rw [execStmts_ok_events w _ eye eye1 h]
  constructor
  · intro h1
    rcases List.mem_cons.mp h1 with h2 | h2
    · cases h2
    · exact (mem_filterMap_stmtEvent_eyeOp _ op).mp h2
  · intro h1
    exact List.mem_cons_of_mem _ ((mem_filterMap_stmtEvent_eyeOp _ op).mpr h1)

/-- C7, counterexample: segmentation is enabled, an input directory for the
parameters is configured, processing succeeds, and `loadParameters` is called
all the same (after `segment`): the load does not depend on the stage being
disabled. -/
theorem C7_counterexample :
    (processOneEye cfgSegLoad (traceWorld [] []) "a" []).result =
        .ok [.loadOriginalImage "img/a", .segment 99 21 399 91, .loadParameters "par/a_para.txt",
          .saveMask "out/a_mask.bmp"] ∧
      ¬ ((∃ p, Event.eyeOp (Artifact.parameters.loadOp p) ∈
            (processOneEye cfgSegLoad (traceWorld [] []) "a" []).events) ↔
          (Artifact.parameters.stage cfgSegLoad = false ∧
            Artifact.parameters.inputDir cfgSegLoad ≠ "")) := by
  constructor
  · rfl
  · intro h
    have h1 := h.mp ⟨"par/a_para.txt", by decide⟩
    exact absurd h1.1 (by decide)

/-- C7 (amended): for every configuration and each of the five artifact
types, a load call that `processOneEye` makes has a non-empty input directory
and the path input directory, short name, suffix; and when `processOneEye` runs
to its end, the load is called if and only if the input directory is
non-empty, whether the owning stage is enabled or not, and the call that
computes the artifact is made if and only if the owning stage is enabled. -/
theorem C7_load_rule {E S : Type} (m : OsiManager) (w : World E S) (rFileName : String)
    (rEye : E) (a : Artifact) :
    (∀ p, Event.eyeOp (a.loadOp p) ∈ (processOneEye m w rFileName rEye).events →
      a.inputDir m ≠ "" ∧ p = a.inputDir m ++ w.extractFileName rFileName ++ a.suffix m) ∧
    (∀ eye1, (processOneEye m w rFileName rEye).result = .ok eye1 →
      ((∃ p, Event.eyeOp (a.loadOp p) ∈ (processOneEye m w rFileName rEye).events) ↔
          a.inputDir m ≠ "") ∧
      (Event.eyeOp (a.computeOp m) ∈ (processOneEye m w rFileName rEye).events ↔
          a.stage m = true)) := by
  refine ⟨fun p hp => ?_, fun eye1 hok => ⟨⟨?_, fun hne => ?_⟩, ?_⟩⟩
  · exact (body_load_iff m rFileName _ a p).mp (processOneEye_eyeOp_mem m w rFileName rEye _ hp)
  · rintro ⟨p, hp⟩
    exact ((body_load_iff m rFileName _ a p).mp
      (processOneEye_eyeOp_mem m w rFileName rEye _ hp)).1
  · exact ⟨_, (processOneEye_ok_eyeOp m w rFileName rEye eye1 hok _).mpr
      ((body_load_iff m rFileName _ a _).mpr ⟨hne, rfl⟩)⟩
  · rw [processOneEye_ok_eyeOp m w rFileName rEye eye1 hok]
    exact body_compute_iff m rFileName _ a

/-- C7 (amended) at a concrete input: segmentation enabled, parameters loaded
from `par/`. -/
theorem C7_load_rule_witness :
    ((∃ p, Event.eyeOp (EyeOp.loadParameters p) ∈
          (processOneEye cfgSegLoad (traceWorld [] []) "a" []).events) ↔
        cfgSegLoad.mInputDirParameters ≠ "") ∧
      (Event.eyeOp (EyeOp.segment 99 21 399 91) ∈
          (processOneEye cfgSegLoad (traceWorld [] []) "a" []).events ↔
        cfgSegLoad.mProcessSegmentation = true) :=
  (C7_load_rule cfgSegLoad (traceWorld [] []) "a" [] Artifact.parameters).2
    [.loadOriginalImage "img/a", .segment 99 21 399 91, .loadParameters "par/a_para.txt",
      .saveMask "out/a_mask.bmp"] rfl

/-- C9: when segmentation or normalization is enabled and the input directory
of the original images is empty, `processOneEye` fails with the message of its
entry test and has called nothing on the eye (no load, compute or save); when
neither of the two stages is enabled, `processOneEye` never calls
`loadOriginalImage`. -/
theorem C9_entry_precondition {E S : Type} (m : OsiManager) (w : World E S) (rFileName : String)
    (rEye : E) :
    ((m.mProcessSegmentation = true ∨ m.mProcessNormalization = true) →
      m.mInputDirOriginalImages = "" →
      (processOneEye m w rFileName rEye).result =
          .error "Cannot segmente/normalize without loading original image" ∧
        eyeCalls (processOneEye m w rFileName rEye).events = []) ∧
    (m.mProcessSegmentation = false → m.mProcessNormalization = false →
      ∀ p, Event.eyeOp (.loadOriginalImage p) ∉ (processOneEye m w rFileName rEye).events) := by
  constructor
  · intro hs hi
    have hc : (m.mProcessSegmentation || m.mProcessNormalization) = true := by
      rcases hs with h | h <;> simp [h]
    simp [processOneEye, processOneEyeBody, execStmts, hc, hi, eyeCalls]
  · intro hs hn p hp
    have := (body_loadOriginal_iff m rFileName _ p).mp
      (processOneEye_eyeOp_mem m w rFileName rEye _ hp)
    rw [hs, hn] at this
    rcases this.1 with h | h <;> cases h

/-- C9 at a concrete input: normalization enabled, no input directory. -/
theorem C9_entry_precondition_witness :
    (processOneEye cfgNoInput (traceWorld [] []) "a" []).result =
        .error "Cannot segmente/normalize without loading original image" ∧
      eyeCalls (processOneEye cfgNoInput (traceWorld [] []) "a" []).events = [] :=
  (C9_entry_precondition cfgNoInput (traceWorld [] []) "a" []).1 (Or.inr rfl) rfl

/-! ## Lemmas on run -/

theorem processedNames_append (a b : List Event) :
    processedNames (a ++ b) = processedNames a ++ processedNames b := by
  simp [processedNames]

theorem matchCalls_append (a b : List Event) :
    matchCalls (a ++ b) = matchCalls a ++ matchCalls b := by
  simp [matchCalls]

theorem openedReports_append (a b : List Event) :
    openedReports (a ++ b) = openedReports a ++ openedReports b := by
  simp [openedReports]

theorem processedNames_cout (line : String) (es : List Event) :
    processedNames (Event.cout line :: es) = processedNames es := rfl

theorem processedNames_matchCall (a b : Nat) (es : List Event) :
    processedNames (Event.matchCall a b :: es) = processedNames es := rfl

theorem processedNames_nil : processedNames [] = [] := rfl

theorem processOneEye_views {E S : Type} (m : OsiManager) (w : World E S) (name : String)
    (eye : E) :
    processedNames (processOneEye m w name eye).events = [name] ∧
    matchCalls (processOneEye m w name eye).events = [] ∧
    openedReports (processOneEye m w name eye).events = [] := by
  have h := execStmts_views w (processOneEyeBody m name (w.extractFileName name)) eye
  simp only [processOneEye]
  refine ⟨?_, ?_, ?_⟩
  · have := h.1
    simpa [processedNames] using this
  · have := h.2.1
    simpa [matchCalls] using this
  · have := h.2.2
    simpa [openedReports] using this

theorem loopBody_index {E S : Type} (m : OsiManager) (w : World E S) (i : Nat)
    (hi : i < m.mListOfImages.length) (st : RunState S) :
    (loopBody m w i hi st).1 = i ∨
      ((loopBody m w i hi st).1 = i + 1 ∧ m.mProcessMatching = true ∧
        i + 1 < m.mListOfImages.length) := by
  unfold loopBody
  dsimp only
  split
  · exact Or.inl rfl
  · split
    · rename_i hc
      have hi2 : i + 1 < m.mListOfImages.length := by omega
      split
      · exact Or.inr ⟨rfl, hc.1, hi2⟩
      · split
        · exact Or.inr ⟨rfl, hc.1, hi2⟩
        · split
          · split
            · exact Or.inr ⟨rfl, hc.1, hi2⟩
            · exact Or.inr ⟨rfl, hc.1, hi2⟩
          · exact Or.inr ⟨rfl, hc.1, hi2⟩
    · exact Or.inl rfl

/-- The loop body processes the image at `i`, and the image at `i + 1` exactly when it
increments the loop variable. -/
theorem loopBody_names {E S : Type} (m : OsiManager) (w : World E S) (i : Nat)
    (hi : i < m.mListOfImages.length) (st : RunState S) :
    processedNames (loopBody m w i hi st).2.events =
      processedNames st.events ++
        (m.mListOfImages.drop i).take ((loopBody m w i hi st).1 + 1 - i) := by
  have h1 : (m.mListOfImages.drop i).take 1 = [m.mListOfImages[i]] := by
    rw [List.drop_eq_getElem_cons hi]; rfl
  have h2 : ∀ h : i + 1 < m.mListOfImages.length,
      (m.mListOfImages.drop i).take 2 = [m.mListOfImages[i], m.mListOfImages[i + 1]] := by
    intro h
    rw [List.drop_eq_getElem_cons hi, List.drop_eq_getElem_cons h]; rfl
  have hp1 := (processOneEye_views m w m.mListOfImages[i] w.newEye).1
  unfold loopBody
  dsimp only
  split
  · simp [RunState.emit, processedNames_append, hp1, h1, processedNames_cout, processedNames_matchCall, processedNames_nil]
  · split
    · rename_i hc
      have hi2 : i + 1 < m.mListOfImages.length := by omega
      have hp2 := (processOneEye_views m w m.mListOfImages[i + 1] w.newEye).1
      have e2 : i + 1 + 1 - i = 2 := by omega
      split
      · simp [RunState.emit, processedNames_append, hp1, hp2, h2 hi2, e2, processedNames_cout, processedNames_matchCall, processedNames_nil]
      · split
        · simp [RunState.emit, processedNames_append, hp1, hp2, h2 hi2, e2, processedNames_cout, processedNames_matchCall, processedNames_nil]
        · split
          · split
            · simp [RunState.emit, processedNames_append, hp1, hp2, h2 hi2, e2, processedNames_cout, processedNames_matchCall, processedNames_nil]
            · simp [RunState.emit, processedNames_append, hp1, hp2, h2 hi2, e2, processedNames_cout, processedNames_matchCall, processedNames_nil]
          · simp [RunState.emit, processedNames_append, hp1, hp2, h2 hi2, e2, processedNames_cout, processedNames_matchCall, processedNames_nil]
    · simp [RunState.emit, processedNames_append, hp1, h1, processedNames_cout, processedNames_matchCall, processedNames_nil]


theorem runLoop_names {E S : Type} (m : OsiManager) (w : World E S) (i : Nat)
    (st : RunState S) :
    processedNames (runLoop m w i st).events =
      processedNames st.events ++ m.mListOfImages.drop i := by
  induction i, st using runLoop.induct m w with
  | case1 i st hi ih =>
    have hidx := loopBody_index m w i hi st
    have hnm := loopBody_names m w i hi st
    rw [runLoop, dif_pos hi, ih, hnm, List.append_assoc]
    generalize (loopBody m w i hi st).1 = j at hidx ⊢
    have hj : j + 1 = i + (j + 1 - i) := by omega
    have key : List.take (j + 1 - i) (List.drop i m.mListOfImages) ++
        List.drop (j + 1) m.mListOfImages = List.drop i m.mListOfImages := by
      conv_lhs => rw [hj, ← List.drop_drop]
      have e : i + (j + 1 - i) - i = j + 1 - i := by omega
      rw [e]
      exact List.take_append_drop _ _
    rw [key]
  | case2 i st hi =>
    rw [runLoop, dif_neg hi, List.drop_of_length_le (by omega)]
    simp


theorem emit_result_matching {S : Type} (st : RunState S) (es : List Event) :
    (st.emit es).result_matching = st.result_matching := rfl

theorem emit_events {S : Type} (st : RunState S) (es : List Event) :
    (st.emit es).events = st.events ++ es := rfl

theorem ofstream_good_of {S : Type} (s : OFStream S) (hf : s.failed = false) :
    ofstream_good s = true := by
  simp [ofstream_good, hf]

theorem ofstream_write_of {S : Type} (s : OFStream S) (l : ScoreLine S)
    (hf : s.failed = false) (ho : s.is_open = true) :
    ofstream_write s l = .ok { s with lines := s.lines ++ [l] } := by
  simp [ofstream_write, hf, ho]

theorem loopBody_first_fails {E S : Type} (m : OsiManager) (w : World E S) (i : Nat)
    (hi : i < m.mListOfImages.length) (st : RunState S) (what : String)
    (h1 : procEye m w m.mListOfImages[i] = .error what) :
    loopBody m w i hi st =
      (i, ⟨st.events ++ [Event.cout (progressLine i m.mListOfImages.length)] ++
            (processOneEye m w m.mListOfImages[i] w.newEye).events ++ [Event.cout what],
          st.result_matching⟩) := by
  unfold procEye at h1
  unfold loopBody
  simp only [h1]
  rfl

theorem loopBody_single {E S : Type} (m : OsiManager) (w : World E S) (i : Nat)
    (hi : i < m.mListOfImages.length) (st : RunState S) (eye : E)
    (h1 : procEye m w m.mListOfImages[i] = .ok eye)
    (hc : ¬ (m.mProcessMatching = true ∧ i < m.mListOfImages.length - 1)) :
    loopBody m w i hi st =
      (i, ⟨st.events ++ [Event.cout (progressLine i m.mListOfImages.length)] ++
            (processOneEye m w m.mListOfImages[i] w.newEye).events,
          st.result_matching⟩) := by
  unfold procEye at h1
  unfold loopBody
  dsimp only
  split
  · rename_i heq
    rw [h1] at heq
    cases heq
  · split
    · rename_i hc1
      exact absurd hc1 hc
    · rfl

theorem loopBody_pair {E S : Type} (m : OsiManager) (w : World E S) (i : Nat)
    (hi2 : i + 1 < m.mListOfImages.length) (st : RunState S) (eye eye2 : E) (score : S)
    (hm : m.mProcessMatching = true)
    (h1 : procEye m w m.mListOfImages[i] = .ok eye)
    (h2 : procEye m w m.mListOfImages[i + 1] = .ok eye2)
    (h3 : w.matchEyes eye eye2 m.mpApplicationPoints = .ok score)
    (hf : st.result_matching.failed = false) (ho : st.result_matching.is_open = true) :
    loopBody m w i (by omega) st =
      (i + 1, ⟨st.events ++ [Event.cout (progressLine i m.mListOfImages.length)] ++
            (processOneEye m w m.mListOfImages[i] w.newEye).events ++
            [Event.cout (progressLine (i + 1) m.mListOfImages.length)] ++
            (processOneEye m w m.mListOfImages[i + 1] w.newEye).events ++
            [Event.matchCall i (i + 1)],
          OFStream.mk st.result_matching.is_open st.result_matching.failed
            (st.result_matching.lines ++
              [ScoreLine.mk m.mListOfImages[i] m.mListOfImages[i + 1] score])⟩) := by
  unfold procEye at h1 h2
  have hc : m.mProcessMatching = true ∧ i < m.mListOfImages.length - 1 := ⟨hm, by omega⟩
  unfold loopBody
  dsimp only
  split
  · rename_i heq
    rw [h1] at heq
    cases heq
  · rename_i eyeA heq
    rw [h1] at heq
    cases heq
    split
    · split
      · rename_i heq2
        rw [h2] at heq2
        cases heq2
      · rename_i eyeB heq2
        rw [h2] at heq2
        cases heq2
        split
        · rename_i heq3
          rw [h3] at heq3
          cases heq3
        · rename_i sc heq3
          rw [h3] at heq3
          cases heq3
          split
          · split
            · rename_i heq4
              have heq5 : ofstream_write st.result_matching
                  (ScoreLine.mk m.mListOfImages[i] m.mListOfImages[i + 1] score) = .error _ := heq4
              rw [ofstream_write_of _ _ hf ho] at heq5
              cases heq5
            · rename_i strm heq4
              have heq5 : ofstream_write st.result_matching
                  (ScoreLine.mk m.mListOfImages[i] m.mListOfImages[i + 1] score) = .ok strm := heq4
              rw [ofstream_write_of _ _ hf ho] at heq5
              cases heq5
              rfl
          · rename_i hg
            exact absurd (ofstream_good_of st.result_matching hf) hg
    · rename_i hc1
      exact absurd hc hc1


theorem runLoop_ge {E S : Type} (m : OsiManager) (w : World E S) (i : Nat) (st : RunState S)
    (h : m.mListOfImages.length ≤ i) : runLoop m w i st = st := by
  rw [runLoop, dif_neg (by omega)]

theorem runLoop_step {E S : Type} (m : OsiManager) (w : World E S) (i : Nat) (st : RunState S)
    (hi : i < m.mListOfImages.length) :
    runLoop m w i st = runLoop m w ((loopBody m w i hi st).1 + 1) (loopBody m w i hi st).2 := by
  rw [runLoop, dif_pos hi]

/-- All images succeed: from an even position the loop writes one line per pair. -/
theorem runLoop_pairs {E S : Type} (m : OsiManager) (w : World E S)
    (hm : m.mProcessMatching = true)
    (hproc : ∀ name ∈ m.mListOfImages, ∃ eye, procEye m w name = .ok eye)
    (hmatch : ∀ k a b ea eb, m.mListOfImages[2 * k]? = some a →
      m.mListOfImages[2 * k + 1]? = some b → procEye m w a = .ok ea → procEye m w b = .ok eb →
      ∃ s, w.matchEyes ea eb m.mpApplicationPoints = .ok s) :
    ∀ d j (st : RunState S), m.mListOfImages.length - 2 * j = d →
      st.result_matching.failed = false → st.result_matching.is_open = true →
      (runLoop m w (2 * j) st).result_matching.failed = false ∧
      (runLoop m w (2 * j) st).result_matching.is_open = true ∧
      ∃ extra, (runLoop m w (2 * j) st).result_matching.lines =
          st.result_matching.lines ++ extra ∧
        extra.length = (m.mListOfImages.length - 2 * j) / 2 ∧
        ∀ k a b, m.mListOfImages[2 * (j + k)]? = some a →
          m.mListOfImages[2 * (j + k) + 1]? = some b →
          ∃ ea eb s, procEye m w a = .ok ea ∧ procEye m w b = .ok eb ∧
            w.matchEyes ea eb m.mpApplicationPoints = .ok s ∧
            extra[k]? = some (ScoreLine.mk a b s) := by
  intro d
  induction d using Nat.strong_induction_on with
  | _ d ih =>
    intro j st hd hf ho
    by_cases hi : 2 * j < m.mListOfImages.length
    · obtain ⟨eye, h1⟩ := hproc m.mListOfImages[2 * j] (List.getElem_mem _)
      by_cases hi2 : 2 * j + 1 < m.mListOfImages.length
      · obtain ⟨eye2, h2⟩ := hproc m.mListOfImages[2 * j + 1] (List.getElem_mem _)
        obtain ⟨s, h3⟩ := hmatch j _ _ eye eye2 (List.getElem?_eq_getElem hi)
          (List.getElem?_eq_getElem hi2) h1 h2
        have hb := loopBody_pair m w (2 * j) hi2 st eye eye2 s hm h1 h2 h3 hf ho
        have hstep := runLoop_step m w (2 * j) st hi
        have hidx : (loopBody m w (2 * j) hi st).1 = 2 * j + 1 := by rw [hb]
        have hl : (loopBody m w (2 * j) hi st).2.result_matching =
            OFStream.mk st.result_matching.is_open st.result_matching.failed
              (st.result_matching.lines ++
                [ScoreLine.mk m.mListOfImages[2 * j] m.mListOfImages[2 * j + 1] s]) := by
          rw [hb]
        have e1 : 2 * j + 1 + 1 = 2 * (j + 1) := by omega
        rw [hidx, e1] at hstep
        generalize (loopBody m w (2 * j) hi st).2 = st2 at hstep hl
        obtain ⟨g1, g2, extra, g3, g4, g5⟩ := ih (m.mListOfImages.length - 2 * (j + 1))
          (by omega) (j + 1) st2 rfl (by rw [hl]; exact hf) (by rw [hl]; exact ho)
        rw [← hstep] at g1 g2 g3
        rw [hl] at g3
        refine ⟨g1, g2, ScoreLine.mk m.mListOfImages[2 * j] m.mListOfImages[2 * j + 1] s :: extra,
          ?_, ?_, ?_⟩
        · rw [g3]
          simp
        · simp only [List.length_cons, g4]
          omega
        · intro k a b ha hb1
          cases k with
          | zero =>
            have ha1 : m.mListOfImages[2 * j] = a := by
              have := (List.getElem?_eq_getElem hi).symm.trans ha
              exact Option.some.inj this
            have hb2 : m.mListOfImages[2 * j + 1] = b := by
              have := (List.getElem?_eq_getElem hi2).symm.trans hb1
              exact Option.some.inj this
            subst ha1 hb2
            exact ⟨eye, eye2, s, h1, h2, h3, List.getElem?_cons_zero⟩
          | succ k =>
            have e2 : 2 * (j + (k + 1)) = 2 * (j + 1 + k) := by omega
            rw [e2] at ha hb1
            obtain ⟨ea, eb, s1, q1, q2, q3, q4⟩ := g5 k a b ha hb1
            exact ⟨ea, eb, s1, q1, q2, q3, by simpa using q4⟩
      · have hc : ¬ (m.mProcessMatching = true ∧ 2 * j < m.mListOfImages.length - 1) := by
          intro hc
          omega
        have hb := loopBody_single m w (2 * j) hi st eye h1 hc
        have hstep := runLoop_step m w (2 * j) st hi
        rw [hb] at hstep
        simp only [] at hstep
        rw [runLoop_ge m w (2 * j + 1) _ (by omega)] at hstep
        rw [hstep]
        refine ⟨hf, ho, [], by simp, ?_, ?_⟩
        · simp only [List.length_nil]
          omega
        · intro k a b ha hb1
          have := (List.getElem?_eq_some.mp hb1).1
          omega
    · rw [runLoop_ge m w (2 * j) st (by omega)]
      refine ⟨hf, ho, [], by simp, ?_, ?_⟩
      · simp only [List.length_nil]
        omega
      · intro k a b ha hb1
        have := (List.getElem?_eq_some.mp hb1).1
        omega


theorem matchCalls_cout (line : String) (es : List Event) :
    matchCalls (Event.cout line :: es) = matchCalls es := rfl

theorem matchCalls_nil : matchCalls [] = [] := rfl

theorem openedReports_cout (line : String) (es : List Event) :
    openedReports (Event.cout line :: es) = openedReports es := rfl

theorem openedReports_matchCall (a b : Nat) (es : List Event) :
    openedReports (Event.matchCall a b :: es) = openedReports es := rfl

theorem openedReports_nil : openedReports [] = [] := rfl

/-- The loop body never opens the score file. -/
theorem loopBody_opened {E S : Type} (m : OsiManager) (w : World E S) (i : Nat)
    (hi : i < m.mListOfImages.length) (st : RunState S) :
    openedReports (loopBody m w i hi st).2.events = openedReports st.events := by
  have hp1 := (processOneEye_views m w m.mListOfImages[i] w.newEye).2.2
  unfold loopBody
  dsimp only
  split
  · simp [emit_events, openedReports_append, hp1, openedReports_cout, openedReports_nil]
  · split
    · rename_i hc
      have hi2 : i + 1 < m.mListOfImages.length := by omega
      have hp2 := (processOneEye_views m w m.mListOfImages[i + 1] w.newEye).2.2
      split
      · simp [emit_events, openedReports_append, hp1, hp2, openedReports_cout,
          openedReports_nil]
      · split
        · simp [emit_events, openedReports_append, hp1, hp2, openedReports_cout,
            openedReports_matchCall, openedReports_nil]
        · split
          · split
            · simp [emit_events, openedReports_append, hp1, hp2, openedReports_cout,
                openedReports_matchCall, openedReports_nil]
            · simp [emit_events, openedReports_append, hp1, hp2, openedReports_cout,
                openedReports_matchCall, openedReports_nil]
          · simp [emit_events, openedReports_append, hp1, hp2, openedReports_cout,
              openedReports_matchCall, openedReports_nil]
    · simp [emit_events, openedReports_append, hp1, openedReports_cout, openedReports_nil]

/-- With matching disabled the loop body calls no match and leaves the stream as it is. -/
theorem loopBody_noMatch {E S : Type} (m : OsiManager) (w : World E S) (i : Nat)
    (hi : i < m.mListOfImages.length) (st : RunState S) (hm : m.mProcessMatching = false) :
    matchCalls (loopBody m w i hi st).2.events = matchCalls st.events ∧
      (loopBody m w i hi st).2.result_matching = st.result_matching := by
  have hp1 := (processOneEye_views m w m.mListOfImages[i] w.newEye).2.1
  unfold loopBody
  dsimp only
  split
  · simp [emit_events, emit_result_matching, matchCalls_append, hp1, matchCalls_cout,
      matchCalls_nil]
  · split
    · rename_i hc
      rw [hm] at hc
      exact absurd hc.1 (by decide)
    · simp [emit_events, emit_result_matching, matchCalls_append, hp1, matchCalls_cout,
        matchCalls_nil]

theorem runLoop_opened {E S : Type} (m : OsiManager) (w : World E S) (i : Nat)
    (st : RunState S) :
    openedReports (runLoop m w i st).events = openedReports st.events := by
  induction i, st using runLoop.induct m w with
  | case1 i st hi ih => rw [runLoop_step m w i st hi, ih, loopBody_opened]
  | case2 i st hi => rw [runLoop_ge m w i st (by omega)]

theorem runLoop_noMatch {E S : Type} (m : OsiManager) (w : World E S) (i : Nat)
    (st : RunState S) (hm : m.mProcessMatching = false) :
    matchCalls (runLoop m w i st).events = matchCalls st.events ∧
      (runLoop m w i st).result_matching = st.result_matching := by
  induction i, st using runLoop.induct m w with
  | case1 i st hi ih =>
    rw [runLoop_step m w i st hi]
    exact ⟨ih.1.trans (loopBody_noMatch m w i hi st hm).1,
      ih.2.trans (loopBody_noMatch m w i hi st hm).2⟩
  | case2 i st hi =>
    rw [runLoop_ge m w i st (by omega)]
    exact ⟨rfl, rfl⟩

theorem processedNames_closeReport (es : List Event) :
    processedNames (Event.closeReport :: es) = processedNames es := rfl

theorem processedNames_openReport (p : String) (es : List Event) :
    processedNames (Event.openReport p :: es) = processedNames es := rfl

theorem matchCalls_closeReport (es : List Event) :
    matchCalls (Event.closeReport :: es) = matchCalls es := rfl

theorem matchCalls_openReport (p : String) (es : List Event) :
    matchCalls (Event.openReport p :: es) = matchCalls es := rfl

theorem openedReports_closeReport (es : List Event) :
    openedReports (Event.closeReport :: es) = openedReports es := rfl

theorem runImages_thrown {E S : Type} (m : OsiManager) (w : World E S) (st : RunState S) :
    (runImages m w st).thrown = none := rfl

theorem runImages_names {E S : Type} (m : OsiManager) (w : World E S) (st : RunState S) :
    processedNames (runImages m w st).events = processedNames st.events ++ m.mListOfImages := by
  have h := runLoop_names m w 0 st
  rw [List.drop_zero] at h
  unfold runImages
  dsimp only
  split
  · simp [processedNames_append, h, processedNames_cout, processedNames_closeReport,
      processedNames_nil]
  · simp [processedNames_append, h, processedNames_cout, processedNames_closeReport,
      processedNames_nil]

theorem runImages_lines {E S : Type} (m : OsiManager) (w : World E S) (st : RunState S) :
    (runImages m w st).result_matching.lines = (runLoop m w 0 st).result_matching.lines := by
  unfold runImages
  dsimp only
  split
  · unfold ofstream_close
    split <;> rfl
  · rfl

theorem runImages_matchCalls {E S : Type} (m : OsiManager) (w : World E S) (st : RunState S) :
    matchCalls (runImages m w st).events = matchCalls (runLoop m w 0 st).events := by
  unfold runImages
  dsimp only
  split
  · simp [matchCalls_append, matchCalls_cout, matchCalls_closeReport, matchCalls_nil]
  · simp [matchCalls_append, matchCalls_cout, matchCalls_closeReport, matchCalls_nil]

theorem runImages_opened {E S : Type} (m : OsiManager) (w : World E S) (st : RunState S) :
    openedReports (runImages m w st).events = openedReports st.events := by
  have h := runLoop_opened m w 0 st
  unfold runImages
  dsimp only
  split
  · simp [openedReports_append, h, openedReports_cout, openedReports_closeReport,
      openedReports_nil]
  · simp [openedReports_append, h, openedReports_cout, openedReports_closeReport,
      openedReports_nil]

theorem run_disabled {E S : Type} (m : OsiManager) (w : World E S)
    (hc : (m.mProcessMatching && m.mOutputFileMatchingScores != "") = false) :
    run m w = runImages m w
      ⟨[Event.cout "", Event.cout "================", Event.cout "Start processing",
        Event.cout "================", Event.cout ""], ofstream_init⟩ := by
  unfold run
  simp only [hc, Bool.false_eq_true, if_false]

theorem run_enabled {E S : Type} (m : OsiManager) (w : World E S)
    (hc : (m.mProcessMatching && m.mOutputFileMatchingScores != "") = true) :
    run m w = runImages m w
      ⟨[Event.cout "", Event.cout "================", Event.cout "Start processing",
        Event.cout "================", Event.cout "",
        Event.openReport m.mOutputFileMatchingScores],
        OFStream.mk (w.canCreate m.mOutputFileMatchingScores)
          (!w.canCreate m.mOutputFileMatchingScores) []⟩ := by
  unfold run
  simp only [hc, if_true, ofstream_open, ofstream_init]
  cases w.canCreate m.mOutputFileMatchingScores <;> rfl

/-! ## Claims on run -/

/-- C1: with matching enabled, a score path configured and opened, every image
processed successfully and every `match` of a pair returning a score, `run`
throws nothing, processes every image, and writes exactly `n / 2` score lines
for a list of `n` images; line `k` (counted from 0) names the images at
positions `2 * k` and `2 * k + 1` and carries the score `match` gives for their
two records under the application mask.  The last image of a list of odd
length is processed and appears in no line. -/
theorem C1_pairs {E S : Type} (m : OsiManager) (w : World E S)
    (hm : m.mProcessMatching = true) (hpath : m.mOutputFileMatchingScores ≠ "")
    (hopen : w.canCreate m.mOutputFileMatchingScores = true)
    (hproc : ∀ name ∈ m.mListOfImages, ∃ eye, procEye m w name = .ok eye)
    (hmatch : ∀ k (h : 2 * k + 1 < m.mListOfImages.length) ea eb,
      procEye m w m.mListOfImages[2 * k] = .ok ea →
      procEye m w m.mListOfImages[2 * k + 1] = .ok eb →
      ∃ s, w.matchEyes ea eb m.mpApplicationPoints = .ok s) :
    (run m w).thrown = none ∧
      processedNames (run m w).events = m.mListOfImages ∧
      (run m w).result_matching.lines.length = m.mListOfImages.length / 2 ∧
      ∀ k (h : 2 * k + 1 < m.mListOfImages.length), ∃ ea eb s,
        procEye m w m.mListOfImages[2 * k] = .ok ea ∧
        procEye m w m.mListOfImages[2 * k + 1] = .ok eb ∧
        w.matchEyes ea eb m.mpApplicationPoints = .ok s ∧
        (run m w).result_matching.lines[k]? =
          some (ScoreLine.mk m.mListOfImages[2 * k] m.mListOfImages[2 * k + 1] s) := by
  have h4 := (runImages_names m w
    ⟨[Event.cout "", Event.cout "================", Event.cout "Start processing",
        Event.cout "================", Event.cout "",
        Event.openReport m.mOutputFileMatchingScores],
        OFStream.mk (w.canCreate m.mOutputFileMatchingScores)
          (!w.canCreate m.mOutputFileMatchingScores) []⟩)
  have hc : (m.mProcessMatching && m.mOutputFileMatchingScores != "") = true := by
    simp [hm, hpath]
  have hmatch1 : ∀ k a b ea eb, m.mListOfImages[2 * k]? = some a →
      m.mListOfImages[2 * k + 1]? = some b → procEye m w a = .ok ea → procEye m w b = .ok eb →
      ∃ s, w.matchEyes ea eb m.mpApplicationPoints = .ok s := by
    intro k a b ea eb ha hb h1 h2
    obtain ⟨hb1, hb2⟩ := List.getElem?_eq_some.mp hb
    obtain ⟨ha1, ha2⟩ := List.getElem?_eq_some.mp ha
    subst ha2 hb2
    exact hmatch k hb1 ea eb h1 h2
  rw [run_enabled m w hc]
  obtain ⟨_, _, extra, g3, g4, g5⟩ := runLoop_pairs m w hm hproc hmatch1 _ 0
    ⟨[Event.cout "", Event.cout "================", Event.cout "Start processing",
        Event.cout "================", Event.cout "",
        Event.openReport m.mOutputFileMatchingScores],
        OFStream.mk (w.canCreate m.mOutputFileMatchingScores)
          (!w.canCreate m.mOutputFileMatchingScores) []⟩ rfl (by simp [hopen]) (by simp [hopen])
  simp only [Nat.mul_zero, List.nil_append, Nat.sub_zero] at g3 g4
  refine ⟨runImages_thrown _ _ _, h4, ?_, ?_⟩
  · rw [runImages_lines, g3, g4]
  · intro k h
    have := g5 k _ _ (by rw [Nat.zero_add]; exact List.getElem?_eq_getElem (by omega))
      (by rw [Nat.zero_add]; exact List.getElem?_eq_getElem h)
    rw [runImages_lines, g3]
    exact this


/-- C1 at a concrete input: three images, all succeed; one score line, which
pairs `a` and `b` with the score of their two records, and `c` is processed
and unmatched. -/
theorem C1_pairs_witness :
    (run cfgMatch3 (traceWorld [] [])).thrown = none ∧
      processedNames (run cfgMatch3 (traceWorld [] [])).events = ["a", "b", "c"] ∧
      (run cfgMatch3 (traceWorld [] [])).result_matching.lines.length = 1 ∧
      (run cfgMatch3 (traceWorld [] [])).result_matching.lines[0]? =
        some ⟨"a", "b",
          ([.loadIrisCode "codes/a_code.bmp"], [.loadIrisCode "codes/b_code.bmp"])⟩ := by
  have h := C1_pairs cfgMatch3 (traceWorld [] []) rfl (by decide) (by decide)
    (by
      intro name hn
      have hn1 : name = "a" ∨ name = "b" ∨ name = "c" := by
        simpa [cfgMatch3, cfgMatch4] using hn
      rcases hn1 with h | h | h <;> subst h <;> exact ⟨_, rfl⟩)
    (fun _ _ ea eb _ _ => ⟨(ea, eb), rfl⟩)
  refine ⟨h.1, h.2.1, h.2.2.1, ?_⟩
  obtain ⟨ea, eb, sc, h1, h2, h3, h4⟩ := h.2.2.2 0 (by decide)
  have e1 : ea = [.loadIrisCode "codes/a_code.bmp"] := (Except.ok.inj h1).symm
  have e2 : eb = [.loadIrisCode "codes/b_code.bmp"] := (Except.ok.inj h2).symm
  have e3 : sc = (ea, eb) := (Except.ok.inj h3).symm
  rw [h4, e3, e1, e2]
  rfl

/-- C2, the code at the failing input: four images, only the first fails.  The
one score line pairs images 2 and 3 (`b` and `c`), and `match` is called on the
positions 1 and 2 (counted from 0): the second image of the failed pair is not
skipped, it becomes the first image of the next pair, and image 4 stays
unmatched. -/
theorem C2_first_fails_shifts_pairs :
    procEye cfgMatch4 (traceWorld [.loadIrisCode "codes/a_code.bmp"] []) "a" = .error "failed" ∧
    (run cfgMatch4 (traceWorld [.loadIrisCode "codes/a_code.bmp"] [])).result_matching.lines =
      [⟨"b", "c", ([.loadIrisCode "codes/b_code.bmp"], [.loadIrisCode "codes/c_code.bmp"])⟩] ∧
    matchCalls (run cfgMatch4 (traceWorld [.loadIrisCode "codes/a_code.bmp"] [])).events =
      [(1, 2)] := by
  refine ⟨rfl, ?_, ?_⟩
  · simp [run, runImages, runLoop, loopBody, processOneEye, processOneEyeBody, execStmts,
      cfgMatch4, initConfiguration, traceWorld, ofstream_open, ofstream_good, ofstream_write,
      ofstream_init, ofstream_close, RunState.emit]
  · simp [run, runImages, runLoop, loopBody, processOneEye, processOneEyeBody, execStmts,
      cfgMatch4, initConfiguration, traceWorld, ofstream_open, ofstream_good, ofstream_write,
      ofstream_init, ofstream_close, RunState.emit, matchCalls]


/-- C4: for every image list, every configuration (matching enabled or not)
and every world, that is every pattern of failures of the calls made while an
image is processed, `run` returns normally (no exception leaves it) and
`processOneEye` is called exactly once for each image of the list, in list
order. -/
theorem C4_fault_isolation {E S : Type} (m : OsiManager) (w : World E S) :
    (run m w).thrown = none ∧ processedNames (run m w).events = m.mListOfImages := by
  cases hc : (m.mProcessMatching && m.mOutputFileMatchingScores != "")
  · rw [run_disabled m w hc]
    exact ⟨runImages_thrown _ _ _, by rw [runImages_names]; rfl⟩
  · rw [run_enabled m w hc]
    exact ⟨runImages_thrown _ _ _, by rw [runImages_names]; rfl⟩

/-- C5: with matching disabled, for every image list and every value of the
score output path, `run` never calls `match`, never opens the score report,
writes no score line and throws nothing; every image is still processed, in
list order. -/
theorem C5_matching_disabled {E S : Type} (m : OsiManager) (w : World E S)
    (hm : m.mProcessMatching = false) :
    matchCalls (run m w).events = [] ∧
      openedReports (run m w).events = [] ∧
      (run m w).result_matching.lines = [] ∧
      (run m w).thrown = none ∧
      processedNames (run m w).events = m.mListOfImages := by
  have hc : (m.mProcessMatching && m.mOutputFileMatchingScores != "") = false := by
    rw [hm]
    rfl
  rw [run_disabled m w hc]
  refine ⟨?_, ?_, ?_, runImages_thrown _ _ _, ?_⟩
  · rw [runImages_matchCalls, (runLoop_noMatch m w 0 _ hm).1]
    rfl
  · rw [runImages_opened]
    rfl
  · rw [runImages_lines, (runLoop_noMatch m w 0 _ hm).2]
    rfl
  · rw [runImages_names]
    rfl

/-- C5 at a concrete input: three images, matching disabled, the score path
still configured. -/
theorem C5_matching_disabled_witness :
    matchCalls (run cfgNoMatch3 (traceWorld [] [])).events = [] ∧
      openedReports (run cfgNoMatch3 (traceWorld [] [])).events = [] ∧
      (run cfgNoMatch3 (traceWorld [] [])).result_matching.lines = [] ∧
      (run cfgNoMatch3 (traceWorld [] [])).thrown = none ∧
      processedNames (run cfgNoMatch3 (traceWorld [] [])).events = ["a", "b", "c"] :=
  C5_matching_disabled cfgNoMatch3 (traceWorld [] []) rfl

/-- C6, the code at the failing input: matching enabled, a score path that
cannot be created.  `run` throws nothing, processes the four images, calls
`match` on both pairs and writes no line: the failure to create the file is
not fatal. -/
theorem C6_unwritable_report_not_fatal :
    (traceWorld [] ["scores.txt"]).canCreate cfgMatch4.mOutputFileMatchingScores = false ∧
    (run cfgMatch4 (traceWorld [] ["scores.txt"])).thrown = none ∧
    processedNames (run cfgMatch4 (traceWorld [] ["scores.txt"])).events =
      ["a", "b", "c", "d"] ∧
    matchCalls (run cfgMatch4 (traceWorld [] ["scores.txt"])).events = [(0, 1), (2, 3)] ∧
    (run cfgMatch4 (traceWorld [] ["scores.txt"])).result_matching.lines = [] := by
  refine ⟨by decide, rfl, ?_, ?_, ?_⟩
  · rw [run_enabled cfgMatch4 (traceWorld [] ["scores.txt"]) rfl, runImages_names]
    rfl
  · simp [run, runImages, runLoop, loopBody, processOneEye, processOneEyeBody, execStmts,
      cfgMatch4, initConfiguration, traceWorld, ofstream_open, ofstream_good, ofstream_write,
      ofstream_init, ofstream_close, RunState.emit, matchCalls]
  · simp [run, runImages, runLoop, loopBody, processOneEye, processOneEyeBody, execStmts,
      cfgMatch4, initConfiguration, traceWorld, ofstream_open, ofstream_good, ofstream_write,
      ofstream_init, ofstream_close, RunState.emit]

/-! ## Lemmas on computeCircleFitting -/

section
variable {K : Type} [LinearOrderedField K]

theorem foldl_addPoint (l : List CvPoint) (acc : K × K) :
    l.foldl addPoint acc =
      (acc.1 + (l.map fun p => (p.x : K)).sum, acc.2 + (l.map fun p => (p.y : K)).sum) := by
  induction l generalizing acc with
  | nil => simp
  | cons p l ih =>
    simp only [List.foldl_cons, ih, addPoint, List.map_cons, List.sum_cons]
    ext <;> simp <;> ring

theorem foldl_addMoments (mx my : K) (l : List CvPoint) (s : MomentSums K) :
    l.foldl (addMoments mx my) s =
      { suu := s.suu + (listSums mx my l).suu
        svv := s.svv + (listSums mx my l).svv
        suv := s.suv + (listSums mx my l).suv
        suuu := s.suuu + (listSums mx my l).suuu
        svvv := s.svvv + (listSums mx my l).svvv
        suuv := s.suuv + (listSums mx my l).suuv
        suvv := s.suvv + (listSums mx my l).suvv } := by
  induction l generalizing s with
  | nil => simp [listSums]
  | cons p l ih =>
    simp only [List.foldl_cons, ih, addMoments, listSums, List.map_cons, List.sum_cons]
    congr 1 <;> ring


theorem sum_sq_nonneg (f : CvPoint → K) (l : List CvPoint) :
    0 ≤ (l.map fun p => f p * f p).sum := by
  induction l with
  | nil => simp
  | cons p l ih =>
    simp only [List.map_cons, List.sum_cons]
    exact add_nonneg (mul_self_nonneg _) ih

theorem sum_sq_eq_zero (f : CvPoint → K) (l : List CvPoint)
    (h : (l.map fun p => f p * f p).sum = 0) : ∀ p ∈ l, f p = 0 := by
  induction l with
  | nil => intro p hp; cases hp
  | cons q l ih =>
    simp only [List.map_cons, List.sum_cons] at h
    have h1 := mul_self_nonneg (f q)
    have h2 := sum_sq_nonneg f l
    have hq : f q * f q = 0 := by linarith
    have hl : (l.map fun p => f p * f p).sum = 0 := by linarith
    intro p hp
    rcases List.mem_cons.mp hp with hpq | hpl
    · subst hpq
      exact mul_self_eq_zero.mp hq
    · exact ih hl p hpl

theorem sum_quadratic (mx my α β : K) (l : List CvPoint) :
    (l.map fun p => (α * ((p.x : K) - mx) + β * ((p.y : K) - my)) *
        (α * ((p.x : K) - mx) + β * ((p.y : K) - my))).sum =
      α * α * (listSums mx my l).suu + 2 * α * β * (listSums mx my l).suv +
        β * β * (listSums mx my l).svv := by
  induction l with
  | nil => simp [listSums]
  | cons p l ih =>
    simp only [listSums, List.map_cons, List.sum_cons] at ih ⊢
    rw [ih]
    ring

/-- Off the collinear case `suu` is positive and the denominator is negative, whatever
the point `(mx, my)` the coordinates are taken from. -/
theorem denominator_neg (mx my : K) (l : List CvPoint) (hnc : ¬ collinear l) :
    0 < (listSums mx my l).suu ∧
      (listSums mx my l).suv * (listSums mx my l).suv -
        (listSums mx my l).suu * (listSums mx my l).svv < 0 := by
  have huu : 0 ≤ (listSums mx my l).suu := sum_sq_nonneg (fun p => (p.x : K) - mx) l
  have hpos : 0 < (listSums mx my l).suu := by
    rcases huu.lt_or_eq with h | h
    · exact h
    · exfalso
      apply hnc
      have hz := sum_sq_eq_zero (fun p => (p.x : K) - mx) l h.symm
      intro p hp q hq r hr
      have e1 := hz p hp
      have e2 := hz q hq
      have e3 := hz r hr
      simp only at e1 e2 e3
      have : (((q.x - p.x) * (r.y - p.y) - (q.y - p.y) * (r.x - p.x) : ℤ) : K) = 0 := by
        push_cast
        linear_combination ((r.y : K) - p.y) * (e2 - e1) - ((q.y : K) - p.y) * (e3 - e1)
      exact_mod_cast this
  refine ⟨hpos, ?_⟩
  have hq := sum_quadratic mx my (listSums mx my l).suv (-(listSums mx my l).suu) l
  have hnn := sum_sq_nonneg (fun p => (listSums mx my l).suv * ((p.x : K) - mx) +
    -(listSums mx my l).suu * ((p.y : K) - my)) l
  simp only at hnn
  rw [hq] at hnn
  set A := (listSums mx my l).suu with hA
  set B := (listSums mx my l).suv with hB
  set C := (listSums mx my l).svv with hC
  have hle : A * (A * C - B * B) ≥ 0 := by nlinarith
  have hle2 : 0 ≤ A * C - B * B := by
    by_contra hneg
    push_neg at hneg
    have := mul_neg_of_pos_of_neg hpos hneg
    linarith
  rcases hle2.lt_or_eq with h | h
  · linarith
  · exfalso
    apply hnc
    have hsum0 : (l.map fun p => (B * ((p.x : K) - mx) + -A * ((p.y : K) - my)) *
        (B * ((p.x : K) - mx) + -A * ((p.y : K) - my))).sum = 0 := by
      rw [hq]
      linear_combination (-A) * h
    have hz := sum_sq_eq_zero (fun p => B * ((p.x : K) - mx) + -A * ((p.y : K) - my)) l hsum0
    intro p hp q hq1 r hr
    have e1 := hz p hp
    have e2 := hz q hq1
    have e3 := hz r hr
    simp only at e1 e2 e3
    have hcross : A * (((q.x : K) - p.x) * ((r.y : K) - p.y) -
        ((q.y : K) - p.y) * ((r.x : K) - p.x)) = 0 := by
      linear_combination (-((q.x : K) - p.x)) * (e3 - e1) + ((r.x : K) - p.x) * (e2 - e1)
    have hcr := (mul_eq_zero.mp hcross).resolve_left (ne_of_gt hpos)
    have : (((q.x - p.x) * (r.y - p.y) - (q.y - p.y) * (r.x - p.x) : ℤ) : K) = 0 := by
      push_cast
      exact hcr
    exact_mod_cast this

theorem circle_sums (mx my a b c0 : K) (l : List CvPoint)
    (h : ∀ p ∈ l, ((p.x : K) - mx) * ((p.x : K) - mx) + ((p.y : K) - my) * ((p.y : K) - my) -
      2 * a * ((p.x : K) - mx) - 2 * b * ((p.y : K) - my) + c0 = 0) :
    ((listSums mx my l).suu + (listSums mx my l).svv -
        2 * a * (l.map fun p => (p.x : K) - mx).sum -
        2 * b * (l.map fun p => (p.y : K) - my).sum + c0 * (l.length : K) = 0) ∧
      ((listSums mx my l).suuu + (listSums mx my l).suvv - 2 * a * (listSums mx my l).suu -
        2 * b * (listSums mx my l).suv + c0 * (l.map fun p => (p.x : K) - mx).sum = 0) ∧
      ((listSums mx my l).suuv + (listSums mx my l).svvv - 2 * a * (listSums mx my l).suv -
        2 * b * (listSums mx my l).svv + c0 * (l.map fun p => (p.y : K) - my).sum = 0) := by
  induction l with
  | nil => simp [listSums]
  | cons p l ih =>
    have hp := h p (List.mem_cons_self _ _)
    obtain ⟨i1, i2, i3⟩ := ih (fun q hq => h q (List.mem_cons_of_mem _ hq))
    simp only [listSums, List.map_cons, List.sum_cons, List.length_cons, Nat.cast_succ]
      at i1 i2 i3 ⊢
    refine ⟨?_, ?_, ?_⟩
    · linear_combination hp + i1
    · linear_combination ((p.x : K) - mx) * hp + i2
    · linear_combination ((p.y : K) - my) * hp + i3

theorem sum_centered (f : CvPoint → K) (l : List CvPoint) (hl : l ≠ []) :
    (l.map fun p => f p - (l.map f).sum / (l.length : K)).sum = 0 := by
  have hne : (l.length : K) ≠ 0 := by
    have : l.length ≠ 0 := by
      intro h0
      exact hl (List.length_eq_zero.mp h0)
    exact_mod_cast this
  have key : ∀ (c : K) (l1 : List CvPoint),
      (l1.map fun p => f p - c).sum = (l1.map f).sum - (l1.length : K) * c := by
    intro c l1
    induction l1 with
    | nil => simp
    | cons p l1 ih =>
      simp only [List.map_cons, List.sum_cons, List.length_cons, Nat.cast_succ, ih]
      ring
  rw [key]
  field_simp


theorem fit_mx (l : List CvPoint) :
    (computeCircleFitting K l).mx = (l.map fun p => (p.x : K)).sum / (l.length : K) := by
  simp [computeCircleFitting, foldl_addPoint]

theorem fit_my (l : List CvPoint) :
    (computeCircleFitting K l).my = (l.map fun p => (p.y : K)).sum / (l.length : K) := by
  simp [computeCircleFitting, foldl_addPoint]

theorem fit_sums (l : List CvPoint) :
    (computeCircleFitting K l).sums =
      listSums (computeCircleFitting K l).mx (computeCircleFitting K l).my l := by
  simp [computeCircleFitting, foldl_addMoments]

theorem fit_uc (l : List CvPoint) :
    (computeCircleFitting K l).uc =
      (1 / 2) * ((computeCircleFitting K l).sums.suv *
          ((computeCircleFitting K l).sums.svvv + (computeCircleFitting K l).sums.suuv) -
        (computeCircleFitting K l).sums.svv *
          ((computeCircleFitting K l).sums.suuu + (computeCircleFitting K l).sums.suvv)) /
      (computeCircleFitting K l).denominator := rfl

theorem fit_vc (l : List CvPoint) :
    (computeCircleFitting K l).vc =
      (1 / 2) * ((computeCircleFitting K l).sums.suv *
          ((computeCircleFitting K l).sums.suuu + (computeCircleFitting K l).sums.suvv) -
        (computeCircleFitting K l).sums.suu *
          ((computeCircleFitting K l).sums.svvv + (computeCircleFitting K l).sums.suuv)) /
      (computeCircleFitting K l).denominator := rfl

theorem fit_denominator (l : List CvPoint) :
    (computeCircleFitting K l).denominator =
      (computeCircleFitting K l).sums.suv * (computeCircleFitting K l).sums.suv -
        (computeCircleFitting K l).sums.suu * (computeCircleFitting K l).sums.svv := rfl

/-- C10: for every list of at least three points that are not all collinear and
all lie at distance `R` from a centre `(cx, cy)`, the moment formula of
`computeCircleFitting`, evaluated in exact arithmetic (any linearly ordered
field, the rationals and the reals among them), gives `uc + mx = cx`,
`vc + my = cy` and `uc ^ 2 + vc ^ 2 + (suu + svv) / N = R ^ 2`: the fitted centre
is `(cx, cy)`, the radicand of the fitted radius is `R ^ 2`, and the fitted
radius, the non-negative square root of the radicand, is `R`. -/
theorem C10_exact_circle (rPoints : List CvPoint) (cx cy R : K)
    (hN : 3 ≤ rPoints.length) (hnc : ¬ collinear rPoints)
    (hon : ∀ p ∈ rPoints, ((p.x : K) - cx) ^ 2 + ((p.y : K) - cy) ^ 2 = R ^ 2) :
    (computeCircleFitting K rPoints).uc + (computeCircleFitting K rPoints).mx = cx ∧
    (computeCircleFitting K rPoints).vc + (computeCircleFitting K rPoints).my = cy ∧
    (computeCircleFitting K rPoints).uc ^ 2 + (computeCircleFitting K rPoints).vc ^ 2 +
      ((computeCircleFitting K rPoints).sums.suu + (computeCircleFitting K rPoints).sums.svv) /
        (rPoints.length : K) = R ^ 2 ∧
    (computeCircleFitting K rPoints).centerX = cx ∧
    (computeCircleFitting K rPoints).centerY = cy ∧
    (computeCircleFitting K rPoints).radicand = R ^ 2 ∧
    (0 ≤ R → ∀ r : K, 0 ≤ r → r * r = (computeCircleFitting K rPoints).radicand → r = R) := by
  have hl : rPoints ≠ [] := by
    intro h
    rw [h] at hN
    simp at hN
  have hNne : (rPoints.length : K) ≠ 0 := by
    have : rPoints.length ≠ 0 := by omega
    exact_mod_cast this
  have hsu := sum_centered (fun p => (p.x : K)) rPoints hl
  have hsv := sum_centered (fun p => (p.y : K)) rPoints hl
  rw [← fit_mx] at hsu
  rw [← fit_my] at hsv
  have huc := fit_uc (K := K) rPoints
  have hvc := fit_vc (K := K) rPoints
  have hden := fit_denominator (K := K) rPoints
  have hs := fit_sums (K := K) rPoints
  have hcx : (computeCircleFitting K rPoints).centerX =
      (computeCircleFitting K rPoints).uc + (computeCircleFitting K rPoints).mx := rfl
  have hcy : (computeCircleFitting K rPoints).centerY =
      (computeCircleFitting K rPoints).vc + (computeCircleFitting K rPoints).my := rfl
  have hrad : (computeCircleFitting K rPoints).radicand =
      (computeCircleFitting K rPoints).uc * (computeCircleFitting K rPoints).uc +
        (computeCircleFitting K rPoints).vc * (computeCircleFitting K rPoints).vc +
        ((computeCircleFitting K rPoints).sums.suu +
          (computeCircleFitting K rPoints).sums.svv) / (rPoints.length : K) := rfl
  generalize (computeCircleFitting K rPoints).mx = mx at *
  generalize (computeCircleFitting K rPoints).my = my at *
  generalize (computeCircleFitting K rPoints).uc = uc at *
  generalize (computeCircleFitting K rPoints).vc = vc at *
  generalize (computeCircleFitting K rPoints).denominator = den at *
  generalize (computeCircleFitting K rPoints).centerX = ctrX at *
  generalize (computeCircleFitting K rPoints).centerY = ctrY at *
  generalize (computeCircleFitting K rPoints).radicand = rad at *
  generalize (computeCircleFitting K rPoints).sums = s at *
  subst hs
  obtain ⟨_, hD⟩ := denominator_neg mx my rPoints hnc
  rw [← hden] at hD
  obtain ⟨c1, c2, c3⟩ := circle_sums mx my (cx - mx) (cy - my)
    ((cx - mx) ^ 2 + (cy - my) ^ 2 - R ^ 2) rPoints (by
      intro p hp
      have := hon p hp
      linear_combination this)
  simp only at hsu hsv
  rw [hsu] at c1 c2
  rw [hsv] at c1 c3
  have hdne : den ≠ 0 := ne_of_lt hD
  have huc1 : uc = cx - mx := by
    rw [huc, div_eq_iff hdne]
    linear_combination (1 / 2) * (listSums mx my rPoints).suv * c3 -
      (1 / 2) * (listSums mx my rPoints).svv * c2 - (cx - mx) * hden
  have hvc1 : vc = cy - my := by
    rw [hvc, div_eq_iff hdne]
    linear_combination (1 / 2) * (listSums mx my rPoints).suv * c2 -
      (1 / 2) * (listSums mx my rPoints).suu * c3 - (cy - my) * hden
  have hsum : ((listSums mx my rPoints).suu + (listSums mx my rPoints).svv) /
      (rPoints.length : K) = R ^ 2 - (cx - mx) ^ 2 - (cy - my) ^ 2 := by
    rw [div_eq_iff hNne]
    linear_combination c1
  have hradR : rad = R ^ 2 := by
    rw [hrad, hsum, huc1, hvc1]
    ring
  refine ⟨by rw [huc1]; ring, by rw [hvc1]; ring, ?_, by rw [hcx, huc1]; ring,
    by rw [hcy, hvc1]; ring, hradR, ?_⟩
  · rw [hsum, huc1, hvc1]
    ring
  · intro hR r hr hrr
    rw [hradR] at hrr
    have h2 : (r - R) * (r + R) = 0 := by linear_combination hrr
    rcases mul_eq_zero.mp h2 with h3 | h3
    · linarith
    · have hr0 : r = 0 := by linarith
      have hR0 : R = 0 := by linarith
      rw [hr0, hR0]


/-- C10 at a concrete input: four points of the circle of radius 5 around the
origin, over the rationals. -/
theorem C10_exact_circle_witness :
    (computeCircleFitting ℚ [⟨5, 0⟩, ⟨0, 5⟩, ⟨-5, 0⟩, ⟨3, 4⟩]).centerX = 0 ∧
      (computeCircleFitting ℚ [⟨5, 0⟩, ⟨0, 5⟩, ⟨-5, 0⟩, ⟨3, 4⟩]).centerY = 0 ∧
      (computeCircleFitting ℚ [⟨5, 0⟩, ⟨0, 5⟩, ⟨-5, 0⟩, ⟨3, 4⟩]).radicand = 5 ^ 2 :=
  have h := C10_exact_circle (K := ℚ) [⟨5, 0⟩, ⟨0, 5⟩, ⟨-5, 0⟩, ⟨3, 4⟩] 0 0 5
    (by decide) (by decide)
    (by
      intro p hp
      simp only [List.mem_cons, List.mem_singleton, List.not_mem_nil, or_false] at hp
      rcases hp with h | h | h | h <;> subst h <;> norm_num)
  ⟨h.2.2.2.1, h.2.2.2.2.1, h.2.2.2.2.2.1⟩

end

/-! ## Claims on OsiCircle -/

section
variable {K : Type} [LinearOrderedField K]

/-- Points on a line through the origin of the `(u, v)` space: the sums are proportional. -/
theorem line_sums (mx my a b : K) (l : List CvPoint)
    (h : ∀ r ∈ l, a * ((r.y : K) - my) = b * ((r.x : K) - mx)) :
    a * (listSums mx my l).suv = b * (listSums mx my l).suu ∧
      a * (listSums mx my l).svv = b * (listSums mx my l).suv := by
  induction l with
  | nil => simp [listSums]
  | cons p l ih =>
    have hp := h p (List.mem_cons_self _ _)
    obtain ⟨i1, i2⟩ := ih (fun r hr => h r (List.mem_cons_of_mem _ hr))
    simp only [listSums, List.map_cons, List.sum_cons] at i1 i2 ⊢
    constructor
    · linear_combination ((p.x : K) - mx) * hp + i1
    · linear_combination ((p.y : K) - my) * hp + i2

theorem line_sums_denominator (mx my a b : K) (l : List CvPoint)
    (h : ∀ r ∈ l, a * ((r.y : K) - my) = b * ((r.x : K) - mx)) :
    a * a * ((listSums mx my l).suv * (listSums mx my l).suv -
        (listSums mx my l).suu * (listSums mx my l).svv) = 0 ∧
      b * b * ((listSums mx my l).suv * (listSums mx my l).suv -
        (listSums mx my l).suu * (listSums mx my l).svv) = 0 := by
  obtain ⟨h1, h2⟩ := line_sums mx my a b l h
  constructor
  · linear_combination (a * (listSums mx my l).suv) * h1 - (a * (listSums mx my l).suu) * h2
  · linear_combination (b * (listSums mx my l).svv) * h1 - (b * (listSums mx my l).suv) * h2

theorem sum_affine (a b c : K) (l : List CvPoint) :
    (l.map fun r => a * (r.y : K) - b * (r.x : K) - c).sum =
      a * (l.map fun r => (r.y : K)).sum - b * (l.map fun r => (r.x : K)).sum -
        (l.length : K) * c := by
  induction l with
  | nil => simp
  | cons p l ih =>
    simp only [List.map_cons, List.sum_cons, List.length_cons, Nat.cast_succ, ih]
    ring

theorem sum_eq_zero_of_forall (f : CvPoint → K) (l : List CvPoint) (h : ∀ r ∈ l, f r = 0) :
    (l.map f).sum = 0 := by
  induction l with
  | nil => simp
  | cons p l ih =>
    simp only [List.map_cons, List.sum_cons]
    rw [h p (List.mem_cons_self _ _), ih (fun r hr => h r (List.mem_cons_of_mem _ hr))]
    simp

/-- On a collinear point set the denominator of the fit is zero. -/
theorem denominator_zero_of_collinear (l : List CvPoint) (hc : collinear l) :
    (computeCircleFitting K l).denominator = 0 := by
  rw [fit_denominator, fit_sums]
  have hmx := fit_mx (K := K) l
  have hmy := fit_my (K := K) l
  generalize (computeCircleFitting K l).mx = mx at *
  generalize (computeCircleFitting K l).my = my at *
  by_contra hD
  -- every pair of points has the same coordinates
  have hpair : ∀ p ∈ l, ∀ q ∈ l, ((q.x : K) - p.x = 0) ∧ ((q.y : K) - p.y = 0) := by
    intro p hp q hq
    have hN : (l.length : K) ≠ 0 := by
      have : l.length ≠ 0 := by
        intro h0
        rw [List.length_eq_zero.mp h0] at hp
        cases hp
      exact_mod_cast this
    have hline : ∀ r ∈ l, ((q.x : K) - p.x) * (r.y : K) - ((q.y : K) - p.y) * (r.x : K) -
        (((q.x : K) - p.x) * p.y - ((q.y : K) - p.y) * p.x) = 0 := by
      intro r hr
      have h3 := hc p hp q hq r hr
      have h4 : (((q.x - p.x) * (r.y - p.y) - (q.y - p.y) * (r.x - p.x) : ℤ) : K) = 0 := by
        rw [h3]
        simp
      push_cast at h4
      linear_combination h4
    have hsum := sum_eq_zero_of_forall _ l hline
    rw [sum_affine] at hsum
    have hX : (l.map fun r => (r.x : K)).sum = (l.length : K) * mx := by
      rw [hmx]
      field_simp
    have hY : (l.map fun r => (r.y : K)).sum = (l.length : K) * my := by
      rw [hmy]
      field_simp
    rw [hX, hY] at hsum
    have hcent : ((q.x : K) - p.x) * my - ((q.y : K) - p.y) * mx -
        (((q.x : K) - p.x) * p.y - ((q.y : K) - p.y) * p.x) = 0 := by
      have : (l.length : K) * (((q.x : K) - p.x) * my - ((q.y : K) - p.y) * mx -
          (((q.x : K) - p.x) * p.y - ((q.y : K) - p.y) * p.x)) = 0 := by
        linear_combination hsum
      exact (mul_eq_zero.mp this).resolve_left hN
    have hrel : ∀ r ∈ l, ((q.x : K) - p.x) * ((r.y : K) - my) =
        ((q.y : K) - p.y) * ((r.x : K) - mx) := by
      intro r hr
      linear_combination hline r hr - hcent
    obtain ⟨d1, d2⟩ := line_sums_denominator mx my _ _ l hrel
    have e1 := (mul_eq_zero.mp d1).resolve_right hD
    have e2 := (mul_eq_zero.mp d2).resolve_right hD
    exact ⟨mul_self_eq_zero.mp e1, mul_self_eq_zero.mp e2⟩
  -- so every point sits at the centroid, and the sums vanish
  apply hD
  cases l with
  | nil => simp [listSums]
  | cons p0 t =>
    have hy : ∀ r ∈ p0 :: t, (1 : K) * ((r.y : K) - my) = 0 * ((r.x : K) - mx) := by
      intro r hr
      have hall : ∀ q ∈ p0 :: t, (q.y : K) - my - ((r.y : K) - my) = 0 := by
        intro q hq
        have := (hpair r hr q hq).2
        linear_combination this
      have hs := sum_eq_zero_of_forall _ (p0 :: t) hall
      have hcen := sum_centered (fun q => (q.y : K)) (p0 :: t) (by simp)
      rw [← hmy] at hcen
      have hk : ((p0 :: t).map fun q => (q.y : K) - my - ((r.y : K) - my)).sum =
          ((p0 :: t).map fun q => (q.y : K) - my).sum -
            ((p0 :: t).length : K) * ((r.y : K) - my) := by
        generalize p0 :: t = l1
        induction l1 with
        | nil => simp
        | cons a l1 ih =>
          simp only [List.map_cons, List.sum_cons, List.length_cons, Nat.cast_succ, ih]
          ring
      rw [hk] at hs
      simp only at hcen
      rw [hcen] at hs
      have hN : (((p0 :: t).length : ℕ) : K) ≠ 0 := by
        have : (p0 :: t).length ≠ 0 := by simp
        exact_mod_cast this
      have : ((p0 :: t).length : K) * ((r.y : K) - my) = 0 := by linear_combination -hs
      have := (mul_eq_zero.mp this).resolve_left hN
      rw [this]
      simp
    have := (line_sums_denominator mx my 1 0 (p0 :: t) hy).1
    simpa using this


theorem setRadius_thrown (c : OsiCircle) (r : Int) :
    (c.setRadius r).thrown ≠ none ↔ r < 0 := by
  unfold OsiCircle.setRadius
  split <;> simp [*]

theorem setRadius_nonneg (c : OsiCircle) (r : Int) (h : 0 ≤ c.mRadius) :
    0 ≤ (c.setRadius r).circle.mRadius := by
  unfold OsiCircle.setRadius
  split
  · exact h
  · simp only
    omega

theorem call_nonneg (c : OsiCircle) (k : CircleCall) (h : 0 ≤ c.mRadius) :
    0 ≤ (c.call k).circle.mRadius := by
  cases k with
  | setCenter p => exact h
  | setRadius r => exact setRadius_nonneg c r h
  | setCircle p r => exact setRadius_nonneg (c.setCenter p) r h
  | setCircleXY x y r => exact setRadius_nonneg (c.setCenter ⟨x, y⟩) r h

theorem calls_nonneg (cs : List CircleCall) (c : OsiCircle) (h : 0 ≤ c.mRadius) :
    0 ≤ (c.calls cs).mRadius := by
  induction cs generalizing c with
  | nil => exact h
  | cons k cs ih => exact ih _ (call_nonneg c k h)

/-- C12: for every circle and every integer `r`, `setRadius r` throws if and
only if `r < 0`; when `0 <= r` the radius becomes `r` and the centre is
unchanged; when `r < 0` the circle is left as it was.  `setRadius (-1)` throws
and `setRadius 0` does not. -/
theorem C12_setRadius (c : OsiCircle) (r : Int) :
    ((c.setRadius r).thrown ≠ none ↔ r < 0) ∧
      (0 ≤ r → (c.setRadius r).circle.mRadius = r ∧
        (c.setRadius r).circle.mCenter = c.mCenter) ∧
      (r < 0 → (c.setRadius r).circle = c) ∧
      (c.setRadius (-1)).thrown ≠ none ∧
      (c.setRadius 0).thrown = none := by
  refine ⟨setRadius_thrown c r, ?_, ?_, ?_, ?_⟩
  · intro h
    have h1 : ¬ r < 0 := by omega
    simp [OsiCircle.setRadius, h1]
  · intro h
    simp [OsiCircle.setRadius, h]
  · exact (setRadius_thrown c (-1)).mpr (by decide)
  · simp [OsiCircle.setRadius]

/-- C12 at concrete inputs: radius 5 is stored, radius -4 is refused. -/
theorem C12_setRadius_witness :
    ((OsiCircle.setRadius ⟨⟨7, 7⟩, 3⟩ 5).circle.mRadius = 5 ∧
        (OsiCircle.setRadius ⟨⟨7, 7⟩, 3⟩ 5).circle.mCenter = ⟨7, 7⟩) ∧
      (OsiCircle.setRadius ⟨⟨7, 7⟩, 3⟩ (-4)).circle = ⟨⟨7, 7⟩, 3⟩ :=
  ⟨(C12_setRadius ⟨⟨7, 7⟩, 3⟩ 5).2.1 (by decide),
    (C12_setRadius ⟨⟨7, 7⟩, 3⟩ (-4)).2.2.1 (by decide)⟩

/-- C13: with a negative radius argument the constructor
`OsiCircle(centre, radius)` and both overloads of `setCircle` throw; and a
circle that the constructor did build has a radius `>= 0` after every sequence
of calls of `setCenter`, `setRadius` and the two `setCircle`, whether they
throw or not. -/
theorem C13_radius_invariant (raw c : OsiCircle) (p : CvPoint) (x y r : Int)
    (cs : List CircleCall) :
    (r < 0 → (∃ what, OsiCircle.construct raw p r = .error what) ∧
      (c.setCircle p r).thrown ≠ none ∧ (c.setCircleXY x y r).thrown ≠ none) ∧
    (∀ c0, OsiCircle.construct raw p r = .ok c0 → 0 ≤ (c0.calls cs).mRadius) := by
  constructor
  · intro h
    refine ⟨?_, (setRadius_thrown _ r).mpr h, (setRadius_thrown _ r).mpr h⟩
    simp [OsiCircle.construct, OsiCircle.setRadius, h]
  · intro c0 hok
    apply calls_nonneg
    unfold OsiCircle.construct at hok
    by_cases h : r < 0
    · simp [OsiCircle.setRadius, h] at hok
    · simp [OsiCircle.setRadius, h] at hok
      rw [← hok]
      simp only
      omega

/-- C13 at concrete inputs: radius -3 is refused by the three entry points,
and a circle built with radius 6 keeps a radius `>= 0` through four calls, two
of which throw. -/
theorem C13_radius_invariant_witness :
    ((∃ what, OsiCircle.construct ⟨⟨0, 0⟩, -9⟩ ⟨1, 2⟩ (-3) = .error what) ∧
      (OsiCircle.setCircle ⟨⟨7, 7⟩, 3⟩ ⟨1, 2⟩ (-3)).thrown ≠ none ∧
      (OsiCircle.setCircleXY ⟨⟨7, 7⟩, 3⟩ 4 5 (-3)).thrown ≠ none) ∧
    0 ≤ (OsiCircle.calls ⟨⟨1, 2⟩, 6⟩
      [.setRadius (-1), .setCircle ⟨3, 3⟩ (-2), .setCenter ⟨0, 0⟩, .setCircleXY 1 1 4]).mRadius :=
  ⟨(C13_radius_invariant ⟨⟨0, 0⟩, -9⟩ ⟨⟨7, 7⟩, 3⟩ ⟨1, 2⟩ 4 5 (-3) []).1 (by decide),
    (C13_radius_invariant ⟨⟨0, 0⟩, -9⟩ ⟨⟨7, 7⟩, 3⟩ ⟨1, 2⟩ 4 5 6
      [.setRadius (-1), .setCircle ⟨3, 3⟩ (-2), .setCenter ⟨0, 0⟩, .setCircleXY 1 1 4]).2
      ⟨⟨1, 2⟩, 6⟩ rfl⟩

end

/-! ## Stage order -/

theorem stmtRanks_append (a b : List Stmt) : stmtRanks (a ++ b) = stmtRanks a ++ stmtRanks b := by
  simp [stmtRanks]

theorem stmtRanks_ite_nil (c : Prop) [Decidable c] (op : EyeOp) :
    (stmtRanks (if c then [Stmt.call op] else [])).Sublist [op.rank] := by
  split
  · exact List.Sublist.refl _
  · exact List.nil_sublist _

theorem stmtRanks_ite_cout (c d : Prop) [Decidable c] [Decidable d] (op : EyeOp) (line : String) :
    (stmtRanks (if c then (if d then [Stmt.cout line] else [Stmt.call op]) else [])).Sublist
      [op.rank] := by
  split
  · split
    · exact List.nil_sublist _
    · exact List.Sublist.refl _
  · exact List.nil_sublist _

theorem body_ranks_sublist (m : OsiManager) (name short : String) :
    (stmtRanks (processOneEyeBody m name short)).Sublist (List.range 16) := by
  unfold processOneEyeBody
  simp only [List.flatten, stmtRanks_append, List.append_nil]
  have e : List.range 16 =
      [] ++ ([0] ++ (([1] ++ ([2] ++ [3])) ++ ([4] ++ ([5] ++ ([6] ++ ([7] ++ ([8] ++
        ([9] ++ ([10] ++ ([11] ++ ([12] ++ ([13] ++ ([14] ++ [15]))))))))))))) := by
    rfl
  rw [e]
  refine List.Sublist.append (List.Sublist.refl _) ?_
  refine List.Sublist.append ?_ ?_
  · split
    · split
      · exact List.Sublist.refl _
      · exact List.nil_sublist _
    · exact List.nil_sublist _
  refine List.Sublist.append ?_ ?_
  · split
    · simp only [stmtRanks_append]
      refine List.Sublist.append (List.Sublist.refl _) ?_
      exact List.Sublist.append (stmtRanks_ite_nil _ _) (stmtRanks_ite_nil _ _)
    · exact List.nil_sublist _
  refine List.Sublist.append (stmtRanks_ite_nil _ _) ?_
  refine List.Sublist.append (stmtRanks_ite_nil _ _) ?_
  refine List.Sublist.append (stmtRanks_ite_nil _ _) ?_
  refine List.Sublist.append (stmtRanks_ite_nil _ _) ?_
  refine List.Sublist.append (stmtRanks_ite_nil _ _) ?_
  refine List.Sublist.append (stmtRanks_ite_nil _ _) ?_
  refine List.Sublist.append (stmtRanks_ite_nil _ _) ?_
  refine List.Sublist.append (stmtRanks_ite_cout _ _ _ _) ?_
  refine List.Sublist.append (stmtRanks_ite_cout _ _ _ _) ?_
  refine List.Sublist.append (stmtRanks_ite_cout _ _ _ _) ?_
  refine List.Sublist.append (stmtRanks_ite_cout _ _ _ _) ?_
  exact stmtRanks_ite_cout _ _ _ _


theorem eyeCalls_cons_cout (line : String) (es : List Event) :
    eyeCalls (Event.cout line :: es) = eyeCalls es := rfl

theorem eyeCalls_cons_eyeOp (op : EyeOp) (es : List Event) :
    eyeCalls (Event.eyeOp op :: es) = op :: eyeCalls es := rfl

theorem eyeCalls_cons_processOneEye (name : String) (es : List Event) :
    eyeCalls (Event.processOneEye name :: es) = eyeCalls es := rfl

/-- The calls made are the first calls of the statements, in order. -/
theorem execStmts_ranks_sublist {E S : Type} (w : World E S) (ss : List Stmt) (eye : E) :
    ((eyeCalls (execStmts w ss eye).events).map EyeOp.rank).Sublist (stmtRanks ss) := by
  induction ss generalizing eye with
  | nil => simp [execStmts, eyeCalls, stmtRanks]
  | cons s rest ih =>
    cases s with
    | cout line =>
      simp only [execStmts, eyeCalls_cons_cout]
      exact ih eye
    | call op =>
      simp only [execStmts]
      cases hop : w.invoke op eye with
      | error what =>
        simp only [eyeCalls_cons_eyeOp, List.map_cons]
        have : stmtRanks (Stmt.call op :: rest) = op.rank :: stmtRanks rest := rfl
        rw [this]
        exact List.Sublist.cons₂ _ (List.nil_sublist _)
      | ok eye2 =>
        simp only [eyeCalls_cons_eyeOp, List.map_cons]
        have : stmtRanks (Stmt.call op :: rest) = op.rank :: stmtRanks rest := rfl
        rw [this]
        exact List.Sublist.cons₂ _ (ih eye2)
    | throw what =>
      simp only [execStmts]
      exact List.nil_sublist _

/-- C20: for every configuration and every world, the calls one `processOneEye`
makes on the eye, mapped to their place in the stage order
(`loadOriginalImage` 0, `segment` 1, `saveSegmentedImage` 2, `initMask` 3,
`loadParameters` 4, `loadMask` 5, `normalize` 6, `loadNormalizedImage` 7,
`loadNormalizedMask` 8, `encode` 9, `loadIrisCode` 10, then the saves of
parameters 11, mask 12, normalized image 13, normalized mask 14 and iris
code 15), form a sublist of `0, 1, ..., 15`: the places strictly increase
along the calls, so every operation occurs at most once, in that relative
order, and no save of the five artifacts precedes a load or a computation. -/
theorem C20_stage_order {E S : Type} (m : OsiManager) (w : World E S) (rFileName : String)
    (rEye : E) :
    ((eyeCalls (processOneEye m w rFileName rEye).events).map EyeOp.rank).Sublist
        (List.range 16) ∧
      ((eyeCalls (processOneEye m w rFileName rEye).events).map EyeOp.rank).Pairwise
        (fun a b => a < b) := by
  have h1 : ((eyeCalls (processOneEye m w rFileName rEye).events).map EyeOp.rank).Sublist
      (List.range 16) := by
    simp only [processOneEye, eyeCalls_cons_processOneEye]
    exact (execStmts_ranks_sublist w _ rEye).trans (body_ranks_sublist m rFileName _)
  exact ⟨h1, List.Pairwise.sublist h1 (List.pairwise_lt_range 16)⟩

/-! ## Claims on loadConfiguration -/

theorem findChar_none (c : Char) (l : List Char) (h : findChar c l = none) :
    c ∉ l ∧ l.takeWhile (fun x => x != c) = l := by
  induction l with
  | nil => simp
  | cons x xs ih =>
    unfold findChar at h
    by_cases hx : x = c
    · simp [hx] at h
    · simp only [hx, if_false, Option.map_eq_none'] at h
      obtain ⟨h1, h2⟩ := ih h
      refine ⟨?_, ?_⟩
      · simp only [List.mem_cons, not_or]
        exact ⟨fun e => hx e.symm, h1⟩
      · have hne : (x != c) = true := by simp [hx]
        rw [List.takeWhile_cons, hne, if_pos rfl, h2]

theorem findChar_some (c : Char) (l : List Char) (i : Nat) (h : findChar c l = some i) :
    c ∈ l ∧ l.take i = l.takeWhile (fun x => x != c) ∧
      l.drop (i + 1) = (l.dropWhile fun x => x != c).drop 1 := by
  induction l generalizing i with
  | nil => simp [findChar] at h
  | cons x xs ih =>
    unfold findChar at h
    by_cases hx : x = c
    · simp only [hx, if_true, Option.some.injEq] at h
      subst h
      subst hx
      simp [List.takeWhile, List.dropWhile]
    · simp only [hx, if_false, Option.map_eq_some'] at h
      obtain ⟨k, hk, rfl⟩ := h
      obtain ⟨h1, h2, h3⟩ := ih k hk
      have hne : (x != c) = true := by simp [hx]
      refine ⟨List.mem_cons_of_mem _ h1, ?_, ?_⟩
      · rw [List.takeWhile_cons, hne, if_pos rfl, List.take_succ_cons, h2]
      · rw [List.dropWhile_cons, hne, if_pos rfl, List.drop_succ_cons, h3]

theorem filterOutComment_eq (line : String) : filterOutComment line = specUncomment line := by
  unfold filterOutComment specUncomment
  by_cases h0 : line = ""
  · subst h0
    rfl
  · have h1 : (line != "") = true := by simpa using h0
    simp only [h1, if_true]
    cases hf : findChar '#' line.data with
    | none =>
      simp only
      rw [(findChar_none _ _ hf).2]
    | some pos =>
      simp only [substrTo]
      rw [(findChar_some _ _ _ hf).2.1]

/-- C15: for every input line, `loadConfiguration` applies the line as the
specification words it: the text from the first `#` on is dropped, the rest is
split at its first `=`, key and value are the trimmed left and right parts and
the option is stored with exactly that key and value; a line that is empty
after the comment is removed, has no `=`, or has an empty key or an empty value
after trimming leaves the configuration unchanged and prints nothing. -/
theorem C15_line_parsing (osu : OsiStringUtils) (sPath : String) (m : OsiManager)
    (line : String) :
    (applyLine osu sPath m line =
      match specKeyValue osu line with
      | some kv => storeOption osu sPath m (specUncomment line) kv.1 kv.2
      | none => ⟨[], .ok m⟩) ∧
    ((specUncomment line = "" ∨ '=' ∉ (specUncomment line).data ∨
        osu.trim ⟨(specUncomment line).data.takeWhile fun c => c != '='⟩ = "" ∨
        osu.trim ⟨((specUncomment line).data.dropWhile fun c => c != '=').drop 1⟩ = "") →
      applyLine osu sPath m line = ⟨[], .ok m⟩) := by
  have main : applyLine osu sPath m line =
      match specKeyValue osu line with
      | some kv => storeOption osu sPath m (specUncomment line) kv.1 kv.2
      | none => ⟨[], .ok m⟩ := by
    unfold applyLine specKeyValue
    simp only [filterOutComment_eq]
    generalize specUncomment line = body
    by_cases hb : body = ""
    · subst hb
      simp
    · have h1 : (body != "") = true := by simpa using hb
      simp only [h1, if_true]
      cases hf : findChar '=' body.data with
      | none =>
        have := (findChar_none _ _ hf).1
        simp [this]
      | some pos =>
        obtain ⟨g1, g2, g3⟩ := findChar_some _ _ _ hf
        simp only [g1, if_true, substrTo, substrFrom, g2, g3]
        generalize osu.trim ⟨body.data.takeWhile fun c => c != '='⟩ = key
        generalize osu.trim ⟨(body.data.dropWhile fun c => c != '=').drop 1⟩ = value
        by_cases hk : key = ""
        · simp [hk]
        · by_cases hv : value = ""
          · simp [hv]
          · simp [hk, hv]
  refine ⟨main, ?_⟩
  intro h
  rw [main]
  unfold specKeyValue
  by_cases h0 : '=' ∈ (specUncomment line).data
  · simp only [h0, if_true]
    have h' : osu.trim ⟨(specUncomment line).data.takeWhile fun c => c != '='⟩ = "" ∨
        osu.trim ⟨((specUncomment line).data.dropWhile fun c => c != '=').drop 1⟩ = "" := by
      rcases h with h | h | h | h
      · rw [h] at h0
        cases h0
      · exact absurd h0 h
      · exact Or.inl h
      · exact Or.inr h
    rw [if_pos h']
  · simp only [h0, if_false]

theorem lookup_mem {β : Type} (key : String) (v : β) (l : List (String × β))
    (h : l.lookup key = some v) : (key, v) ∈ l := by
  induction l with
  | nil => simp [List.lookup] at h
  | cons a l ih =>
    obtain ⟨k, w⟩ := a
    by_cases hk : key = k
    · subst hk
      simp [List.lookup] at h
      subst h
      exact List.mem_cons_self _ _
    · have hk2 : (key == k) = false := by simpa using hk
      simp only [List.lookup, hk2] at h
      exact List.mem_cons_of_mem _ (ih h)

theorem mMapBool_cases (key : String) (s : BoolSlot) (h : mMapBool.lookup key = some s) :
    mMapInt.lookup key = none ∧ mMapString.lookup key = none := by
  have hm := lookup_mem key s mMapBool h
  simp only [mMapBool, List.mem_cons, Prod.mk.injEq, List.mem_singleton, List.not_mem_nil,
    or_false] at hm
  rcases hm with ⟨rfl, _⟩ | ⟨rfl, _⟩ | ⟨rfl, _⟩ | ⟨rfl, _⟩ | ⟨rfl, _⟩ <;> exact ⟨rfl, rfl⟩

theorem mMapInt_cases (key : String) (s : IntSlot) (h : mMapInt.lookup key = some s) :
    mMapBool.lookup key = none ∧ mMapString.lookup key = none := by
  have hm := lookup_mem key s mMapInt h
  simp only [mMapInt, List.mem_cons, Prod.mk.injEq, List.mem_singleton, List.not_mem_nil,
    or_false] at hm
  rcases hm with ⟨rfl, _⟩ | ⟨rfl, _⟩ | ⟨rfl, _⟩ | ⟨rfl, _⟩ | ⟨rfl, _⟩ | ⟨rfl, _⟩ <;>
    exact ⟨rfl, rfl⟩

theorem mMapString_all :
    mMapString.all (fun p => (mMapBool.lookup p.1).isNone && (mMapInt.lookup p.1).isNone &&
      (startsLoadOrSave p.1 == !p.2.isSuffix)) = true := by
  rfl

theorem mMapString_cases (key : String) (s : StringSlot) (h : mMapString.lookup key = some s) :
    mMapBool.lookup key = none ∧ mMapInt.lookup key = none ∧
      startsLoadOrSave key = !s.isSuffix := by
  have hm := List.all_eq_true.mp mMapString_all _ (lookup_mem key s mMapString h)
  simp only [Bool.and_eq_true, Option.isNone_iff_eq_none, beq_iff_eq] at hm
  exact ⟨hm.1.1, hm.1.2, hm.2⟩


theorem boolSlot_read_set (s : BoolSlot) (v : Bool) (m : OsiManager) :
    Slot.read (s.set v m) (.bool s) = .bool v ∧
      (s.set v m).mListOfImages = m.mListOfImages ∧
      (s.set v m).mGaborFilters = m.mGaborFilters ∧
      (s.set v m).mpApplicationPoints = m.mpApplicationPoints := by
  cases s <;> exact ⟨rfl, rfl, rfl, rfl⟩

theorem intSlot_read_set (s : IntSlot) (v : Int) (m : OsiManager) :
    Slot.read (s.set v m) (.int s) = .int v ∧
      (s.set v m).mListOfImages = m.mListOfImages ∧
      (s.set v m).mGaborFilters = m.mGaborFilters ∧
      (s.set v m).mpApplicationPoints = m.mpApplicationPoints := by
  cases s <;> exact ⟨rfl, rfl, rfl, rfl⟩

theorem stringSlot_read_set (s : StringSlot) (v : String) (m : OsiManager) :
    Slot.read (s.set v m) (.string s) = .string v ∧
      (s.set v m).mListOfImages = m.mListOfImages ∧
      (s.set v m).mGaborFilters = m.mGaborFilters ∧
      (s.set v m).mpApplicationPoints = m.mpApplicationPoints := by
  cases s <;> exact ⟨rfl, rfl, rfl, rfl⟩

theorem boolSlot_frame (s : BoolSlot) (v : Bool) (m : OsiManager) (s' : Slot)
    (h : s' ≠ .bool s) : Slot.read (s.set v m) s' = Slot.read m s' := by
  rcases s' with b | i | t
  · cases s <;> cases b <;> first | rfl | exact absurd rfl h
  · cases s <;> cases i <;> rfl
  · cases s <;> cases t <;> rfl

theorem intSlot_frame (s : IntSlot) (v : Int) (m : OsiManager) (s' : Slot)
    (h : s' ≠ .int s) : Slot.read (s.set v m) s' = Slot.read m s' := by
  rcases s' with b | i | t
  · cases s <;> cases b <;> rfl
  · cases s <;> cases i <;> first | rfl | exact absurd rfl h
  · cases s <;> cases t <;> rfl

theorem stringSlot_frame (s : StringSlot) (v : String) (m : OsiManager) (s' : Slot)
    (h : s' ≠ .string s) : Slot.read (s.set v m) s' = Slot.read m s' := by
  rcases s' with b | i | t
  · cases s <;> cases b <;> rfl
  · cases s <;> cases i <;> rfl
  · cases s <;> cases t <;> first | rfl | exact absurd rfl h

theorem storeOption_string (osu : OsiStringUtils) (sPath : String) (m : OsiManager)
    (line key value : String) (slot : StringSlot) (h : mMapString.lookup key = some slot) :
    storeOption osu sPath m line key value =
      ⟨[], .ok (slot.set (if startsLoadOrSave key then sPath ++ osu.convertSlashes value
        else osu.convertSlashes value) m)⟩ := by
  obtain ⟨h1, h2, _⟩ := mMapString_cases key slot h
  unfold storeOption
  simp only [h1, h2, h]
  split <;> rfl

/-- C14, counterexample: with the base directory `cfg/`, the line
`Load Gabor filters = filters.txt` stores `cfg/filters.txt` and the line
`Load Application points = points.txt` stores `cfg/points.txt`, while
`convertSlashes` leaves `filters.txt` as it is: the two file locations get the
base directory in front, like every key that starts with `Load` or `Save`. -/
theorem C14_counterexample :
    (applyLine plainUtils "cfg/" initConfiguration "Load Gabor filters = filters.txt").result =
        .ok { initConfiguration with mFilenameGaborFilters := "cfg/filters.txt" } ∧
      plainUtils.convertSlashes "filters.txt" = "filters.txt" ∧
      (applyLine plainUtils "cfg/" initConfiguration
          "Load Application points = points.txt").result =
        .ok { initConfiguration with mFilenameApplicationPoints := "cfg/points.txt" } :=
  ⟨rfl, rfl, rfl⟩

/-- C14, as the code has it: for every key of the string map, the key starts
with `Load` or `Save` exactly when its slot is not one of the six suffix
options; the value stored is the separator-normalized value for a suffix
option, and the base directory followed by the separator-normalized value for
every other key, the filter file and the points file included. -/
theorem C14_path_resolution (osu : OsiStringUtils) (sPath : String) (m : OsiManager)
    (line key value : String) (slot : StringSlot) (h : mMapString.lookup key = some slot) :
    startsLoadOrSave key = !slot.isSuffix ∧
      storeOption osu sPath m line key value =
        ⟨[], .ok (slot.set (if slot.isSuffix then osu.convertSlashes value
          else sPath ++ osu.convertSlashes value) m)⟩ ∧
      slot.get (slot.set (if slot.isSuffix then osu.convertSlashes value
          else sPath ++ osu.convertSlashes value) m) =
        (if slot.isSuffix then osu.convertSlashes value
          else sPath ++ osu.convertSlashes value) := by
  obtain ⟨_, _, h3⟩ := mMapString_cases key slot h
  refine ⟨h3, ?_, ?_⟩
  · rw [storeOption_string osu sPath m line key value slot h, h3]
    cases slot.isSuffix <;> rfl
  · cases slot <;> rfl

theorem C14_path_resolution_witness :
    startsLoadOrSave "Load Gabor filters" = !StringSlot.mFilenameGaborFilters.isSuffix ∧
      storeOption plainUtils "cfg/" initConfiguration "Load Gabor filters = f.txt"
          "Load Gabor filters" "f.txt" =
        ⟨[], .ok (StringSlot.mFilenameGaborFilters.set
          (if StringSlot.mFilenameGaborFilters.isSuffix then plainUtils.convertSlashes "f.txt"
            else "cfg/" ++ plainUtils.convertSlashes "f.txt") initConfiguration)⟩ ∧
      StringSlot.mFilenameGaborFilters.get (StringSlot.mFilenameGaborFilters.set
          (if StringSlot.mFilenameGaborFilters.isSuffix then plainUtils.convertSlashes "f.txt"
            else "cfg/" ++ plainUtils.convertSlashes "f.txt") initConfiguration) =
        (if StringSlot.mFilenameGaborFilters.isSuffix then plainUtils.convertSlashes "f.txt"
          else "cfg/" ++ plainUtils.convertSlashes "f.txt") :=
  C14_path_resolution plainUtils "cfg/" initConfiguration "Load Gabor filters = f.txt"
    "Load Gabor filters" "f.txt" .mFilenameGaborFilters rfl

/-- C16: no key is bound to slots of two kinds; for a recognized key whose
value converts, the slot bound to the key holds the converted value afterwards,
every other slot (of the three kinds) and the three loaded resources are
unchanged and nothing is printed, while a conversion that throws stores
nothing; for a key that is not recognized the configuration is unchanged, one
line is printed and the loading goes on. -/
theorem C16_key_dispatch (osu : OsiStringUtils) (sPath : String) (m : OsiManager)
    (line key value : String) :
    ((∀ s, mMapBool.lookup key = some s →
        mMapInt.lookup key = none ∧ mMapString.lookup key = none) ∧
      (∀ s, mMapInt.lookup key = some s →
        mMapBool.lookup key = none ∧ mMapString.lookup key = none) ∧
      (∀ s, mMapString.lookup key = some s →
        mMapBool.lookup key = none ∧ mMapInt.lookup key = none)) ∧
    (∀ slot, keySlot key = some slot →
      (∀ v, storedValue osu sPath key value slot = .ok v →
        ∃ m1, storeOption osu sPath m line key value = ⟨[], .ok m1⟩ ∧
          Slot.read m1 slot = v ∧
          (∀ s1, s1 ≠ slot → Slot.read m1 s1 = Slot.read m s1) ∧
          m1.mListOfImages = m.mListOfImages ∧
          m1.mGaborFilters = m.mGaborFilters ∧
          m1.mpApplicationPoints = m.mpApplicationPoints) ∧
      (∀ e, storedValue osu sPath key value slot = .error e →
        storeOption osu sPath m line key value = ⟨[], .error e⟩)) ∧
    (keySlot key = none →
      storeOption osu sPath m line key value =
        ⟨[LoadEvent.cout ("Unknown option in configuration file : " ++ line)], .ok m⟩) := by
  refine ⟨⟨mMapBool_cases key, mMapInt_cases key, fun s h => ?_⟩, ?_, ?_⟩
  · exact ⟨(mMapString_cases key s h).1, (mMapString_cases key s h).2.1⟩
  · intro slot hs
    unfold keySlot at hs
    unfold storeOption
    cases hb : mMapBool.lookup key with
    | some b =>
      simp only [hb, Option.some.injEq] at hs ⊢
      subst hs
      cases hv : osu.fromStringBool value with
      | error e => simp [storedValue, hv, Except.map]
      | ok v =>
        obtain ⟨r1, r2, r3, r4⟩ := boolSlot_read_set b v m
        refine ⟨fun w hw => ⟨b.set v m, rfl, ?_, fun s1 h1 => boolSlot_frame b v m s1 h1,
          r2, r3, r4⟩, fun e he => ?_⟩
        · simp only [storedValue, hv, Except.map, Except.ok.injEq] at hw
          rw [r1, hw]
        · simp [storedValue, hv, Except.map] at he
    | none =>
      simp only [hb] at hs ⊢
      cases hi : mMapInt.lookup key with
      | some i =>
        simp only [hi, Option.some.injEq] at hs ⊢
        subst hs
        cases hv : osu.fromStringInt value with
        | error e => simp [storedValue, hv, Except.map]
        | ok v =>
          obtain ⟨r1, r2, r3, r4⟩ := intSlot_read_set i v m
          refine ⟨fun w hw => ⟨i.set v m, rfl, ?_, fun s1 h1 => intSlot_frame i v m s1 h1,
            r2, r3, r4⟩, fun e he => ?_⟩
          · simp only [storedValue, hv, Except.map, Except.ok.injEq] at hw
            rw [r1, hw]
          · simp [storedValue, hv, Except.map] at he
      | none =>
        simp only [hi] at hs ⊢
        cases ht : mMapString.lookup key with
        | some t =>
          simp only [ht, Option.some.injEq] at hs ⊢
          subst hs
          refine ⟨fun w hw => ?_, fun e he => ?_⟩
          · simp only [storedValue, Except.ok.injEq] at hw
            subst hw
            cases hp : startsLoadOrSave key with
            | true =>
              obtain ⟨r1, r2, r3, r4⟩ := stringSlot_read_set t
                (sPath ++ osu.convertSlashes value) m
              exact ⟨_, rfl, r1, fun s1 h1 => stringSlot_frame t _ m s1 h1, r2, r3, r4⟩
            | false =>
              obtain ⟨r1, r2, r3, r4⟩ := stringSlot_read_set t (osu.convertSlashes value) m
              exact ⟨_, rfl, r1, fun s1 h1 => stringSlot_frame t _ m s1 h1, r2, r3, r4⟩
          · simp [storedValue] at he
        | none => simp [ht] at hs
  · intro hs
    unfold keySlot at hs
    unfold storeOption
    cases hb : mMapBool.lookup key with
    | some b => simp [hb] at hs
    | none =>
      cases hi : mMapInt.lookup key with
      | some i => simp [hb, hi] at hs
      | none =>
        cases ht : mMapString.lookup key with
        | some t => simp [hb, hi, ht] at hs
        | none => rfl

theorem C16_key_dispatch_witness :
    (∃ m1, storeOption plainUtils "cfg/" initConfiguration "Process matching = true"
          "Process matching" "true" = ⟨[], .ok m1⟩ ∧
        Slot.read m1 (.bool .mProcessMatching) = .bool true ∧
        (∀ s1, s1 ≠ Slot.bool .mProcessMatching →
          Slot.read m1 s1 = Slot.read initConfiguration s1) ∧
        m1.mListOfImages = initConfiguration.mListOfImages ∧
        m1.mGaborFilters = initConfiguration.mGaborFilters ∧
        m1.mpApplicationPoints = initConfiguration.mpApplicationPoints) ∧
    storeOption plainUtils "cfg/" initConfiguration "Colour = red" "Colour" "red" =
      ⟨[LoadEvent.cout ("Unknown option in configuration file : " ++ "Colour = red")],
        .ok initConfiguration⟩ :=
  ⟨((C16_key_dispatch plainUtils "cfg/" initConfiguration "Process matching = true"
      "Process matching" "true").2.1 (.bool .mProcessMatching) rfl).1 (.bool true) rfl,
    (C16_key_dispatch plainUtils "cfg/" initConfiguration "Colour = red" "Colour" "red").2.2
      rfl⟩

theorem loaderCalls_append (a b : List LoadEvent) :
    loaderCalls (a ++ b) = loaderCalls a ++ loaderCalls b := by
  simp [loaderCalls]

theorem storeOption_loaderCalls (osu : OsiStringUtils) (sPath : String) (m : OsiManager)
    (line key value : String) :
    loaderCalls (storeOption osu sPath m line key value).events = [] := by
  unfold storeOption
  repeat' split
  all_goals rfl

theorem applyLine_loaderCalls (osu : OsiStringUtils) (sPath : String) (m : OsiManager)
    (line : String) : loaderCalls (applyLine osu sPath m line).events = [] := by
  unfold applyLine
  dsimp only
  repeat' split
  all_goals first | rfl | exact storeOption_loaderCalls _ _ _ _ _ _

theorem parseLines_loaderCalls (osu : OsiStringUtils) (sPath : String) (ls : List String) :
    ∀ m, loaderCalls (parseLines osu sPath m ls).events = [] := by
  induction ls with
  | nil => intro m; rfl
  | cons l rest ih =>
    intro m
    unfold parseLines
    split
    · rw [loaderCalls_append, applyLine_loaderCalls, ih]; rfl
    · exact applyLine_loaderCalls _ _ _ _

theorem pointsLoop_loaderCalls (rows cols : Nat) (n : Nat) :
    ∀ st, loaderCalls (pointsLoop rows cols n st).events = loaderCalls st.events := by
  induction n with
  | zero => intro st; rfl
  | succ n ih =>
    intro st
    rw [pointsLoop, ih]
    unfold pointsStep
    dsimp only
    split
    · rw [loaderCalls_append]; simp [loaderCalls]
    · rfl

theorem loadGaborFilters_calls (fs : FileSystem) (m : OsiManager) :
    loaderCalls (loadGaborFilters fs m).events = [LoadEvent.loadGaborFilters] ∧
      ∀ m2, (loadGaborFilters fs m).result = .ok m2 →
        m2.mProcessMatching = m.mProcessMatching ∧
          m2.mFilenameApplicationPoints = m.mFilenameApplicationPoints := by
  unfold loadGaborFilters
  repeat' split
  all_goals refine ⟨rfl, fun m2 h => ?_⟩
  all_goals first | (cases h; exact ⟨rfl, rfl⟩) | (exact absurd h (by simp))

theorem loadApplicationPoints_calls (fs : FileSystem) (m : OsiManager) :
    loaderCalls (loadApplicationPoints fs m).events = [LoadEvent.loadApplicationPoints] := by
  unfold loadApplicationPoints
  dsimp only
  repeat' split
  all_goals first | rfl | (rw [loaderCalls_append, pointsLoop_loaderCalls]; rfl)

/-- The loader calls of `loadResources` once the list of images could be opened. -/
theorem loadResources_calls (fs : FileSystem) (m : OsiManager) (ws : List String)
    (hw : fs.words m.mFilenameListOfImages = some ws) :
    loaderCalls (loadResources fs m).events =
      LoadEvent.loadListOfImages ::
        (if m.mProcessEncoding && m.mFilenameGaborFilters != "" then
          LoadEvent.loadGaborFilters ::
            (match (loadGaborFilters fs
                { m with mListOfImages := m.mListOfImages ++ ws }).result with
              | .ok _ => pointsCalls m
              | .error _ => [])
        else pointsCalls m) := by
  have hl : loadListOfImages fs m =
      ⟨[LoadEvent.loadListOfImages, LoadEvent.openFile m.mFilenameListOfImages],
        .ok { m with mListOfImages := m.mListOfImages ++ ws }⟩ := by
    unfold loadListOfImages; rw [hw]
  unfold loadResources
  rw [hl]
  dsimp only
  by_cases hg : (m.mProcessEncoding && m.mFilenameGaborFilters != "") = true
  · rw [if_pos hg, if_pos hg]
    obtain ⟨c1, c2⟩ := loadGaborFilters_calls fs { m with mListOfImages := m.mListOfImages ++ ws }
    cases hr : (loadGaborFilters fs { m with mListOfImages := m.mListOfImages ++ ws }).result with
    | error e =>
      try dsimp only
      rw [loaderCalls_append, c1]; rfl
    | ok m2 =>
      try dsimp only
      obtain ⟨f1, f2⟩ := c2 m2 hr
      rw [loaderCalls_append, loaderCalls_append, c1]
      unfold pointsCalls
      rw [f1, f2]
      split
      · rw [loadApplicationPoints_calls]; rfl
      · rfl
  · rw [if_neg hg, if_neg hg]
    dsimp only
    rw [loaderCalls_append, loaderCalls_append]
    unfold pointsCalls
    split
    · rw [loadApplicationPoints_calls]; rfl
    · rfl

theorem loadListOfImages_events (fs : FileSystem) (m : OsiManager) :
    (loadListOfImages fs m).events =
      [LoadEvent.loadListOfImages, LoadEvent.openFile m.mFilenameListOfImages] := by
  unfold loadListOfImages
  split <;> rfl

theorem loadResources_events_head (fs : FileSystem) (m : OsiManager) :
    ∃ rest, (loadResources fs m).events =
      LoadEvent.loadListOfImages :: LoadEvent.openFile m.mFilenameListOfImages :: rest := by
  unfold loadResources
  dsimp only
  rw [loadListOfImages_events]
  split
  · exact ⟨[], rfl⟩
  · split
    · exact ⟨_, rfl⟩
    · exact ⟨_, rfl⟩

/-- C15, a concrete case: a line that holds only a comment changes nothing. -/
theorem C15_line_parsing_witness :
    specUncomment "# sample" = "" ∧
      applyLine plainUtils "cfg/" initConfiguration "# sample" = ⟨[], .ok initConfiguration⟩ :=
  ⟨rfl, (C15_line_parsing plainUtils "cfg/" initConfiguration "# sample").2 (Or.inl rfl)⟩

/-! ## Claims on the base directory, the setters and the fit -/

theorem basePath_eq (p : String) : basePath p = p ++ "/" := by
  unfold basePath
  by_cases h : p.back = '/'
  · rw [h]; rfl
  · have : (p.back != '/') = true := by simpa using h
    rw [this, Bool.true_or, if_pos rfl]

theorem length_pos_of_ne_empty (p : String) (h : p ≠ "") : 0 < p.length := by
  rcases p with ⟨l⟩
  cases l with
  | nil => exact absurd rfl h
  | cons c cs => simp [String.length]

/-- C21: the base directory `loadConfiguration` builds from its argument `p` is
always `p` followed by `/`, also when `p` already ends with `/` or with a
backslash (the test on the last character holds for every `p`); for a non-empty
`p` the file opened is `p/process.ini`, every line is applied with the base
`p/` and the messages name that path; for the empty path `loadConfiguration`
fails before any file is opened. -/
theorem C21_base_separator (osu : OsiStringUtils) (fs : FileSystem) (m : OsiManager)
    (p : String) :
    basePath p = p ++ "/" ∧
    (p ≠ "" →
      (fs.lines (p ++ "/" ++ "process.ini") = none →
        loadConfiguration osu fs m p =
          ⟨[LoadEvent.openFile (p ++ "/" ++ "process.ini")],
            .error ("Cannot read configuration file " ++ (p ++ "/") ++ "process.ini")⟩) ∧
      (∀ ls, fs.lines (p ++ "/" ++ "process.ini") = some ls →
        (∀ what, (parseLines osu (p ++ "/") m ls).result = .error what →
          loadConfiguration osu fs m p =
            ⟨LoadEvent.openFile (p ++ "/" ++ "process.ini") ::
              (parseLines osu (p ++ "/") m ls).events, .error what⟩) ∧
        (∀ m1, (parseLines osu (p ++ "/") m ls).result = .ok m1 →
          loadConfiguration osu fs m p =
            ⟨LoadEvent.openFile (p ++ "/" ++ "process.ini") ::
              ((parseLines osu (p ++ "/") m ls).events ++ (loadResources fs m1).events),
              (loadResources fs m1).result⟩))) ∧
    loadConfiguration osu fs m "" = ⟨[], .error ("sConfigPath Error: " ++ "")⟩ := by
  refine ⟨basePath_eq p, fun hp => ?_, rfl⟩
  have hl := length_pos_of_ne_empty p hp
  refine ⟨fun hf => ?_, fun ls hf => ⟨fun what hr => ?_, fun m1 hr => ?_⟩⟩
  · unfold loadConfiguration
    rw [if_neg (by omega), basePath_eq, hf]
  · unfold loadConfiguration
    rw [if_neg (by omega), basePath_eq, hf]
    dsimp only
    rw [hr]
  · unfold loadConfiguration
    rw [if_neg (by omega), basePath_eq, hf]
    dsimp only
    rw [hr]

/-- C21 at a concrete input: a path that already ends with `/`. -/
theorem C21_base_separator_witness :
    basePath "cfg/" = "cfg//" ∧
      loadConfiguration plainUtils sampleFiles initConfiguration "cfg/" =
        ⟨[LoadEvent.openFile ("cfg/" ++ "/" ++ "process.ini")],
          .error ("Cannot read configuration file " ++ ("cfg/" ++ "/") ++ "process.ini")⟩ :=
  ⟨(C21_base_separator plainUtils sampleFiles initConfiguration "cfg/").1,
    ((C21_base_separator plainUtils sampleFiles initConfiguration "cfg/").2.1
      (by decide)).1 rfl⟩

/-- C23: for every circle, every centre `p` and every negative radius `r`,
`setCircle p r` (and the overload on coordinates) throws the exception of
`setRadius` with the radius unchanged and the centre already overwritten with
`p`, so the circle differs from the one before the call whenever `p` differs
from the old centre; the constructor on `(p, r)` throws too, after its
`setCenter` has run. -/
theorem C23_setCircle_not_atomic (c raw : OsiCircle) (p : CvPoint) (r : Int) (hr : r < 0) :
    (c.setCircle p r).thrown = some ("Circle with negative radius : " ++ toString r) ∧
    (c.setCircle p r).circle.mRadius = c.mRadius ∧
    (c.setCircle p r).circle.mCenter = p ∧
    (p ≠ c.mCenter → (c.setCircle p r).circle ≠ c) ∧
    (c.setCircleXY p.x p.y r).thrown = some ("Circle with negative radius : " ++ toString r) ∧
    (c.setCircleXY p.x p.y r).circle = ⟨p, c.mRadius⟩ ∧
    OsiCircle.construct raw p r = .error ("Circle with negative radius : " ++ toString r) ∧
    ((raw.setCenter p).setRadius r).circle.mCenter = p := by
  have h : ∀ d : OsiCircle, d.setCircle p r =
      ⟨⟨p, d.mRadius⟩, some ("Circle with negative radius : " ++ toString r)⟩ := by
    intro d
    unfold OsiCircle.setCircle OsiCircle.setRadius OsiCircle.setCenter
    rw [if_pos hr]
  refine ⟨by rw [h], by rw [h], by rw [h], fun hne => ?_, ?_, ?_, ?_, ?_⟩
  · rw [h]
    intro he
    apply hne
    rw [← he]
  · unfold OsiCircle.setCircleXY; rw [h]
  · unfold OsiCircle.setCircleXY; rw [h]
  · have h2 := h raw
    unfold OsiCircle.setCircle at h2
    unfold OsiCircle.construct
    rw [h2]
  · have h2 := h raw
    unfold OsiCircle.setCircle at h2
    rw [h2]

/-- C23 at a concrete input. -/
theorem C23_setCircle_not_atomic_witness :
    (OsiCircle.setCircle ⟨⟨7, 7⟩, 3⟩ ⟨1, 2⟩ (-4)).thrown =
        some ("Circle with negative radius : " ++ toString (-4 : Int)) ∧
      (OsiCircle.setCircle ⟨⟨7, 7⟩, 3⟩ ⟨1, 2⟩ (-4)).circle.mRadius = 3 ∧
      (OsiCircle.setCircle ⟨⟨7, 7⟩, 3⟩ ⟨1, 2⟩ (-4)).circle.mCenter = ⟨1, 2⟩ ∧
      (OsiCircle.setCircle ⟨⟨7, 7⟩, 3⟩ ⟨1, 2⟩ (-4)).circle ≠ ⟨⟨7, 7⟩, 3⟩ :=
  ⟨(C23_setCircle_not_atomic ⟨⟨7, 7⟩, 3⟩ ⟨⟨0, 0⟩, 0⟩ ⟨1, 2⟩ (-4) (by decide)).1,
    (C23_setCircle_not_atomic ⟨⟨7, 7⟩, 3⟩ ⟨⟨0, 0⟩, 0⟩ ⟨1, 2⟩ (-4) (by decide)).2.1,
    (C23_setCircle_not_atomic ⟨⟨7, 7⟩, 3⟩ ⟨⟨0, 0⟩, 0⟩ ⟨1, 2⟩ (-4) (by decide)).2.2.1,
    (C23_setCircle_not_atomic ⟨⟨7, 7⟩, 3⟩ ⟨⟨0, 0⟩, 0⟩ ⟨1, 2⟩ (-4) (by decide)).2.2.2.1
      (by decide)⟩

section
variable {K : Type} [LinearOrderedField K]

theorem fit_radicand (l : List CvPoint) :
    (computeCircleFitting K l).radicand =
      (computeCircleFitting K l).uc * (computeCircleFitting K l).uc +
        (computeCircleFitting K l).vc * (computeCircleFitting K l).vc +
        ((computeCircleFitting K l).sums.suu + (computeCircleFitting K l).sums.svv) /
          (l.length : K) := rfl

theorem fit_center (l : List CvPoint) :
    (computeCircleFitting K l).centerX =
        (computeCircleFitting K l).uc + (computeCircleFitting K l).mx ∧
      (computeCircleFitting K l).centerY =
        (computeCircleFitting K l).vc + (computeCircleFitting K l).my := ⟨rfl, rfl⟩

theorem fit_denominator_neg (l : List CvPoint) (hnc : ¬ collinear l) :
    (computeCircleFitting K l).denominator < 0 := by
  rw [fit_denominator, fit_sums]
  exact (denominator_neg _ _ l hnc).2

theorem fit_radicand_nonneg (l : List CvPoint) : 0 ≤ (computeCircleFitting K l).radicand := by
  rw [fit_radicand, fit_sums]
  have h1 : 0 ≤ (listSums (computeCircleFitting K l).mx (computeCircleFitting K l).my l).suu :=
    sum_sq_nonneg (fun p => (p.x : K) - (computeCircleFitting K l).mx) l
  have h2 : 0 ≤ (listSums (computeCircleFitting K l).mx (computeCircleFitting K l).my l).svv :=
    sum_sq_nonneg (fun p => (p.y : K) - (computeCircleFitting K l).my) l
  have h3 : (0 : K) ≤ (l.length : K) := Nat.cast_nonneg _
  have h4 := div_nonneg (add_nonneg h1 h2) h3
  have h5 := mul_self_nonneg (computeCircleFitting K l).uc
  have h6 := mul_self_nonneg (computeCircleFitting K l).vc
  linarith

theorem sum_translate (a b : Int) (l : List CvPoint) :
    ((l.map (translate a b)).map fun p => (p.x : K)).sum =
        (l.map fun p => (p.x : K)).sum + (l.length : K) * (a : K) ∧
      ((l.map (translate a b)).map fun p => (p.y : K)).sum =
        (l.map fun p => (p.y : K)).sum + (l.length : K) * (b : K) := by
  induction l with
  | nil => simp
  | cons p l ih =>
    simp only [List.map_cons, List.sum_cons, List.length_cons, ih.1, ih.2, translate]
    push_cast
    constructor <;> ring

theorem listSums_translate (a b : Int) (mx my : K) (l : List CvPoint) :
    listSums (mx + (a : K)) (my + (b : K)) (l.map (translate a b)) = listSums mx my l := by
  have hx : ∀ p : CvPoint, ((translate a b p).x : K) - (mx + (a : K)) = (p.x : K) - mx := by
    intro p
    simp only [translate]
    push_cast
    ring
  have hy : ∀ p : CvPoint, ((translate a b p).y : K) - (my + (b : K)) = (p.y : K) - my := by
    intro p
    simp only [translate]
    push_cast
    ring
  simp only [listSums, List.map_map, Function.comp_def, hx, hy]

theorem fit_translate (a b : Int) (l : List CvPoint) (hN : l ≠ []) :
    (computeCircleFitting K (l.map (translate a b))).mx =
        (computeCircleFitting K l).mx + (a : K) ∧
      (computeCircleFitting K (l.map (translate a b))).my =
        (computeCircleFitting K l).my + (b : K) ∧
      (computeCircleFitting K (l.map (translate a b))).sums =
        (computeCircleFitting K l).sums := by
  have hlen : (l.length : K) ≠ 0 := by
    have : l.length ≠ 0 := fun h => hN (List.length_eq_zero.mp h)
    exact_mod_cast this
  have hmx : (computeCircleFitting K (l.map (translate a b))).mx =
      (computeCircleFitting K l).mx + (a : K) := by
    rw [fit_mx, fit_mx, (sum_translate a b l).1, List.length_map]
    field_simp
    ring
  have hmy : (computeCircleFitting K (l.map (translate a b))).my =
      (computeCircleFitting K l).my + (b : K) := by
    rw [fit_my, fit_my, (sum_translate a b l).2, List.length_map]
    field_simp
    ring
  refine ⟨hmx, hmy, ?_⟩
  rw [fit_sums, hmx, hmy, listSums_translate, ← fit_sums]

end

/-- C24: for every non-empty point list whose denominator is not zero and every
integer offset `(a, b)`, the seven sums relative to the centroid, the
denominator, `uc`, `vc`, the radicand and its root are the same for the list and
for the list translated by `(a, b)`, and the fitted centre of the translated
list, before conversion to integers, is the fitted centre of the list
translated by `(a, b)`. -/
theorem C24_translation {K : Type} [LinearOrderedField K] (ops : FloatOps K)
    (l : List CvPoint) (a b : Int) (hN : l ≠ [])
    (hden : (computeCircleFitting K l).denominator ≠ 0) :
    (computeCircleFitting K (l.map (translate a b))).sums = (computeCircleFitting K l).sums ∧
    (computeCircleFitting K (l.map (translate a b))).denominator ≠ 0 ∧
    (computeCircleFitting K (l.map (translate a b))).uc = (computeCircleFitting K l).uc ∧
    (computeCircleFitting K (l.map (translate a b))).vc = (computeCircleFitting K l).vc ∧
    (computeCircleFitting K (l.map (translate a b))).radicand =
      (computeCircleFitting K l).radicand ∧
    ops.sqrt (computeCircleFitting K (l.map (translate a b))).radicand =
      ops.sqrt (computeCircleFitting K l).radicand ∧
    (computeCircleFitting K (l.map (translate a b))).centerX =
      (computeCircleFitting K l).centerX + (a : K) ∧
    (computeCircleFitting K (l.map (translate a b))).centerY =
      (computeCircleFitting K l).centerY + (b : K) := by
  obtain ⟨hmx, hmy, hs⟩ := fit_translate (K := K) a b l hN
  have hd : (computeCircleFitting K (l.map (translate a b))).denominator =
      (computeCircleFitting K l).denominator := by
    rw [fit_denominator, fit_denominator, hs]
  have hu : (computeCircleFitting K (l.map (translate a b))).uc =
      (computeCircleFitting K l).uc := by
    rw [fit_uc, fit_uc, hs, hd]
  have hv : (computeCircleFitting K (l.map (translate a b))).vc =
      (computeCircleFitting K l).vc := by
    rw [fit_vc, fit_vc, hs, hd]
  have hr : (computeCircleFitting K (l.map (translate a b))).radicand =
      (computeCircleFitting K l).radicand := by
    rw [fit_radicand, fit_radicand, hs, hu, hv, List.length_map]
  refine ⟨hs, by rw [hd]; exact hden, hu, hv, hr, by rw [hr], ?_, ?_⟩
  · rw [(fit_center _).1, (fit_center _).1, hu, hmx]; ring
  · rw [(fit_center _).2, (fit_center _).2, hv, hmy]; ring

/-- C24 at a concrete input: three points translated by `(10, -3)`. -/
theorem C24_translation_witness :
    (computeCircleFitting ℚ ([⟨5, 0⟩, ⟨0, 5⟩, ⟨-5, 0⟩].map (translate 10 (-3)))).sums =
      (computeCircleFitting ℚ [⟨5, 0⟩, ⟨0, 5⟩, ⟨-5, 0⟩]).sums ∧
    (computeCircleFitting ℚ ([⟨5, 0⟩, ⟨0, 5⟩, ⟨-5, 0⟩].map (translate 10 (-3)))).radicand =
      (computeCircleFitting ℚ [⟨5, 0⟩, ⟨0, 5⟩, ⟨-5, 0⟩]).radicand ∧
    (computeCircleFitting ℚ ([⟨5, 0⟩, ⟨0, 5⟩, ⟨-5, 0⟩].map (translate 10 (-3)))).centerX =
      (computeCircleFitting ℚ [⟨5, 0⟩, ⟨0, 5⟩, ⟨-5, 0⟩]).centerX + ((10 : Int) : ℚ) ∧
    (computeCircleFitting ℚ ([⟨5, 0⟩, ⟨0, 5⟩, ⟨-5, 0⟩].map (translate 10 (-3)))).centerY =
      (computeCircleFitting ℚ [⟨5, 0⟩, ⟨0, 5⟩, ⟨-5, 0⟩]).centerY + ((-3 : Int) : ℚ) :=
  have h := C24_translation machineOps [⟨5, 0⟩, ⟨0, 5⟩, ⟨-5, 0⟩] 10 (-3)
    (List.cons_ne_nil _ _) (ne_of_lt (fit_denominator_neg _ (by decide)))
  ⟨h.1, h.2.2.2.2.1, h.2.2.2.2.2.2.1, h.2.2.2.2.2.2.2⟩

/-! ## Lemmas on the fit in float arithmetic -/

theorem pow2_pos (e : Int) : 0 < pow2 e := by
  unfold pow2
  split
  · positivity
  · positivity

theorem roundHalfEven_nonneg (x : ℚ) (h : 0 ≤ x) : 0 ≤ roundHalfEven x := by
  have hf : x.floor = ⌊x⌋ := rfl
  have h0 : 0 ≤ ⌊x⌋ := Int.floor_nonneg.mpr h
  unfold roundHalfEven
  rw [hf]
  split
  · exact h0
  · split
    · omega
    · split
      · exact h0
      · omega

theorem notNegative_zero : (FloatVal.zero false).notNegative := Or.inr rfl

theorem notNegative_inf : (FloatVal.inf false).notNegative := Or.inr rfl

theorem notNegative_nan : FloatVal.nan.notNegative := Or.inl rfl

theorem notNegative_num (q : ℚ) (h : 0 ≤ q) : (FloatVal.num q).notNegative := by
  right
  simp [FloatVal.negative, h]

theorem notNegative_num_iff (q : ℚ) : (FloatVal.num q).notNegative ↔ 0 ≤ q := by
  unfold FloatVal.notNegative
  simp [FloatVal.negative]

theorem roundPos_notNegative (fmt : FloatFormat) (q : ℚ) (h : 0 ≤ q) :
    (roundPos fmt q).notNegative := by
  unfold roundPos
  split
  · exact notNegative_zero
  · split
    · exact notNegative_inf
    · apply notNegative_num
      have h1 := pow2_pos (max (ilog2 q) fmt.emin - fmt.prec + 1)
      have h2 := roundHalfEven_nonneg _ (div_nonneg h h1.le)
      have h3 : (0 : ℚ) ≤ (roundHalfEven (q / pow2 (max (ilog2 q) fmt.emin - fmt.prec + 1)) : ℚ) := by
        exact_mod_cast h2
      exact mul_nonneg h3 h1.le

theorem roundTo_notNegative (fmt : FloatFormat) (q : ℚ) (h : 0 ≤ q) :
    (roundTo fmt q).notNegative := by
  unfold roundTo
  rw [if_pos h]
  exact roundPos_notNegative fmt q h

theorem add_notNegative (fmt : FloatFormat) (a b : FloatVal) (ha : a.notNegative)
    (hb : b.notNegative) : (a.add fmt b).notNegative := by
  rcases a with s | p | s | _ <;> rcases b with t | q | t | _ <;>
    simp only [FloatVal.notNegative, FloatVal.negative, decide_eq_false_iff_not, not_lt,
      reduceCtorEq, false_or, or_false] at ha hb <;>
    simp only [FloatVal.add] <;>
    first
    | exact notNegative_nan
    | (subst ha; subst hb; exact notNegative_zero)
    | (subst ha; exact notNegative_inf)
    | (subst hb; exact notNegative_inf)
    | exact roundTo_notNegative fmt _ (by assumption)
    | (split
       · exact notNegative_zero
       · exact roundTo_notNegative fmt _ (add_nonneg ha hb))
    | (subst ha; subst hb; exact notNegative_inf)

theorem mul_notNegative (fmt : FloatFormat) (a b : FloatVal) (ha : a.notNegative)
    (hb : b.notNegative) : (a.mul fmt b).notNegative := by
  rcases a with s | p | s | _ <;> rcases b with t | q | t | _ <;>
    simp only [FloatVal.notNegative, FloatVal.negative, decide_eq_false_iff_not, not_lt,
      reduceCtorEq, false_or, or_false] at ha hb <;>
    simp only [FloatVal.mul] <;>
    first
    | exact notNegative_nan
    | exact roundTo_notNegative fmt _ (mul_nonneg ha hb)
    | (right; simp [FloatVal.negative, ha, hb])

theorem mul_self_notNegative (fmt : FloatFormat) (v : FloatVal) :
    (v.mul fmt v).notNegative := by
  rcases v with s | p | s | _ <;> simp only [FloatVal.mul]
  · right; simp [FloatVal.negative]
  · exact roundTo_notNegative fmt _ (mul_self_nonneg p)
  · right; simp [FloatVal.negative]
  · exact notNegative_nan

theorem div_notNegative (fmt : FloatFormat) (a b : FloatVal) (ha : a.notNegative)
    (hb : b.notNegative) : (a.div fmt b).notNegative := by
  rcases a with s | p | s | _ <;> rcases b with t | q | t | _ <;>
    simp only [FloatVal.notNegative, FloatVal.negative, decide_eq_false_iff_not, not_lt,
      reduceCtorEq, false_or, or_false] at ha hb <;>
    simp only [FloatVal.div] <;>
    first
    | exact notNegative_nan
    | exact roundTo_notNegative fmt _ (div_nonneg ha hb)
    | (right; simp [FloatVal.negative, ha, hb])

theorem sqrt_notNegative (fmt : FloatFormat) (v : FloatVal) (hv : v.notNegative) :
    (v.sqrt fmt).notNegative := by
  rcases v with s | p | s | _ <;>
    simp only [FloatVal.notNegative, FloatVal.negative, decide_eq_false_iff_not, not_lt,
      reduceCtorEq, false_or, or_false] at hv <;>
    simp only [FloatVal.sqrt]
  · subst hv; exact notNegative_zero
  · rw [if_neg (not_lt.mpr hv)]
    unfold sqrtPos
    apply notNegative_num
    apply mul_nonneg _ (pow2_pos _).le
    dsimp only
    split
    · positivity
    · split
      · positivity
      · split <;> positivity
  · subst hv; simp; exact notNegative_inf
  · exact notNegative_nan

theorem ofInt_notNegative (fmt : FloatFormat) (z : Int) (hz : 0 ≤ z) :
    (FloatVal.ofInt fmt z).notNegative := by
  unfold FloatVal.ofInt
  split
  · exact notNegative_zero
  · exact roundTo_notNegative fmt _ (by exact_mod_cast hz)

theorem foldl_addMomentsF_notNegative (mx my : FloatVal) (l : List CvPoint) :
    ∀ s : FloatSums, s.suu.notNegative → s.svv.notNegative →
      (l.foldl (addMomentsF mx my) s).suu.notNegative ∧
        (l.foldl (addMomentsF mx my) s).svv.notNegative := by
  induction l with
  | nil => intro s h1 h2; exact ⟨h1, h2⟩
  | cons p l ih =>
    intro s h1 h2
    rw [List.foldl_cons]
    apply ih
    · exact add_notNegative _ _ _ h1 (mul_self_notNegative _ _)
    · exact add_notNegative _ _ _ h2 (mul_self_notNegative _ _)

/-- The root `computeCircleFitting` passes to `setRadius` is never a negative
number: the radicand is a sum of squares. -/
theorem radius_notNegative (rPoints : List CvPoint) : (floatFit rPoints).radius.notNegative := by
  unfold floatFit
  dsimp only
  apply sqrt_notNegative
  apply add_notNegative
  · exact add_notNegative _ _ _ (mul_self_notNegative _ _) (mul_self_notNegative _ _)
  · apply div_notNegative
    · obtain ⟨h1, h2⟩ := foldl_addMomentsF_notNegative
        ((rPoints.foldl addPointF (.zero false, .zero false)).1.div binary32
          (FloatVal.ofInt binary32 rPoints.length))
        ((rPoints.foldl addPointF (.zero false, .zero false)).2.div binary32
          (FloatVal.ofInt binary32 rPoints.length)) rPoints
        ⟨.zero false, .zero false, .zero false, .zero false, .zero false, .zero false,
          .zero false⟩ notNegative_zero notNegative_zero
      exact add_notNegative _ _ _ h1 h2
    · exact ofInt_notNegative _ _ (Int.natCast_nonneg _)

/-- The conversion of a value that is not negative gives a negative integer
exactly when the value is not finite or is beyond the greatest `int`. -/
theorem toInt_neg_iff (v : FloatVal) (hv : v.notNegative) :
    v.toInt < 0 ↔ v.isFinite = false ∨ ∃ q, v = .num q ∧ 2147483648 ≤ q := by
  rcases v with s | p | s | _ <;>
    simp only [FloatVal.notNegative, FloatVal.negative, decide_eq_false_iff_not, not_lt,
      reduceCtorEq, false_or, or_false] at hv <;>
    simp only [FloatVal.toInt, FloatVal.isFinite]
  · simp
  · have hf : p.floor = ⌊p⌋ := rfl
    have h0 : 0 ≤ ⌊p⌋ := Int.floor_nonneg.mpr hv
    simp only [truncate, hv, if_true, hf, Bool.true_eq_false, false_or, FloatVal.num.injEq,
      exists_eq_left']
    have hl : (2147483648 : ℚ) ≤ p ↔ 2147483648 ≤ ⌊p⌋ := by
      rw [Int.le_floor]; norm_num
    rw [hl]
    split <;> omega
  · simp
  · simp

theorem outcome_of_ne_nil (c : OsiCircle) (rPoints : List CvPoint) (h : rPoints ≠ []) :
    (c.computeCircleFitting rPoints).outcome =
      some ((c.setCenter ⟨(floatFit rPoints).centerX.toInt,
        (floatFit rPoints).centerY.toInt⟩).setRadius (floatFit rPoints).radius.toInt) := by
  cases rPoints with
  | nil => exact absurd rfl h
  | cons p0 rest => rfl

theorem ne_nil_of_three (rPoints : List CvPoint) (hN : 3 ≤ rPoints.length) : rPoints ≠ [] := by
  intro h
  rw [h] at hN
  simp at hN

theorem toInt_of_not_finite (v : FloatVal) (h : v.isFinite = false) :
    v.toInt = -2147483648 := by
  cases v <;> simp [FloatVal.isFinite] at h <;> rfl

theorem halfQuotient_zero (a : FloatVal) (s : Bool) :
    (halfQuotient a (.zero s)).isFinite = false := by
  unfold halfQuotient
  cases a with
  | nan => rfl
  | zero t => rfl
  | inf t => rfl
  | num q =>
    simp only [FloatVal.mul]
    cases roundTo binary64 (1 / 2 * q) <;> rfl

theorem add_of_not_finite (fmt : FloatFormat) (a b : FloatVal) (h : a.isFinite = false) :
    (a.add fmt b).isFinite = false := by
  cases a <;> simp [FloatVal.isFinite] at h <;> cases b <;> simp only [FloatVal.add] <;>
    first
    | rfl
    | (split <;> rfl)

theorem mul_self_of_not_finite (fmt : FloatFormat) (v : FloatVal) (h : v.isFinite = false) :
    (v.mul fmt v).isFinite = false := by
  cases v <;> simp [FloatVal.isFinite] at h <;> rfl

theorem sqrt_of_not_finite (fmt : FloatFormat) (v : FloatVal) (h : v.isFinite = false) :
    (v.sqrt fmt).isFinite = false := by
  cases v with
  | inf s => cases s <;> rfl
  | nan => rfl
  | zero s => simp [FloatVal.isFinite] at h
  | num q => simp [FloatVal.isFinite] at h

/-- With a `float` denominator that is zero, the two quotients are not finite,
and neither are the centre and the root computed from them. -/
theorem floatFit_of_zero_denominator (rPoints : List CvPoint) (s : Bool)
    (h : (floatFit rPoints).denominator = .zero s) :
    (floatFit rPoints).uc.isFinite = false ∧ (floatFit rPoints).vc.isFinite = false ∧
      (floatFit rPoints).centerX.toInt = -2147483648 ∧
      (floatFit rPoints).centerY.toInt = -2147483648 ∧
      (floatFit rPoints).radius.toInt = -2147483648 := by
  have hu : (floatFit rPoints).uc.isFinite = false := by
    have e : (floatFit rPoints).uc = halfQuotient
        (((floatFit rPoints).sums.suv.mul binary32
            ((floatFit rPoints).sums.svvv.add binary32 (floatFit rPoints).sums.suuv)).sub binary32
          ((floatFit rPoints).sums.svv.mul binary32
            ((floatFit rPoints).sums.suuu.add binary32 (floatFit rPoints).sums.suvv)))
        (floatFit rPoints).denominator := rfl
    rw [e, h]
    exact halfQuotient_zero _ _
  have hv : (floatFit rPoints).vc.isFinite = false := by
    have e : (floatFit rPoints).vc = halfQuotient
        (((floatFit rPoints).sums.suv.mul binary32
            ((floatFit rPoints).sums.suuu.add binary32 (floatFit rPoints).sums.suvv)).sub binary32
          ((floatFit rPoints).sums.suu.mul binary32
            ((floatFit rPoints).sums.svvv.add binary32 (floatFit rPoints).sums.suuv)))
        (floatFit rPoints).denominator := rfl
    rw [e, h]
    exact halfQuotient_zero _ _
  refine ⟨hu, hv, ?_, ?_, ?_⟩
  · exact toInt_of_not_finite _ (add_of_not_finite _ _ _ hu)
  · exact toInt_of_not_finite _ (add_of_not_finite _ _ _ hv)
  · apply toInt_of_not_finite
    have e : (floatFit rPoints).radius =
        ((((floatFit rPoints).uc.mul binary32 (floatFit rPoints).uc).add binary32
          ((floatFit rPoints).vc.mul binary32 (floatFit rPoints).vc)).add binary32
          (((floatFit rPoints).sums.suu.add binary32 (floatFit rPoints).sums.svv).div binary32
            (FloatVal.ofInt binary32 rPoints.length))).sqrt binary32 := rfl
    rw [e]
    apply sqrt_of_not_finite
    apply add_of_not_finite
    apply add_of_not_finite
    exact mul_self_of_not_finite _ _ hu

/-- C11, counterexample: called on an object with centre (7, 7) and radius 3.
For the collinear points (0,0), (1,3), (3,9) the denominator computed in
`float` is `-1/65536`, not zero, and the call stores the centre (-4, 6) and
the radius 7 and throws nothing.  For the collinear points (0,0), (1,1), (2,2)
the denominator computed in `float` is zero and the call leaves the centre
(`INT_MIN`, `INT_MIN`), derived from the division by zero, in the object
before `setRadius` throws. -/
theorem C11_counterexample :
    (collinear slopePoints ∧
      (floatFit slopePoints).denominator = .num (-1 / 65536) ∧
      (OsiCircle.computeCircleFitting ⟨⟨7, 7⟩, 3⟩ slopePoints).outcome =
        some ⟨⟨⟨-4, 6⟩, 7⟩, none⟩) ∧
    (collinear diagonalPoints ∧
      (floatFit diagonalPoints).denominator = .zero false ∧
      (OsiCircle.computeCircleFitting ⟨⟨7, 7⟩, 3⟩ diagonalPoints).outcome =
        some ⟨⟨⟨-2147483648, -2147483648⟩, 3⟩,
          some "Circle with negative radius : -2147483648"⟩) := by
  refine ⟨⟨by decide, by decide!, by decide!⟩, ⟨by decide, by decide!, by decide!⟩⟩

/-- C11 (amended): for every list of at least 3 collinear points the
denominator `Suv^2 - Suu*Svv` is zero in exact arithmetic.  The call always
runs `setCenter` and then `setRadius` on the conversions to `int` of the
values computed in `float`, with no test in between.  When the denominator
computed in `float` is zero, `uc` and `vc` are not finite, `setCenter` stores
the centre (`INT_MIN`, `INT_MIN`), and `setRadius` throws on the radius
`INT_MIN`, leaving the radius the object had. -/
theorem C11_degenerate_fit (K : Type) [LinearOrderedField K] (c : OsiCircle)
    (rPoints : List CvPoint) (hN : 3 ≤ rPoints.length) (hc : collinear rPoints) :
    (computeCircleFitting K rPoints).denominator = 0 ∧
    (c.computeCircleFitting rPoints).outcome =
      some ((c.setCenter ⟨(floatFit rPoints).centerX.toInt,
        (floatFit rPoints).centerY.toInt⟩).setRadius (floatFit rPoints).radius.toInt) ∧
    (∀ s, (floatFit rPoints).denominator = .zero s →
      (floatFit rPoints).uc.isFinite = false ∧ (floatFit rPoints).vc.isFinite = false ∧
      (c.computeCircleFitting rPoints).outcome =
        some ⟨⟨⟨-2147483648, -2147483648⟩, c.mRadius⟩,
          some ("Circle with negative radius : " ++ toString (-2147483648 : Int))⟩) := by
  have hne := ne_nil_of_three rPoints hN
  refine ⟨denominator_zero_of_collinear (K := K) rPoints hc, outcome_of_ne_nil c rPoints hne,
    fun s hs => ?_⟩
  obtain ⟨hu, hv, h1, h2, h3⟩ := floatFit_of_zero_denominator rPoints s hs
  refine ⟨hu, hv, ?_⟩
  rw [outcome_of_ne_nil c rPoints hne, h1, h2, h3]
  rfl

/-- C11 (amended) at a concrete input: the points (0,0), (1,1), (2,2) on an
object with centre (7, 7) and radius 3. -/
theorem C11_degenerate_fit_witness :
    (computeCircleFitting ℚ diagonalPoints).denominator = 0 ∧
    (OsiCircle.computeCircleFitting ⟨⟨7, 7⟩, 3⟩ diagonalPoints).outcome =
      some ((OsiCircle.setCenter ⟨⟨7, 7⟩, 3⟩ ⟨(floatFit diagonalPoints).centerX.toInt,
        (floatFit diagonalPoints).centerY.toInt⟩).setRadius
          (floatFit diagonalPoints).radius.toInt) ∧
    (floatFit diagonalPoints).uc.isFinite = false ∧
    (floatFit diagonalPoints).vc.isFinite = false ∧
    (OsiCircle.computeCircleFitting ⟨⟨7, 7⟩, 3⟩ diagonalPoints).outcome =
      some ⟨⟨⟨-2147483648, -2147483648⟩, 3⟩,
        some ("Circle with negative radius : " ++ toString (-2147483648 : Int))⟩ :=
  have h := C11_degenerate_fit ℚ ⟨⟨7, 7⟩, 3⟩ diagonalPoints (by decide) (by decide)
  ⟨h.1, h.2.1, h.2.2 false (by decide!)⟩

/-- C22, counterexample: called on an object with centre (7, 7) and radius 3.
The points (0,0), (944,944), (1888,1889) are not collinear and their
denominator is negative in exact arithmetic, but computed in `float` it is
zero: the root is infinite and `setRadius` throws.  The points (-70000,0),
(70000,0), (0,1) are not collinear and have a negative denominator in `float`
too; the root is 2450000128, beyond the range of `int`, and `setRadius`
throws. -/
theorem C22_counterexample :
    (¬ collinear nearLinePoints ∧
      (computeCircleFitting ℚ nearLinePoints).denominator < 0 ∧
      (floatFit nearLinePoints).denominator = .zero false ∧
      (floatFit nearLinePoints).radius = .inf false ∧
      (OsiCircle.computeCircleFitting ⟨⟨7, 7⟩, 3⟩ nearLinePoints).outcome =
        some ⟨⟨⟨-2147483648, -2147483648⟩, 3⟩,
          some "Circle with negative radius : -2147483648"⟩) ∧
    (¬ collinear farPoints ∧
      (floatFit farPoints).denominator = .num (-6533332480) ∧
      (floatFit farPoints).radius = .num 2450000128 ∧
      (OsiCircle.computeCircleFitting ⟨⟨7, 7⟩, 3⟩ farPoints).outcome =
        some ⟨⟨⟨0, -2147483648⟩, 3⟩,
          some "Circle with negative radius : -2147483648"⟩) := by
  refine ⟨⟨by decide, fit_denominator_neg _ (by decide), by decide!, by decide!, by decide!⟩,
    ⟨by decide, by decide!, by decide!, by decide!⟩⟩

/-- C22 (amended): for every list of at least 3 points that are not all
collinear, the denominator `Suv^2 - Suu*Svv` is negative and the radicand
`uc^2 + vc^2 + (Suu + Svv)/N` is not negative, both in exact arithmetic.  In
the `float` arithmetic of the code the root passed to `setRadius` is never a
negative number, and `setRadius` throws exactly when that root is not finite
or is at least 2^31; otherwise the call stores the conversions to `int` of the
centre and of the root, and the radius stored is not negative. -/
theorem C22_fit_defined (K : Type) [LinearOrderedField K] (c : OsiCircle)
    (rPoints : List CvPoint) (hN : 3 ≤ rPoints.length) (hnc : ¬ collinear rPoints) :
    (computeCircleFitting K rPoints).denominator < 0 ∧
    0 ≤ (computeCircleFitting K rPoints).radicand ∧
    (floatFit rPoints).radius.notNegative ∧
    ∃ r : CircleResult, (c.computeCircleFitting rPoints).outcome = some r ∧
      (r.thrown ≠ none ↔
        ((floatFit rPoints).radius.isFinite = false ∨
          ∃ q, (floatFit rPoints).radius = .num q ∧ 2147483648 ≤ q)) ∧
      (r.thrown = none →
        r.circle = ⟨⟨(floatFit rPoints).centerX.toInt, (floatFit rPoints).centerY.toInt⟩,
          (floatFit rPoints).radius.toInt⟩ ∧ 0 ≤ (floatFit rPoints).radius.toInt) := by
  have hne := ne_nil_of_three rPoints hN
  have hrad := radius_notNegative rPoints
  refine ⟨fit_denominator_neg (K := K) rPoints hnc, fit_radicand_nonneg (K := K) rPoints, hrad,
    _, outcome_of_ne_nil c rPoints hne, ?_, ?_⟩
  · rw [setRadius_thrown, toInt_neg_iff _ hrad]
  · intro ht
    have hnn : ¬ (floatFit rPoints).radius.toInt < 0 := by
      intro hlt
      exact ((setRadius_thrown _ _).mpr hlt) ht
    unfold OsiCircle.setRadius
    rw [if_neg hnn]
    exact ⟨rfl, by omega⟩

/-- C22 (amended) at a concrete input: the points (5,0), (0,5), (-5,0) on an
object with centre (7, 7) and radius 3. -/
theorem C22_fit_defined_witness :
    (computeCircleFitting ℚ [⟨5, 0⟩, ⟨0, 5⟩, ⟨-5, 0⟩]).denominator < 0 ∧
    0 ≤ (computeCircleFitting ℚ [⟨5, 0⟩, ⟨0, 5⟩, ⟨-5, 0⟩]).radicand ∧
    (floatFit [⟨5, 0⟩, ⟨0, 5⟩, ⟨-5, 0⟩]).radius.notNegative ∧
    ∃ r : CircleResult,
      (OsiCircle.computeCircleFitting ⟨⟨7, 7⟩, 3⟩ [⟨5, 0⟩, ⟨0, 5⟩, ⟨-5, 0⟩]).outcome = some r ∧
      (r.thrown ≠ none ↔
        ((floatFit [⟨5, 0⟩, ⟨0, 5⟩, ⟨-5, 0⟩]).radius.isFinite = false ∨
          ∃ q, (floatFit [⟨5, 0⟩, ⟨0, 5⟩, ⟨-5, 0⟩]).radius = .num q ∧ 2147483648 ≤ q)) ∧
      (r.thrown = none →
        r.circle = ⟨⟨(floatFit [⟨5, 0⟩, ⟨0, 5⟩, ⟨-5, 0⟩]).centerX.toInt,
            (floatFit [⟨5, 0⟩, ⟨0, 5⟩, ⟨-5, 0⟩]).centerY.toInt⟩,
          (floatFit [⟨5, 0⟩, ⟨0, 5⟩, ⟨-5, 0⟩]).radius.toInt⟩ ∧
        0 ≤ (floatFit [⟨5, 0⟩, ⟨0, 5⟩, ⟨-5, 0⟩]).radius.toInt) :=
  C22_fit_defined ℚ ⟨⟨7, 7⟩, 3⟩ [⟨5, 0⟩, ⟨0, 5⟩, ⟨-5, 0⟩] (by decide) (by decide)

/-! ## Lemmas on the loaders -/

theorem truncate_intCast (z : Int) : truncate (z : ℚ) = z := by
  unfold truncate
  split
  · show ⌊(z : ℚ)⌋ = z
    exact Int.floor_intCast z
  · simp [Rat.ceil]

theorem readInt_intCast (z : Int) (hz : fitsInt z) (ts : List ℚ) (cur : Int) :
    readInt ⟨(z : ℚ) :: ts, false, false⟩ cur = (z, ⟨ts, false, false⟩) := by
  unfold readInt
  simp only [Bool.false_eq_true, if_false, truncate_intCast]
  rw [if_neg (by unfold fitsInt at hz; omega), if_neg (by unfold fitsInt at hz; omega),
    if_pos (by simp)]

theorem readInt_natCast (n : Nat) (hn : n ≤ 2147483647) (ts : List ℚ) (cur : Int) :
    readInt ⟨(n : ℚ) :: ts, false, false⟩ cur = ((n : Int), ⟨ts, false, false⟩) := by
  have h := readInt_intCast (n : Int) ⟨by omega, by omega⟩ ts cur
  simpa using h

theorem readFloat_fits (t : ℚ) (ht : fitsFloat t) (ts : List ℚ) (fr : Bool) (cur : ℚ) :
    readFloat ⟨t :: ts, false, fr⟩ cur = (toFloat32 t, ⟨ts, false, false⟩) := by
  unfold fitsFloat at ht
  unfold readFloat toFloat32
  simp only [Bool.false_eq_true, if_false]
  cases h : FloatVal.ofRat binary32 t with
  | inf s => rw [h] at ht; simp [FloatVal.isFinite] at ht
  | zero s => rfl
  | num q => rfl
  | nan => rfl

theorem cvCreateMat_pos (H W : Nat) (hH : 0 < H) (hW : 0 < W) :
    cvCreateMat (H : Int) (W : Int) = .ok ⟨H, W, List.replicate (H * W) 0⟩ := by
  unfold cvCreateMat
  rw [if_neg (by omega)]
  simp

theorem pointsLoop_spec (rows cols : Nat) (rest : List ℚ) (pts : List (Int × Int))
    (hr : ∀ p ∈ pts, fitsInt p.1 ∧ fitsInt p.2) :
    ∀ st : PointsState, st.file = ⟨pointTokens pts ++ rest, false, false⟩ →
      (pointsLoop rows cols pts.length st).file = ⟨rest, false, false⟩ ∧
      (pointsLoop rows cols pts.length st).data = markAll rows cols pts st.data ∧
      (pointsLoop rows cols pts.length st).events = st.events ++
        (pts.filter (outOfBounds rows cols)).map
          (fun p => LoadEvent.cout (exceedsLine p.1 p.2 rows cols)) := by
  induction pts with
  | nil =>
    intro st h
    simpa [pointsLoop, markAll, pointTokens] using h
  | cons p ps ih =>
    intro st h
    obtain ⟨hp1, hp2⟩ := hr p (List.mem_cons_self _ _)
    have hstep : (pointsStep rows cols st).file = ⟨pointTokens ps ++ rest, false, false⟩ ∧
        (pointsStep rows cols st).data = (if outOfBounds rows cols p then st.data
          else st.data.set (p.1 * (cols : Int) + p.2).toNat 255) ∧
        (pointsStep rows cols st).events = st.events ++
          (if outOfBounds rows cols p then
            [LoadEvent.cout (exceedsLine p.1 p.2 rows cols)] else []) := by
      unfold pointsStep
      rw [h]
      have e1 : pointTokens (p :: ps) ++ rest =
          (p.1 : ℚ) :: (p.2 : ℚ) :: (pointTokens ps ++ rest) := by
        simp [pointTokens]
      rw [e1, readInt_intCast _ hp1]
      dsimp only
      rw [readInt_intCast _ hp2]
      dsimp only
      by_cases hb : p.1 < 0 ∨ p.1 > (rows : Int) - 1 ∨ p.2 < 0 ∨ p.2 > (cols : Int) - 1
      · rw [if_pos hb]
        simp [outOfBounds, hb]
      · rw [if_neg hb]
        simp [outOfBounds, hb]
    obtain ⟨i1, i2, i3⟩ := ih (fun q hq => hr q (List.mem_cons_of_mem _ hq))
      (pointsStep rows cols st) hstep.1
    rw [List.length_cons, pointsLoop]
    refine ⟨i1, ?_, ?_⟩
    · rw [i2, hstep.2.1]; rfl
    · rw [i3, hstep.2.2]
      by_cases hb : outOfBounds rows cols p = true
      · simp [hb, List.filter_cons]
      · simp [hb, List.filter_cons]

theorem markAll_length (rows cols : Nat) (pts : List (Int × Int)) :
    ∀ data, (markAll rows cols pts data).length = data.length := by
  induction pts with
  | nil => intro data; rfl
  | cons p ps ih =>
    intro data
    have : markAll rows cols (p :: ps) data = markAll rows cols ps
        (if outOfBounds rows cols p then data
          else data.set (p.1 * (cols : Int) + p.2).toNat 255) := rfl
    rw [this, ih]
    split <;> simp

theorem cell_index_inj (W a b i j : Nat) (hb : b < W) (hj : j < W)
    (h : a * W + b = i * W + j) : a = i ∧ b = j := by
  have hW : 0 < W := by omega
  have h1 : (b + a * W) / W = (j + i * W) / W := by rw [Nat.add_comm b, h, Nat.add_comm j]
  rw [Nat.add_mul_div_right _ _ hW, Nat.add_mul_div_right _ _ hW, Nat.div_eq_of_lt hb,
    Nat.div_eq_of_lt hj] at h1
  have h2 : a = i := by omega
  subst h2
  exact ⟨rfl, by omega⟩

theorem markAll_cell (H W : Nat) (pts : List (Int × Int)) (i j : Nat) (hi : i < H)
    (hj : j < W) :
    ∀ data : List Nat, data.length = H * W →
      (markAll H W pts data)[i * W + j]? =
        if ((i : Int), (j : Int)) ∈ pts then some 255 else data[i * W + j]? := by
  have hk : i * W + j < H * W := by
    calc i * W + j < i * W + W := by omega
      _ = (i + 1) * W := by ring
      _ ≤ H * W := Nat.mul_le_mul_right W hi
  induction pts with
  | nil => intro data _; simp [markAll]
  | cons p ps ih =>
    intro data hlen
    have hm : markAll H W (p :: ps) data = markAll H W ps
        (if outOfBounds H W p then data
          else data.set (p.1 * (W : Int) + p.2).toNat 255) := rfl
    rw [hm]
    by_cases hb : outOfBounds H W p = true
    · rw [if_pos hb, ih data hlen]
      have hne : ((i : Int), (j : Int)) ≠ p := by
        intro he
        subst he
        simp [outOfBounds] at hb
        omega
      simp [List.mem_cons, hne]
    · rw [if_neg hb, ih _ (by simpa using hlen)]
      simp only [outOfBounds, decide_eq_true_eq] at hb
      obtain ⟨a, b⟩ := p
      have ha0 : 0 ≤ a := by omega
      have hb0 : 0 ≤ b := by omega
      obtain ⟨a, rfl⟩ := Int.eq_ofNat_of_zero_le ha0
      obtain ⟨b, rfl⟩ := Int.eq_ofNat_of_zero_le hb0
      have hbW : b < W := by omega
      have hidx : ((a : Int) * (W : Int) + (b : Int)).toNat = a * W + b := by
        have : ((a : Int) * (W : Int) + (b : Int)) = ((a * W + b : Nat) : Int) := by
          push_cast; ring
        rw [this, Int.toNat_ofNat]
      dsimp only
      rw [hidx]
      by_cases hmem : ((i : Int), (j : Int)) ∈ ps
      · simp [hmem]
      · rw [if_neg hmem]
        by_cases he : a * W + b = i * W + j
        · obtain ⟨rfl, rfl⟩ := cell_index_inj W a b i j hbW hj he
          have : a * W + b < data.length := by rw [hlen]; exact hk
          simp [List.getElem?_set, this]
        · have hne : ((i : Int), (j : Int)) ≠ ((a : Int), (b : Int)) := by
            intro h
            simp only [Prod.mk.injEq, Nat.cast_inj] at h
            exact he (by rw [h.1, h.2])
          simp [List.getElem?_set, he, hmem, hne]

/-- What `loadApplicationPoints` does on a file that holds the count of the
points and their coordinates, all in the range of `int`. -/
theorem loadApplicationPoints_wf (fs : FileSystem) (m : OsiManager) (H W : Nat)
    (pts : List (Int × Int)) (rest : List ℚ)
    (hH : 0 < H) (hW : 0 < W)
    (hh : m.mHeightOfNormalizedIris = (H : Int)) (hw : m.mWidthOfNormalizedIris = (W : Int))
    (hn : pts.length ≤ 2147483647) (hr : ∀ p ∈ pts, fitsInt p.1 ∧ fitsInt p.2)
    (hfile : fs.numbers m.mFilenameApplicationPoints =
      some ((pts.length : ℚ) :: (pointTokens pts ++ rest))) :
    loadApplicationPoints fs m =
      ⟨[LoadEvent.loadApplicationPoints, LoadEvent.openFile m.mFilenameApplicationPoints] ++
          (pts.filter (outOfBounds H W)).map
            (fun p => LoadEvent.cout (exceedsLine p.1 p.2 H W)),
        .ok { m with
          mpApplicationPoints := some ⟨H, W, markAll H W pts (List.replicate (H * W) 0)⟩ }⟩ := by
  obtain ⟨s1, s2, s3⟩ := pointsLoop_spec H W rest pts hr
    ⟨⟨pointTokens pts ++ rest, false, false⟩, 0, 0, List.replicate (H * W) 0, []⟩ rfl
  unfold loadApplicationPoints
  rw [hfile]
  dsimp only
  rw [hh, hw, cvCreateMat_pos H W hH hW, readInt_natCast _ hn]
  dsimp only
  rw [Int.toNat_ofNat, s2, s3]
  rfl

theorem cvCreateMatF_pos (H W : Nat) (hH : 0 < H) (hW : 0 < W) :
    cvCreateMatF (H : Int) (W : Int) = .ok ⟨H, W, List.replicate (H * W) 0⟩ := by
  unfold cvCreateMatF
  rw [if_neg (by omega)]
  simp

theorem set_append_cons {α : Type} (A B : List α) (x y : α) :
    (A ++ x :: B).set A.length y = A ++ y :: B := by
  induction A with
  | nil => rfl
  | cons a A ih => simp [ih]

theorem set_take_drop (vals d0 : List ℚ) (k : Nat) (hk : k < vals.length)
    (hd : d0.length = vals.length) :
    (vals.take k ++ d0.drop k).set k vals[k] = vals.take (k + 1) ++ d0.drop (k + 1) := by
  have hk2 : k < d0.length := by omega
  have hl : (vals.take k).length = k := by simp; omega
  rw [List.drop_eq_getElem_cons hk2]
  have h1 := set_append_cons (vals.take k) (d0.drop (k + 1)) d0[k] vals[k]
  rw [hl] at h1
  have h2 : vals.take (k + 1) = vals.take k ++ [vals[k]] := by
    rw [List.take_succ, List.getElem?_eq_getElem hk]
    rfl
  rw [h1, h2, List.append_assoc]
  rfl

theorem map_getElem_toFloat32 (vals : List ℚ) (k : Nat) (hk : k < vals.length) :
    (vals.map toFloat32)[k]? = some (toFloat32 vals[k]) := by
  simp [List.getElem?_map, List.getElem?_eq_getElem hk]

theorem readCell_step (vals d0 rest : List ℚ) (r cols c k : Nat) (hk : k < vals.length)
    (hfit : ∀ v ∈ vals, fitsFloat v)
    (hd : d0.length = vals.length) (hrc : r * cols + c = k) :
    readCell r cols (⟨vals.drop k ++ rest, false, false⟩,
        (vals.map toFloat32).take k ++ d0.drop k) c =
      (⟨vals.drop (k + 1) ++ rest, false, false⟩,
        (vals.map toFloat32).take (k + 1) ++ d0.drop (k + 1)) := by
  unfold readCell
  rw [hrc]
  have hk2 : k < (vals.map toFloat32).length := by simpa using hk
  have hf : ∀ cur, readFloat ⟨vals.drop k ++ rest, false, false⟩ cur =
      ((vals.map toFloat32)[k], ⟨vals.drop (k + 1) ++ rest, false, false⟩) := by
    intro cur
    rw [List.drop_eq_getElem_cons hk, List.cons_append,
      readFloat_fits _ (hfit _ (List.getElem_mem hk))]
    simp
  simp only [hf]
  rw [set_take_drop (vals.map toFloat32) d0 k hk2 (by simpa using hd)]

theorem readFilterRow_spec (vals d0 rest : List ℚ) (r cols : Nat)
    (hfit : ∀ v ∈ vals, fitsFloat v)
    (hd : d0.length = vals.length) (hr : (r + 1) * cols ≤ vals.length) :
    readFilterRow cols (⟨vals.drop (r * cols) ++ rest, false, false⟩,
        (vals.map toFloat32).take (r * cols) ++ d0.drop (r * cols)) r =
      (⟨vals.drop ((r + 1) * cols) ++ rest, false, false⟩,
        (vals.map toFloat32).take ((r + 1) * cols) ++ d0.drop ((r + 1) * cols)) := by
  have key : ∀ c, c ≤ cols →
      (List.range c).foldl (readCell r cols) (⟨vals.drop (r * cols) ++ rest, false, false⟩,
        (vals.map toFloat32).take (r * cols) ++ d0.drop (r * cols)) =
      (⟨vals.drop (r * cols + c) ++ rest, false, false⟩,
        (vals.map toFloat32).take (r * cols + c) ++ d0.drop (r * cols + c)) := by
    intro c
    induction c with
    | zero => intro _; rfl
    | succ c ih =>
      intro hc
      rw [List.range_succ, List.foldl_append, ih (by omega)]
      have hlt : r * cols + c < vals.length := by
        have : (r + 1) * cols = r * cols + cols := by ring
        omega
      exact readCell_step vals d0 rest r cols c (r * cols + c) hlt hfit hd rfl
  have h := key cols (le_refl _)
  have e : r * cols + cols = (r + 1) * cols := by ring
  rw [e] at h
  exact h

theorem readRows_spec (vals d0 rest : List ℚ) (rows cols : Nat)
    (hfit : ∀ v ∈ vals, fitsFloat v)
    (hd : d0.length = vals.length) (hv : vals.length = rows * cols) :
    (List.range rows).foldl (readFilterRow cols) (⟨vals ++ rest, false, false⟩, d0) =
      (⟨rest, false, false⟩, vals.map toFloat32) := by
  have key : ∀ r, r ≤ rows →
      (List.range r).foldl (readFilterRow cols) (⟨vals ++ rest, false, false⟩, d0) =
      (⟨vals.drop (r * cols) ++ rest, false, false⟩,
        (vals.map toFloat32).take (r * cols) ++ d0.drop (r * cols)) := by
    intro r
    induction r with
    | zero => intro _; simp
    | succ r ih =>
      intro hr
      rw [List.range_succ, List.foldl_append, ih (by omega)]
      have hle : (r + 1) * cols ≤ vals.length := by
        rw [hv]; exact Nat.mul_le_mul_right cols hr
      exact readFilterRow_spec vals d0 rest r cols hfit hd hle
  rw [key rows (le_refl _), ← hv]
  have e : (vals.map toFloat32).take vals.length = vals.map toFloat32 :=
    List.take_of_length_le (by simp)
  rw [e]
  simp [hd]

theorem filtersLoop_spec (rest : List ℚ) (blocks : List (Nat × Nat × List ℚ))
    (hwf : ∀ b ∈ blocks, wellFormedBlock b) :
    ∀ st : FilterState, st.file = ⟨filterTokens blocks ++ rest, false, false⟩ →
      ∃ st1, filtersLoop blocks.length st = .ok st1 ∧
        st1.file = ⟨rest, false, false⟩ ∧
        st1.filters = st.filters ++ blocks.map blockMatrix := by
  induction blocks with
  | nil =>
    intro st h
    exact ⟨st, rfl, by simpa [filterTokens] using h, by simp⟩
  | cons b bs ih =>
    intro st h
    obtain ⟨rows, cols, vals⟩ := b
    obtain ⟨h1, h2, h4, h3, h5⟩ := hwf (rows, cols, vals) (List.mem_cons_self _ _)
    dsimp only at h1 h2 h3 h4 h5
    have hrows : rows ≤ 2147483647 := by
      have : rows * 1 ≤ rows * cols := Nat.mul_le_mul_left rows h2
      omega
    have hcols : cols ≤ 2147483647 := by
      have : 1 * cols ≤ rows * cols := Nat.mul_le_mul_right cols h1
      omega
    have e1 : filterTokens ((rows, cols, vals) :: bs) ++ rest =
        (rows : ℚ) :: (cols : ℚ) :: (vals ++ (filterTokens bs ++ rest)) := by
      simp [filterTokens]
    rw [List.length_cons, filtersLoop, h, e1, readInt_natCast _ hrows]
    dsimp only
    rw [readInt_natCast _ hcols]
    dsimp only
    rw [cvCreateMatF_pos rows cols h1 h2]
    dsimp only
    rw [readRows_spec vals _ (filterTokens bs ++ rest) rows cols h5 (by simp [h3]) h3]
    obtain ⟨st1, q1, q2, q3⟩ := ih (fun b hb => hwf b (List.mem_cons_of_mem _ hb))
      { file := ⟨filterTokens bs ++ rest, false, false⟩, rows := (rows : Int),
        cols := (cols : Int),
        filters := st.filters ++ [⟨rows, cols, vals.map toFloat32⟩] } rfl
    refine ⟨st1, q1, q2, ?_⟩
    rw [q3]
    simp [blockMatrix]

/-- What `loadGaborFilters` does on a file that holds the count of the filters
and their blocks, all read in full. -/
theorem loadGaborFilters_wf (fs : FileSystem) (m : OsiManager)
    (blocks : List (Nat × Nat × List ℚ)) (rest : List ℚ)
    (hn : blocks.length ≤ 2147483647)
    (hwf : ∀ b ∈ blocks, wellFormedBlock b)
    (hfile : fs.numbers m.mFilenameGaborFilters =
      some ((blocks.length : ℚ) :: (filterTokens blocks ++ rest))) :
    loadGaborFilters fs m =
      ⟨[LoadEvent.loadGaborFilters, LoadEvent.openFile m.mFilenameGaborFilters],
        .ok { m with mGaborFilters := blocks.map blockMatrix }⟩ := by
  obtain ⟨st1, q1, _, q3⟩ := filtersLoop_spec rest blocks hwf
    ⟨⟨filterTokens blocks ++ rest, false, false⟩, 0, 0, []⟩ rfl
  unfold loadGaborFilters
  rw [hfile]
  dsimp only
  rw [readInt_natCast _ hn]
  dsimp only
  rw [if_neg (by omega), Int.toNat_ofNat, q1]
  dsimp only
  rw [q3]
  rfl

theorem loadResources_result (fs : FileSystem) (m : OsiManager) (ws : List String)
    (hw : fs.words m.mFilenameListOfImages = some ws) :
    (loadResources fs m).result =
      if m.mProcessEncoding && m.mFilenameGaborFilters != "" then
        match (loadGaborFilters fs { m with mListOfImages := m.mListOfImages ++ ws }).result with
        | .error what => .error what
        | .ok m2 =>
          if m2.mProcessMatching && m2.mFilenameApplicationPoints != "" then
            (loadApplicationPoints fs m2).result
          else .ok m2
      else if m.mProcessMatching && m.mFilenameApplicationPoints != "" then
        (loadApplicationPoints fs { m with mListOfImages := m.mListOfImages ++ ws }).result
      else .ok { m with mListOfImages := m.mListOfImages ++ ws } := by
  have hl : loadListOfImages fs m =
      ⟨[LoadEvent.loadListOfImages, LoadEvent.openFile m.mFilenameListOfImages],
        .ok { m with mListOfImages := m.mListOfImages ++ ws }⟩ := by
    unfold loadListOfImages; rw [hw]
  unfold loadResources
  rw [hl]
  dsimp only
  by_cases hg : (m.mProcessEncoding && m.mFilenameGaborFilters != "") = true
  · rw [if_pos hg, if_pos hg]
    cases hr : (loadGaborFilters fs { m with mListOfImages := m.mListOfImages ++ ws }).result with
    | error e => rfl
    | ok m2 =>
      dsimp only
      split <;> rfl
  · rw [if_neg hg, if_neg hg]
    dsimp only
    split <;> rfl

theorem loadConfiguration_parsed (osu : OsiStringUtils) (fs : FileSystem) (m m1 : OsiManager)
    (sConfigPath : String) (ls : List String)
    (hp : 0 < sConfigPath.length)
    (hf : fs.lines (basePath sConfigPath ++ "process.ini") = some ls)
    (hparse : (parseLines osu (basePath sConfigPath) m ls).result = .ok m1) :
    (loadConfiguration osu fs m sConfigPath).events =
      LoadEvent.openFile (basePath sConfigPath ++ "process.ini") ::
        ((parseLines osu (basePath sConfigPath) m ls).events ++
          (loadResources fs m1).events) ∧
    (loadConfiguration osu fs m sConfigPath).result = (loadResources fs m1).result ∧
    loaderCalls (loadConfiguration osu fs m sConfigPath).events =
      loaderCalls (loadResources fs m1).events := by
  have hev : (loadConfiguration osu fs m sConfigPath).events =
      LoadEvent.openFile (basePath sConfigPath ++ "process.ini") ::
        ((parseLines osu (basePath sConfigPath) m ls).events ++
          (loadResources fs m1).events) ∧
      (loadConfiguration osu fs m sConfigPath).result = (loadResources fs m1).result := by
    unfold loadConfiguration
    rw [if_neg (by omega), hf]
    dsimp only
    rw [hparse]
    exact ⟨rfl, rfl⟩
  refine ⟨hev.1, hev.2, ?_⟩
  rw [hev.1]
  have : ∀ (x : List LoadEvent) p, loaderCalls (LoadEvent.openFile p :: x) = loaderCalls x :=
    fun x p => rfl
  rw [this, loaderCalls_append, parseLines_loaderCalls, List.nil_append]

/-- What `loadResources` leaves when the three files are read in full. -/
theorem loadResources_wf (fs : FileSystem) (m : OsiManager) (ws : List String)
    (blocks : List (Nat × Nat × List ℚ)) (restF : List ℚ)
    (H W : Nat) (pts : List (Int × Int)) (restP : List ℚ)
    (hw : fs.words m.mFilenameListOfImages = some ws)
    (hF : (m.mProcessEncoding && m.mFilenameGaborFilters != "") = true →
      blocks.length ≤ 2147483647 ∧ (∀ b ∈ blocks, wellFormedBlock b) ∧
      fs.numbers m.mFilenameGaborFilters =
        some ((blocks.length : ℚ) :: (filterTokens blocks ++ restF)))
    (hP : (m.mProcessMatching && m.mFilenameApplicationPoints != "") = true →
      0 < H ∧ 0 < W ∧ H * W ≤ 2147483647 ∧
      m.mHeightOfNormalizedIris = (H : Int) ∧ m.mWidthOfNormalizedIris = (W : Int) ∧
      pts.length ≤ 2147483647 ∧ (∀ p ∈ pts, fitsInt p.1 ∧ fitsInt p.2) ∧
      fs.numbers m.mFilenameApplicationPoints =
        some ((pts.length : ℚ) :: (pointTokens pts ++ restP))) :
    (loadResources fs m).result =
      .ok { m with
        mListOfImages := m.mListOfImages ++ ws
        mGaborFilters :=
          if m.mProcessEncoding && m.mFilenameGaborFilters != "" then blocks.map blockMatrix
          else m.mGaborFilters
        mpApplicationPoints :=
          if m.mProcessMatching && m.mFilenameApplicationPoints != "" then
            some ⟨H, W, markAll H W pts (List.replicate (H * W) 0)⟩
          else m.mpApplicationPoints } := by
  rw [loadResources_result fs m ws hw]
  by_cases hg : (m.mProcessEncoding && m.mFilenameGaborFilters != "") = true
  · obtain ⟨f1, f2, f3⟩ := hF hg
    rw [if_pos hg, if_pos hg,
      loadGaborFilters_wf fs { m with mListOfImages := m.mListOfImages ++ ws } blocks restF
        f1 f2 f3]
    dsimp only
    by_cases hq : (m.mProcessMatching && m.mFilenameApplicationPoints != "") = true
    · obtain ⟨p1, p2, _, p4, p5, p6, p7, p8⟩ := hP hq
      rw [if_pos hq, if_pos hq,
        loadApplicationPoints_wf fs
          { m with
            mListOfImages := m.mListOfImages ++ ws
            mGaborFilters := blocks.map blockMatrix }
          H W pts restP p1 p2 p4 p5 p6 p7 p8]
    · rw [if_neg hq, if_neg hq]
  · rw [if_neg hg, if_neg hg]
    by_cases hq : (m.mProcessMatching && m.mFilenameApplicationPoints != "") = true
    · obtain ⟨p1, p2, _, p4, p5, p6, p7, p8⟩ := hP hq
      rw [if_pos hq, if_pos hq,
        loadApplicationPoints_wf fs { m with mListOfImages := m.mListOfImages ++ ws }
          H W pts restP p1 p2 p4 p5 p6 p7 p8]
    · rw [if_neg hq, if_neg hq]

/-- C19, counterexample: the configuration enables encoding and matching and
names the three files; the list of images and the points file exist, the
file of the filters does not.  `loadConfiguration` fails with the message of
`loadGaborFilters`, and `loadApplicationPoints` is never called, although
matching is enabled and the points path is not empty. -/
theorem C19_counterexample :
    lostFilters.lines (basePath "cfg" ++ "process.ini") = sampleFiles.lines "cfg/process.ini" ∧
    (∃ ls, sampleFiles.lines "cfg/process.ini" = some ls ∧
      (parseLines plainUtils (basePath "cfg") initConfiguration ls).result = .ok sampleParsed) ∧
    sampleParsed.mProcessMatching = true ∧
    sampleParsed.mFilenameApplicationPoints = "cfg/points.txt" ∧
    lostFilters.numbers "cfg/points.txt" = some [4, 0, 1, 1, 2, 5, 0, 0, 1] ∧
    lostFilters.words sampleParsed.mFilenameListOfImages = some ["a.bmp", "b.bmp"] ∧
    loadError (loadConfiguration plainUtils lostFilters initConfiguration "cfg") =
      some "Cannot load Gabor filters in file cfg/filters.txt" ∧
    loaderCalls (loadConfiguration plainUtils lostFilters initConfiguration "cfg").events =
      [LoadEvent.loadListOfImages, LoadEvent.loadGaborFilters] :=
  ⟨rfl, ⟨_, rfl, rfl⟩, rfl, rfl, rfl, rfl, rfl, rfl⟩

/-- C19 (amended): when the configuration file opens and its lines are parsed
to `m1`, no loader runs before the last line is consumed; the list of images
is loaded first and whatever the configuration; if the list cannot be opened
`loadConfiguration` fails and no other loader runs; otherwise the filters are
loaded exactly when encoding is enabled and the filter path is not empty, and,
unless loading the filters failed, the application points are loaded after
them exactly when matching is enabled and the points path is not empty.  When
loading the filters fails, `loadConfiguration` fails with the same message and
the application points are not loaded.  When the files that are loaded are
read in full, `loadConfiguration` succeeds and leaves `m1` with the words of
the list appended to the image list, the filters of the file when they are
loaded, and the mask of the points file when it is loaded. -/
theorem C19_resource_loading (osu : OsiStringUtils) (fs : FileSystem) (m m1 : OsiManager)
    (sConfigPath : String) (ls : List String)
    (hp : 0 < sConfigPath.length)
    (hf : fs.lines (basePath sConfigPath ++ "process.ini") = some ls)
    (hparse : (parseLines osu (basePath sConfigPath) m ls).result = .ok m1) :
    loaderCalls (parseLines osu (basePath sConfigPath) m ls).events = [] ∧
    (loadConfiguration osu fs m sConfigPath).events =
      LoadEvent.openFile (basePath sConfigPath ++ "process.ini") ::
        ((parseLines osu (basePath sConfigPath) m ls).events ++ (loadResources fs m1).events) ∧
    (∃ rest, (loadResources fs m1).events =
      LoadEvent.loadListOfImages :: LoadEvent.openFile m1.mFilenameListOfImages :: rest) ∧
    (fs.words m1.mFilenameListOfImages = none →
      (loadConfiguration osu fs m sConfigPath).result =
        .error ("Cannot load the list of images in " ++ m1.mFilenameListOfImages) ∧
      loaderCalls (loadConfiguration osu fs m sConfigPath).events =
        [LoadEvent.loadListOfImages]) ∧
    (∀ ws, fs.words m1.mFilenameListOfImages = some ws →
      loaderCalls (loadConfiguration osu fs m sConfigPath).events =
        LoadEvent.loadListOfImages ::
          (if m1.mProcessEncoding && m1.mFilenameGaborFilters != "" then
            LoadEvent.loadGaborFilters ::
              (match (loadGaborFilters fs
                  { m1 with mListOfImages := m1.mListOfImages ++ ws }).result with
                | .ok _ => pointsCalls m1
                | .error _ => [])
          else pointsCalls m1) ∧
      (∀ what, (m1.mProcessEncoding && m1.mFilenameGaborFilters != "") = true →
        (loadGaborFilters fs { m1 with mListOfImages := m1.mListOfImages ++ ws }).result =
          .error what →
        (loadConfiguration osu fs m sConfigPath).result = .error what ∧
        loaderCalls (loadConfiguration osu fs m sConfigPath).events =
          [LoadEvent.loadListOfImages, LoadEvent.loadGaborFilters]) ∧
      (∀ (blocks : List (Nat × Nat × List ℚ)) (restF : List ℚ) (H W : Nat)
          (pts : List (Int × Int)) (restP : List ℚ),
        ((m1.mProcessEncoding && m1.mFilenameGaborFilters != "") = true →
          blocks.length ≤ 2147483647 ∧ (∀ b ∈ blocks, wellFormedBlock b) ∧
          fs.numbers m1.mFilenameGaborFilters =
            some ((blocks.length : ℚ) :: (filterTokens blocks ++ restF))) →
        ((m1.mProcessMatching && m1.mFilenameApplicationPoints != "") = true →
          0 < H ∧ 0 < W ∧ H * W ≤ 2147483647 ∧
          m1.mHeightOfNormalizedIris = (H : Int) ∧ m1.mWidthOfNormalizedIris = (W : Int) ∧
          pts.length ≤ 2147483647 ∧ (∀ p ∈ pts, fitsInt p.1 ∧ fitsInt p.2) ∧
          fs.numbers m1.mFilenameApplicationPoints =
            some ((pts.length : ℚ) :: (pointTokens pts ++ restP))) →
        ∃ data : List Nat,
          (loadConfiguration osu fs m sConfigPath).result =
            .ok { m1 with
              mListOfImages := m1.mListOfImages ++ ws
              mGaborFilters :=
                if m1.mProcessEncoding && m1.mFilenameGaborFilters != "" then
                  blocks.map blockMatrix
                else m1.mGaborFilters
              mpApplicationPoints :=
                if m1.mProcessMatching && m1.mFilenameApplicationPoints != "" then
                  some ⟨H, W, data⟩
                else m1.mpApplicationPoints } ∧
          data.length = H * W ∧
          ∀ i j : Nat, i < H → j < W →
            data[i * W + j]? = some (if ((i : Int), (j : Int)) ∈ pts then 255 else 0))) := by
  obtain ⟨hev, hres, hcalls⟩ := loadConfiguration_parsed osu fs m m1 sConfigPath ls hp hf hparse
  refine ⟨parseLines_loaderCalls _ _ _ _, hev, ?_, ?_, ?_⟩
  · obtain ⟨rest, hrest⟩ := loadResources_events_head fs m1
    exact ⟨rest, hrest⟩
  · intro hw
    rw [hcalls, hres]
    unfold loadResources loadListOfImages
    rw [hw]
    exact ⟨rfl, rfl⟩
  · intro ws hw
    have hc := loadResources_calls fs m1 ws hw
    refine ⟨by rw [hcalls]; exact hc, ?_, ?_⟩
    · intro what hg he
      rw [hcalls, hres, hc, loadResources_result fs m1 ws hw, if_pos hg, if_pos hg, he]
      exact ⟨rfl, rfl⟩
    · intro blocks restF H W pts restP hF hP
      refine ⟨markAll H W pts (List.replicate (H * W) 0), ?_, ?_, ?_⟩
      · rw [hres]
        exact loadResources_wf fs m1 ws blocks restF H W pts restP hw hF hP
      · rw [markAll_length]; simp
      · intro i j hi hj
        rw [markAll_cell H W pts i j hi hj _ (by simp)]
        have hk : i * W + j < H * W := by
          calc i * W + j < i * W + W := by omega
            _ = (i + 1) * W := by ring
            _ ≤ H * W := Nat.mul_le_mul_right W hi
        split
        · rfl
        · simp [hk]

/-- C19 (amended) at a concrete input: the sample configuration enables
encoding and matching and names the three files; the three loaders run in
order and leave the two images, the two filters and the mask. -/
theorem C19_resource_loading_witness :
    loaderCalls (loadConfiguration plainUtils sampleFiles initConfiguration "cfg").events =
      [LoadEvent.loadListOfImages, LoadEvent.loadGaborFilters,
        LoadEvent.loadApplicationPoints] ∧
    ∃ data : List Nat,
      (loadConfiguration plainUtils sampleFiles initConfiguration "cfg").result =
        .ok { sampleParsed with
          mListOfImages := ["a.bmp", "b.bmp"]
          mGaborFilters := [⟨3, 3, [1, 2, 3, 4, 5, 6, 7, 8, 9].map toFloat32⟩,
            ⟨5, 1, [10, 11, 12, 13, 14].map toFloat32⟩]
          mpApplicationPoints := some ⟨2, 3, data⟩ } ∧
      data.length = 2 * 3 ∧
      ∀ i j : Nat, i < 2 → j < 3 →
        data[i * 3 + j]? =
          some (if ((i : Int), (j : Int)) ∈ [((0 : Int), (1 : Int)), (1, 2), (5, 0), (0, 1)]
            then 255 else 0) := by
  have h := (C19_resource_loading plainUtils sampleFiles initConfiguration sampleParsed "cfg"
    _ (by decide) rfl rfl).2.2.2.2 ["a.bmp", "b.bmp"] rfl
  refine ⟨?_, ?_⟩
  · rw [h.1]; decide!
  · exact h.2.2 [(3, 3, [1, 2, 3, 4, 5, 6, 7, 8, 9]), (5, 1, [10, 11, 12, 13, 14])] []
      2 3 [(0, 1), (1, 2), (5, 0), (0, 1)] []
      (fun _ => ⟨by decide, by unfold wellFormedBlock fitsFloat; decide!,
        by simp [sampleFiles, sampleParsed, filterTokens]⟩)
      (fun _ => ⟨by decide, by decide, by decide, rfl, rfl, by decide,
        by unfold fitsInt; decide, by simp [sampleFiles, sampleParsed, pointTokens]⟩)

/-! ## Lemmas on the pairs of run -/

end Osiris
